import Mathlib

/-!
The expe3000 presentation engine.

A shallow embedding of the real-time core of `go-expe3000/engine`:

* `audio.go`      : `AudioMixer.Play` and `AudioMixer.Callback`
* `experiment.go` : `EventLog.Log` and the frame loop of `RunExperiment`
* `run.go`        : the computation of `cfg.TotalDuration` in `Run`

Conventions.  Go `uint64` / `uint32` values are natural numbers and every
arithmetic operation that can wrap is written with an explicit modulus.  Go
slices that can be `nil` are `Option (List _)`.  Calls into SDL, the serial
port and the terminal are recorded in an effect trace.  The clock, the input
queue and the concurrent audio thread are inputs of each frame.
-/

namespace Expe3000

/-! ## Machine arithmetic -/

/-- Number of values of a Go `uint64`. -/
def U64 : Nat := 2 ^ 64

/-- Number of values of a Go `uint32`. -/
def U32 : Nat := 2 ^ 32

/-- Go `a + b` on `uint64`. -/
def add64 (a b : Nat) : Nat := (a + b) % U64

/-- Go `a - b` on `uint64`. -/
def sub64 (a b : Nat) : Nat := (a % U64 + (U64 - b % U64)) % U64

/-- Go `a + b` on `uint32`. -/
def add32 (a b : Nat) : Nat := (a + b) % U32

/-- Go `a - b` on `uint32`. -/
def sub32 (a b : Nat) : Nat := (a % U32 + (U32 - b % U32)) % U32

/-! ## stimuli.go -/

/-- `type StimType int` with its four constants. -/
inductive StimType where
  | StimImage
  | StimSound
  | StimText
  | StimEnd
  deriving DecidableEq, Repr, Inhabited

open StimType

/-- `type Stimulus struct` (the field `Type` is spelled `Typ`, `Type` being reserved). -/
structure Stimulus where
  TimestampMS : Nat
  DurationMS : Nat
  Typ : StimType
  FilePath : String
  deriving DecidableEq, Repr, Inhabited

/-- `type Experiment struct`. -/
structure Experiment where
  Stimuli : List Stimulus
  deriving DecidableEq, Repr, Inhabited

/-! ## resources.go (types) -/

/-- `sdl.AudioSpec`: sample format code, channel count, frequency. -/
structure AudioSpec where
  Format : Nat := 0
  Channels : Nat := 0
  Freq : Nat := 0
  deriving DecidableEq, Repr, Inhabited

/-- `type SoundResource struct`; `Data` is `none` for a nil slice. -/
structure SoundResource where
  Data : Option (List UInt8) := none
  Spec : AudioSpec := {}
  deriving DecidableEq, Repr, Inhabited

/-- `len(r.Data)`, which is 0 for a nil slice. -/
def SoundResource.len (r : SoundResource) : Nat :=
  match r.Data with
  | none => 0
  | some d => d.length

/-- `type Resource struct`.  `Texture` is `none` for a nil pointer and a handle
otherwise; `W`, `H` are the dimensions reported by the decoder (only copied by
the code modelled here). -/
structure Resource where
  Texture : Option Nat := none
  W : Int := 0
  H : Int := 0
  Sound : SoundResource := {}
  deriving DecidableEq, Repr, Inhabited

/-! ## audio.go -/

/-- `const MaxActiveSounds`. -/
def MaxActiveSounds : Nat := 16

/-- `const AudioScratchBytes`. -/
def AudioScratchBytes : Nat := 4096

/-- `type ActiveSound struct`; `Resource` is `none` for a nil pointer. -/
structure ActiveSound where
  Resource : Option SoundResource := none
  PlayPos : Nat := 0
  Active : Bool := false
  deriving DecidableEq, Repr, Inhabited

/-- `type AudioMixer struct` (the mutex is not data; each `Play` call and each
fill pass of `Callback` is one atomic step). -/
structure AudioMixer where
  Slots : Fin MaxActiveSounds → ActiveSound
  Scratch : List UInt8

/-- `NewAudioMixer`: zero-valued slots and a scratch buffer of 4096 bytes. -/
def NewAudioMixer : AudioMixer :=
  { Slots := fun _ => {}, Scratch := List.replicate AudioScratchBytes 0 }

/-- The slot scan of `AudioMixer.Play`, `for i := 0; i < MaxActiveSounds; i++`,
entered at index `i` with `fuel` iterations left. -/
def AudioMixer.playLoop (res : SoundResource) (m : AudioMixer) : Nat → Nat → AudioMixer × Bool
  | 0, _ => (m, false)
  | fuel + 1, i =>
    if h : i < MaxActiveSounds then
      if !(m.Slots ⟨i, h⟩).Active then
        ({ m with Slots := Function.update m.Slots ⟨i, h⟩
                    { Resource := some res, PlayPos := 0, Active := true } }, true)
      else
        AudioMixer.playLoop res m fuel (i + 1)
    else
      (m, false)

/-- `func (m *AudioMixer) Play(res *SoundResource) bool`: the new mixer and the
returned flag. -/
def AudioMixer.Play (m : AudioMixer) (res : SoundResource) : AudioMixer × Bool :=
  AudioMixer.playLoop res m MaxActiveSounds 0

/-- Value of the 16-bit pattern `u` as a Go `int16`. -/
def toInt16 (u : Nat) : Int :=
  if u % 65536 < 32768 then (u % 65536 : Nat) else ((u % 65536 : Nat) : Int) - 65536

/-- The `int16` at byte offset `k` of a byte buffer seen through
`unsafe.Slice((*int16)(...))` (little-endian layout). -/
def readI16 (buf : List UInt8) (k : Nat) : Int :=
  toInt16 ((buf.getD k 0).toNat + 256 * (buf.getD (k + 1) 0).toNat)

/-- Store of the `int16` value `v` at byte offset `k` (little-endian layout). -/
def writeI16 (buf : List UInt8) (k : Nat) (v : Int) : List UInt8 :=
  (buf.set k (UInt8.ofNat ((v % 65536).toNat % 256))).set (k + 1)
    (UInt8.ofNat ((v % 65536).toNat / 256))

/-- The saturation of `Callback`: `if val > 32767 ... else if val < -32768 ...`. -/
def clamp16 (val : Int) : Int :=
  if val > 32767 then 32767 else if val < -32768 then -32768 else val

/-- The sample loop of `Callback`, `for j := range src`, where `src` is the
`n` samples of `data` starting at byte `pos` and `dst` views the scratch
buffer from byte 0. -/
def mixSamples (data : List UInt8) (pos n : Nat) (scratch : List UInt8) : List UInt8 :=
  (List.range n).foldl
    (fun dst j => writeI16 dst (2 * j) (clamp16 (readI16 dst (2 * j) + readI16 data (pos + 2 * j))))
    scratch

/-- The byte count `toMix` of `Callback` (audio.go lines 54 to 58) for a slot at
`playPos` in the resource `res`: `uint32(chunk)` capped by `soundRemaining`. -/
def slotToMix (chunk : Nat) (res : SoundResource) (playPos : Nat) : Nat :=
  let soundRemaining := sub32 (res.len % U32) playPos
  if chunk % U32 > soundRemaining then soundRemaining else chunk % U32

/-- The body of the slot loop of `Callback` for one active slot: `none` is a
run-time panic (nil resource, or `Data[PlayPos]` out of range). -/
def mixSlot (chunk : Nat) (s : ActiveSound) (scratch : List UInt8) :
    Option (ActiveSound × List UInt8) :=
  match s.Resource with
  | none => none
  | some res =>
    let len32 := res.len % U32
    let toMix := slotToMix chunk res s.PlayPos
    if s.PlayPos < res.len then
      let scratch1 := mixSamples (res.Data.getD []) s.PlayPos (toMix / 2) scratch
      let playPos := add32 s.PlayPos toMix
      some ({ s with PlayPos := playPos,
                     Active := if playPos ≥ len32 then false else s.Active }, scratch1)
    else
      none

/-- The slot loop of `Callback`, `for i := 0; i < MaxActiveSounds; i++`, entered
at index `i` with `fuel` iterations left. -/
def fillLoop (chunk : Nat) :
    Nat → Nat → (Fin MaxActiveSounds → ActiveSound) → List UInt8 →
      Option ((Fin MaxActiveSounds → ActiveSound) × List UInt8)
  | 0, _, slots, scratch => some (slots, scratch)
  | fuel + 1, i, slots, scratch =>
    if h : i < MaxActiveSounds then
      if !(slots ⟨i, h⟩).Active then
        fillLoop chunk fuel (i + 1) slots scratch
      else
        match mixSlot chunk (slots ⟨i, h⟩) scratch with
        | none => none
        | some (s1, scratch1) =>
          fillLoop chunk fuel (i + 1) (Function.update slots ⟨i, h⟩ s1) scratch1
    else
      some (slots, scratch)

/-- The clearing loop `for i := 0; i < chunk; i++ { m.Scratch[i] = 0 }`. -/
def clearScratch (chunk : Nat) (scratch : List UInt8) : List UInt8 :=
  (List.range chunk).foldl (fun b i => b.set i 0) scratch

/-- One fill pass of `Callback` (one iteration of `for remaining > 0`) for a
chunk of `chunk` bytes: the new mixer and the bytes handed to
`stream.PutData`; `none` is a run-time panic. -/
def AudioMixer.fillPass (m : AudioMixer) (chunk : Nat) : Option (AudioMixer × List UInt8) :=
  if chunk ≤ m.Scratch.length ∧ 0 < m.Scratch.length then
    match fillLoop chunk MaxActiveSounds 0 m.Slots (clearScratch chunk m.Scratch) with
    | none => none
    | some (slots, scratch) => some ({ Slots := slots, Scratch := scratch }, scratch.take chunk)
  else
    none

/-- The loop `for remaining > 0` of `Callback` with `fuel` iterations left;
`out` collects the chunks handed to `stream.PutData`. -/
def AudioMixer.callbackLoop :
    Nat → AudioMixer → Int → List (List UInt8) → Option (AudioMixer × List (List UInt8))
  | 0, m, _, out => some (m, out)
  | fuel + 1, m, remaining, out =>
    if remaining > 0 then
      let chunk := if remaining > AudioScratchBytes then (AudioScratchBytes : Int) else remaining
      match m.fillPass chunk.toNat with
      | none => none
      | some (m1, bytes) => AudioMixer.callbackLoop fuel m1 (remaining - chunk) (out ++ [bytes])
    else
      some (m, out)

/-- `func (m *AudioMixer) Callback(stream, additionalAmount, totalAmount)`:
the new mixer and the chunks handed to the stream, in order.  Every iteration
lowers `remaining` by at least one, so `additionalAmount` iterations suffice. -/
def AudioMixer.Callback (m : AudioMixer) (additionalAmount : Int) :
    Option (AudioMixer × List (List UInt8)) :=
  AudioMixer.callbackLoop additionalAmount.toNat m additionalAmount []

/-! ## experiment.go: the event log -/

/-- `type EventLogEntry struct` (the field `Type` is spelled `Typ`). -/
structure EventLogEntry where
  IntendedMS : Nat
  TimestampMS : Nat
  Typ : String
  Label : String
  deriving DecidableEq, Repr, Inhabited

/-- `type EventLog struct`. -/
structure EventLog where
  Entries : List EventLogEntry := []
  deriving DecidableEq, Repr, Inhabited

/-- `func (l *EventLog) Log(intended, actual uint64, stype, label string)`. -/
def EventLog.Log (l : EventLog) (intended actual : Nat) (stype label : String) : EventLog :=
  { Entries := l.Entries ++
      [{ IntendedMS := intended, TimestampMS := actual, Typ := stype, Label := label }] }

/-! ## experiment.go: the frame loop of RunExperiment -/

/-- The fields of `type Config struct` that `RunExperiment` branches on (the
colours, the screen size and the scale factor only parametrise drawing). -/
structure Config where
  TotalDuration : Nat := 0
  UseFixation : Bool := true
  VSync : Bool := true
  deriving DecidableEq, Repr, Inhabited

/-- `sdl.K_ESCAPE`, the key code of the escape key. -/
def K_ESCAPE : Nat := 27

/-- An SDL event as `RunExperiment` sees it: `EVENT_QUIT`, `EVENT_KEY_DOWN`
with the key code and the key name SDL reports for it, or any other type. -/
inductive Event where
  | Quit
  | KeyDown (key : Nat) (keyName : String)
  | Other
  deriving DecidableEq, Repr, Inhabited

/-- A call that leaves the engine: the mixer (`Play` with its result), the
trigger device, the renderer, the terminal and `sdl.Delay`. -/
inductive Effect where
  | MixerPlay (index : Nat) (ok : Bool)
  | DlpSet (lines : String)
  | DlpDelay (ms : Nat)
  | DlpUnset (lines : String)
  | Progress (cs total : Nat)
  | Clear
  | RenderTexture (index : Nat)
  | FixationCross
  | Present
  | Delay (ms : Nat)
  deriving DecidableEq, Repr, Inhabited

/-- What one iteration of `for run` reads from outside the engine: the reading
of `sdl.Ticks()` at the top of the frame, the pending events drained by
`sdl.PollEvent`, the reading of `sdl.Ticks()` after `renderer.Present()`, and
the slot table as the concurrent audio callback left it since the previous
frame (`none` when it did not run). -/
structure FrameInput where
  ticks : Nat
  events : List Event := []
  ticksAfter : Nat
  audioSlots : Option (Fin MaxActiveSounds → ActiveSound) := none

/-- The variables of `RunExperiment` that live across iterations, the two
objects it mutates through pointers (`log`, `mixer`) and the effect trace. -/
structure RunState where
  cs : Nat := 0
  avi : Int := -1
  vet : Nat := 0
  run : Bool := true
  aborted : Bool := false
  log : EventLog := {}
  mixer : AudioMixer := NewAudioMixer
  trace : List Effect := []

/-- `resources[i]`.  `Run` passes the slice returned by `ResourceCache.Load`,
which holds one resource per timeline position, and `RunExperiment` reads it
only at indices below `len(exp.Stimuli)`; outside that range, where the Go
index expression panics, the model yields the zero `Resource`. -/
def resourceAt (resources : List Resource) (i : Nat) : Resource :=
  resources.getD i {}

/-- `exp.Stimuli[i]` for an `int` index that the code has checked. -/
def stimulusAt (exp : Experiment) (i : Int) : Stimulus :=
  exp.Stimuli.getD i.toNat default

/-- The event loop `for { if !sdl.PollEvent(&ev) { break } ... }`. -/
def pollEvents (ct : Nat) : List Event → RunState → RunState
  | [], st => st
  | Event.Quit :: evs, st => pollEvents ct evs { st with run := false, aborted := true }
  | Event.KeyDown key keyName :: evs, st =>
    if key = K_ESCAPE then
      pollEvents ct evs { st with run := false, aborted := true }
    else
      pollEvents ct evs { st with log := st.log.Log ct ct "RESPONSE" keyName }
  | Event.Other :: evs, st => pollEvents ct evs st

/-- The condition of the firing check,
`cs < len(exp.Stimuli) && (ct+laMS) >= exp.Stimuli[cs].TimestampMS`. -/
def fireCond (exp : Experiment) (laMS ct cs : Nat) : Bool :=
  match exp.Stimuli[cs]? with
  | none => false
  | some s => decide (add64 ct laMS ≥ s.TimestampMS)

/-- The firing check (experiment.go lines 143 to 172): the new state with the
frame-local `trig` and `tidx`. -/
def fireStimulus (exp : Experiment) (resources : List Resource) (dlp : Bool) (laMS ct : Nat)
    (st : RunState) : RunState × Bool × Int :=
  if fireCond exp laMS ct st.cs then
    let s := stimulusAt exp st.cs
    let r :=
      if (s.Typ = StimImage ∨ s.Typ = StimText) ∧ (resourceAt resources st.cs).Texture ≠ none then
        ({ st with
            avi := st.cs
            vet := add64 ct s.DurationMS
            trace := st.trace ++
              (if dlp then [Effect.DlpSet (if s.Typ = StimImage then "1" else "3")] else []) },
          true, (st.cs : Int))
      else if s.Typ = StimSound ∧ (resourceAt resources st.cs).Sound.Data ≠ none then
        let p := st.mixer.Play (resourceAt resources st.cs).Sound
        if p.2 then
          ({ st with
              mixer := p.1
              log := st.log.Log s.TimestampMS ct "SOUND_ONSET" s.FilePath
              trace := st.trace ++ [Effect.MixerPlay st.cs true] ++
                (if dlp then [Effect.DlpSet "2", Effect.DlpDelay 5, Effect.DlpUnset "2"] else []) },
            false, (-1 : Int))
        else
          ({ st with mixer := p.1, trace := st.trace ++ [Effect.MixerPlay st.cs false] },
            false, (-1 : Int))
      else
        (st, false, (-1 : Int))
    ({ r.1 with cs := r.1.cs + 1
                trace := r.1.trace ++ [Effect.Progress (r.1.cs + 1) exp.Stimuli.length] },
      r.2.1, r.2.2)
  else
    (st, false, -1)

/-- The expiry check (experiment.go lines 174 to 190). -/
def expireVisible (exp : Experiment) (dlp : Bool) (ct : Nat) (st : RunState) : RunState :=
  if st.avi ≠ -1 ∧ ct ≥ st.vet then
    let s := stimulusAt exp st.avi
    let intendedOff := add64 s.TimestampMS s.DurationMS
    let stype := if s.Typ = StimText then "TEXT_OFFSET" else "IMAGE_OFFSET"
    { st with
        log := st.log.Log intendedOff ct stype s.FilePath
        trace := st.trace ++
          (if dlp then [Effect.DlpUnset (if s.Typ = StimImage then "1" else "3")] else [])
        avi := -1 }
  else
    st

/-- The termination check (experiment.go lines 192 to 194). -/
def checkTermination (cfg : Config) (exp : Experiment) (ct : Nat) (st : RunState) : RunState :=
  if st.cs ≥ exp.Stimuli.length ∧ st.avi = -1 ∧ ct ≥ cfg.TotalDuration then
    { st with run := false }
  else
    st

/-- The drawing of the frame (experiment.go lines 196 to 210). -/
def renderFrame (cfg : Config) (st : RunState) : RunState :=
  { st with
      trace := st.trace ++ [Effect.Clear] ++
        (if st.avi ≠ -1 then [Effect.RenderTexture st.avi.toNat]
         else if cfg.UseFixation then [Effect.FixationCross] else []) ++
        [Effect.Present] }

/-- The deferred onset entry (experiment.go lines 212 to 221); `ot` is the
elapsed time read after `Present`. -/
def logOnset (exp : Experiment) (ot : Nat) (trig : Bool) (tidx : Int) (st : RunState) : RunState :=
  if trig then
    let s := stimulusAt exp tidx
    let stype := if s.Typ = StimText then "TEXT_ONSET" else "IMAGE_ONSET"
    { st with
        log := st.log.Log s.TimestampMS ot stype s.FilePath
        vet := add64 ot s.DurationMS }
  else
    st

/-- The final `if !cfg.VSync { sdl.Delay(1) }`. -/
def yieldFrame (cfg : Config) (st : RunState) : RunState :=
  if !cfg.VSync then { st with trace := st.trace ++ [Effect.Delay 1] } else st

/-- The slot table as the audio thread left it before this frame. -/
def audioThread (inp : FrameInput) (st : RunState) : RunState :=
  match inp.audioSlots with
  | none => st
  | some slots => { st with mixer := { st.mixer with Slots := slots } }

/-- One iteration of `for run` in `RunExperiment`; `laMS` is the lookahead and
`stTicks` the reading of `sdl.Ticks()` taken before the loop. -/
def frame (cfg : Config) (exp : Experiment) (resources : List Resource) (dlp : Bool)
    (laMS stTicks : Nat) (st : RunState) (inp : FrameInput) : RunState :=
  let ct := sub64 inp.ticks stTicks
  let st1 := pollEvents ct inp.events (audioThread inp st)
  let fired := fireStimulus exp resources dlp laMS ct st1
  let st3 := expireVisible exp dlp ct fired.1
  let st4 := checkTermination cfg exp ct st3
  let st5 := renderFrame cfg st4
  let st6 := logOnset exp (sub64 inp.ticksAfter stTicks) fired.2.1 fired.2.2 st5
  yieldFrame cfg st6

/-- The loop `for run { ... }` over the frames the environment supplies. -/
def runLoop (cfg : Config) (exp : Experiment) (resources : List Resource) (dlp : Bool)
    (laMS stTicks : Nat) : List FrameInput → RunState → RunState
  | [], st => st
  | inp :: rest, st =>
    if st.run then
      runLoop cfg exp resources dlp laMS stTicks rest (frame cfg exp resources dlp laMS stTicks st inp)
    else
      st

/-- `RunExperiment` up to the end of the supplied frames.  `fdMS` is the frame
period `uint64(1000.0 / rr)` the code derives from the display refresh rate,
`stTicks` the clock reading before the loop; `mixer` and `log` are the objects
passed by pointer. -/
def RunExperiment (cfg : Config) (exp : Experiment) (resources : List Resource)
    (mixer : AudioMixer) (log : EventLog) (dlp : Bool) (fdMS stTicks : Nat)
    (frames : List FrameInput) : RunState :=
  runLoop cfg exp resources dlp (fdMS / 2) stTicks frames { mixer := mixer, log := log }

/-- The value `RunExperiment` returns, `!aborted`, once the loop has ended;
`none` while `run` is still set. -/
def RunState.returned (st : RunState) : Option Bool :=
  if st.run then none else some (!st.aborted)

/-! ## run.go: the total duration -/

/-- The assignment of `cfg.TotalDuration` in `Run` (run.go lines 77 to 80). -/
def setTotalDuration (cfg : Config) (exp : Experiment) : Config :=
  match exp.Stimuli.getLast? with
  | none => cfg
  | some lastStim =>
    { cfg with TotalDuration := add64 (add64 lastStim.TimestampMS lastStim.DurationMS) 500 }

/-! ## Observers of a run -/

/-- Whether the firing check of the frame `inp` succeeds in state `st`. -/
def frameFires (exp : Experiment) (laMS stTicks : Nat) (st : RunState) (inp : FrameInput) : Bool :=
  fireCond exp laMS (sub64 inp.ticks stTicks) st.cs

/-- The indices of the stimuli fired by the iterations of `runLoop`, in the
order of the frames that fired them. -/
def firedIndices (cfg : Config) (exp : Experiment) (resources : List Resource) (dlp : Bool)
    (laMS stTicks : Nat) : List FrameInput → RunState → List Nat
  | [], _ => []
  | inp :: rest, st =>
    if st.run then
      (if frameFires exp laMS stTicks st inp then [st.cs] else []) ++
        firedIndices cfg exp resources dlp laMS stTicks rest
          (frame cfg exp resources dlp laMS stTicks st inp)
    else
      []

/-- Frames of a simulated clock with a period of 16 ms starting at `phase`,
where rendering takes no measurable time. -/
def clock16 (phase n : Nat) : List FrameInput :=
  (List.range n).map fun k => { ticks := phase + 16 * k, ticksAfter := phase + 16 * k }

/-- The timeline of the end-to-end example: one image at 100 ms for 200 ms. -/
def demoExp : Experiment :=
  { Stimuli := [{ TimestampMS := 100, DurationMS := 200, Typ := StimImage, FilePath := "a.png" }] }

/-- The timeline of the second end-to-end example: one sound whose file is missing. -/
def soundExp : Experiment :=
  { Stimuli := [{ TimestampMS := 100, DurationMS := 200, Typ := StimSound,
                  FilePath := "missing.wav" }] }

/-- Whether an effect is a call of `mixer.Play`. -/
def Effect.isMixerPlay : Effect → Bool
  | Effect.MixerPlay _ _ => true
  | _ => false

/-- The entries of a log that carry the type tag `t`, in log order. -/
def entriesOfType (l : EventLog) (t : String) : List EventLogEntry :=
  l.Entries.filter fun e => e.Typ = t

/-- The firing check succeeds on an image or text stimulus with a drawable. -/
def firesVisual (exp : Experiment) (resources : List Resource) (laMS ct cs : Nat) : Bool :=
  fireCond exp laMS ct cs &&
    decide (((stimulusAt exp cs).Typ = StimImage ∨ (stimulusAt exp cs).Typ = StimText) ∧
      (resourceAt resources cs).Texture ≠ none)

/-- The firing check succeeds on a sound stimulus with audio data. -/
def firesSound (exp : Experiment) (resources : List Resource) (laMS ct cs : Nat) : Bool :=
  fireCond exp laMS ct cs &&
    decide ((stimulusAt exp cs).Typ = StimSound ∧ (resourceAt resources cs).Sound.Data ≠ none)

/-- Whether an event ends the run: a quit signal or a key-down of the escape key. -/
def Event.isAbort : Event → Bool
  | Event.Quit => true
  | Event.KeyDown key _ => decide (key = K_ESCAPE)
  | Event.Other => false

/-- The `RESPONSE` entries the event loop appends. -/
def responseEntries (ct : Nat) : List Event → List EventLogEntry
  | [] => []
  | Event.Quit :: evs => responseEntries ct evs
  | Event.KeyDown key keyName :: evs =>
    if key = K_ESCAPE then responseEntries ct evs
    else { IntendedMS := ct, TimestampMS := ct, Typ := "RESPONSE", Label := keyName } ::
      responseEntries ct evs
  | Event.Other :: evs => responseEntries ct evs

/-- The `SOUND_ONSET` entry of stimulus `i` logged at elapsed time `ct`. -/
def soundOnsetEntry (exp : Experiment) (ct : Nat) (i : Nat) : EventLogEntry :=
  { IntendedMS := (stimulusAt exp i).TimestampMS, TimestampMS := ct, Typ := "SOUND_ONSET",
    Label := (stimulusAt exp i).FilePath }

/-- The offset entry of stimulus `i` logged at elapsed time `ct`. -/
def offsetEntry (exp : Experiment) (ct : Nat) (i : Int) : EventLogEntry :=
  { IntendedMS := add64 (stimulusAt exp i).TimestampMS (stimulusAt exp i).DurationMS,
    TimestampMS := ct,
    Typ := if (stimulusAt exp i).Typ = StimText then "TEXT_OFFSET" else "IMAGE_OFFSET",
    Label := (stimulusAt exp i).FilePath }

/-- The onset entry of the image or text stimulus `i` logged at elapsed time `ot`. -/
def onsetEntry (exp : Experiment) (ot : Nat) (i : Int) : EventLogEntry :=
  { IntendedMS := (stimulusAt exp i).TimestampMS, TimestampMS := ot,
    Typ := if (stimulusAt exp i).Typ = StimText then "TEXT_ONSET" else "IMAGE_ONSET",
    Label := (stimulusAt exp i).FilePath }

/-- The value of `avi` between the firing check and the expiry check of a frame. -/
def aviFired (exp : Experiment) (resources : List Resource) (laMS ct : Nat) (st : RunState) : Int :=
  if firesVisual exp resources laMS ct st.cs then (st.cs : Int) else st.avi

/-- The value of `vet` between the firing check and the expiry check of a frame. -/
def vetFired (exp : Experiment) (resources : List Resource) (laMS ct : Nat) (st : RunState) : Nat :=
  if firesVisual exp resources laMS ct st.cs then add64 ct (stimulusAt exp st.cs).DurationMS
  else st.vet

/-- Whether the expiry check of a frame succeeds. -/
def expires (exp : Experiment) (resources : List Resource) (laMS ct : Nat) (st : RunState) : Bool :=
  decide (aviFired exp resources laMS ct st ≠ -1 ∧ ct ≥ vetFired exp resources laMS ct st)

/-- The entries one frame appends to the log, in order: the responses, the
sound onset, the offset, the deferred image or text onset.  `mixer` is the
mixer that `Play` is called on. -/
def frameEntries (exp : Experiment) (resources : List Resource) (laMS stTicks : Nat)
    (st : RunState) (inp : FrameInput) : List EventLogEntry :=
  responseEntries (sub64 inp.ticks stTicks) inp.events ++
    (if firesSound exp resources laMS (sub64 inp.ticks stTicks) st.cs = true ∧
        ((audioThread inp st).mixer.Play (resourceAt resources st.cs).Sound).2 = true
      then [soundOnsetEntry exp (sub64 inp.ticks stTicks) st.cs] else []) ++
    (if expires exp resources laMS (sub64 inp.ticks stTicks) st
      then [offsetEntry exp (sub64 inp.ticks stTicks)
              (aviFired exp resources laMS (sub64 inp.ticks stTicks) st)] else []) ++
    (if firesVisual exp resources laMS (sub64 inp.ticks stTicks) st.cs
      then [onsetEntry exp (sub64 inp.ticksAfter stTicks) st.cs] else [])

/-- The entries of `after` that follow the entries of `before`. -/
def appended (before after : EventLog) : List EventLogEntry :=
  after.Entries.drop before.Entries.length

/-- An `IMAGE_ONSET`, `TEXT_ONSET` or `SOUND_ONSET` entry. -/
def EventLogEntry.isOnset (e : EventLogEntry) : Bool :=
  e.Typ = "IMAGE_ONSET" || e.Typ = "TEXT_ONSET" || e.Typ = "SOUND_ONSET"

/-- An `IMAGE_OFFSET` or `TEXT_OFFSET` entry. -/
def EventLogEntry.isOffset (e : EventLogEntry) : Bool :=
  e.Typ = "IMAGE_OFFSET" || e.Typ = "TEXT_OFFSET"

/-- The clock assumption on one frame: the reading after `Present` is not
earlier than the reading at the top of the frame, and adding the lookahead to
either does not overflow a `uint64`. -/
def ClockOK (laMS stTicks : Nat) (inp : FrameInput) : Prop :=
  sub64 inp.ticks stTicks ≤ sub64 inp.ticksAfter stTicks ∧
    sub64 inp.ticksAfter stTicks + laMS < U64

instance (laMS stTicks : Nat) (inp : FrameInput) : Decidable (ClockOK laMS stTicks inp) :=
  inferInstanceAs (Decidable (_ ∧ _))

/-- Stimulus `i` of the timeline is an image or a text whose resource holds a
drawable. -/
def IsVisualValid (exp : Experiment) (resources : List Resource) (i : Nat) : Prop :=
  i < exp.Stimuli.length ∧
    ((stimulusAt exp i).Typ = StimImage ∨ (stimulusAt exp i).Typ = StimText) ∧
    (resourceAt resources i).Texture ≠ none

/-- Invariant of `avi`: it is -1 or the index of an image or text stimulus
with a drawable. -/
def VisibleOK (exp : Experiment) (resources : List Resource) (avi : Int) : Prop :=
  avi ≠ -1 → ∃ i : Nat, avi = (i : Int) ∧ IsVisualValid exp resources i

/-- Invariant of `vet`: while a stimulus is visible, `vet` is at most one
lookahead earlier than its nominal offset time. -/
def ExpiryOK (exp : Experiment) (laMS : Nat) (avi : Int) (vet : Nat) : Prop :=
  avi ≠ -1 → vet + laMS ≥ (stimulusAt exp avi).TimestampMS + (stimulusAt exp avi).DurationMS

/-- A timeline whose image lasts twelve frame periods of 16 ms. -/
def earlyExp : Experiment :=
  { Stimuli := [{ TimestampMS := 100, DurationMS := 192, Typ := StimImage, FilePath := "a.png" }] }

/-- A timeline whose image has a duration of zero. -/
def zeroExp : Experiment :=
  { Stimuli := [{ TimestampMS := 100, DurationMS := 0, Typ := StimImage, FilePath := "a.png" }] }

/-- An `IMAGE_ONSET` or `TEXT_ONSET` entry. -/
def EventLogEntry.isVisualOnset (e : EventLogEntry) : Bool :=
  e.Typ = "IMAGE_ONSET" || e.Typ = "TEXT_ONSET"

/-- A mixer whose 16 slots are all active on the same two-byte buffer. -/
def fullMixer : AudioMixer :=
  { Slots := fun _ => { Resource := some { Data := some [1, 0] }, PlayPos := 0, Active := true },
    Scratch := List.replicate AudioScratchBytes 0 }

/-- A buffer of four samples of value 32767 (bytes `FF 7F`). -/
def loudSound : SoundResource :=
  { Data := some [255, 127, 255, 127, 255, 127, 255, 127] }

/-- A mixer with exactly two active voices, in slots 3 and 7, at byte
positions 0 and 4 of `loudSound`. -/
def twoVoiceMixer : AudioMixer :=
  { Slots := fun i =>
      if i.val = 3 then { Resource := some loudSound, PlayPos := 0, Active := true }
      else if i.val = 7 then { Resource := some loudSound, PlayPos := 4, Active := true }
      else {},
    Scratch := List.replicate AudioScratchBytes 0 }

/-! ## Observers of the mixer -/

/-- `len(s.Resource.Data)` of a slot; 0 stands for a slot without resource. -/
def ActiveSound.dataLen (s : ActiveSound) : Nat :=
  match s.Resource with
  | none => 0
  | some r => r.len

/-- The bytes `s.Resource.Data` of a slot. -/
def ActiveSound.data (s : ActiveSound) : List UInt8 :=
  match s.Resource with
  | none => []
  | some r => r.Data.getD []

/-- The strict cursor condition: every active slot has
`PlayPos < len(Resource.Data)`. -/
def StrictSlots (slots : Fin MaxActiveSounds → ActiveSound) : Prop :=
  ∀ i, (slots i).Active = true → (slots i).PlayPos < (slots i).dataLen

/-- The spec's cursor invariant: every active slot has
`PlayPos <= len(Resource.Data)`. -/
def WeakSlots (slots : Fin MaxActiveSounds → ActiveSound) : Prop :=
  ∀ i, (slots i).Active = true → (slots i).PlayPos ≤ (slots i).dataLen

/-- The buffer of every active slot is shorter than 2^32 bytes, so that
`uint32(len(Data))` is its length. -/
def Fits32 (slots : Fin MaxActiveSounds → ActiveSound) : Prop :=
  ∀ i, (slots i).Active = true → (slots i).dataLen < U32

/-- The slot a fill pass over `c` bytes is specified to leave for an active
slot `s`: the cursor moved by `c` but not beyond the end of the data, active
exactly when the new cursor is before the end. -/
def advanced (c : Nat) (s : ActiveSound) : ActiveSound :=
  { s with PlayPos := min (s.PlayPos + c) s.dataLen
           Active := decide (min (s.PlayPos + c) s.dataLen < s.dataLen) }

/-- The sample of the voice in slot `s` at sample position `j` of the chunk,
when the slot is active and its remaining data covers that position. -/
def voiceSample (s : ActiveSound) (j : Nat) : Option Int :=
  if s.Active = true ∧ s.PlayPos + 2 * j + 2 ≤ s.dataLen then
    some (readI16 s.data (s.PlayPos + 2 * j))
  else
    none

/-- The samples at position `j` of all active voices that cover it, in slot
order. -/
def coveringSamples (slots : Fin MaxActiveSounds → ActiveSound) (j : Nat) : List Int :=
  (List.finRange MaxActiveSounds).filterMap fun i => voiceSample (slots i) j

/-- Saturating accumulation: each sample is added to the running value and the
result clamped to the `int16` range before the next sample is added. -/
def saturatingSum (vs : List Int) : Int :=
  vs.foldl (fun acc v => clamp16 (acc + v)) 0

/-- The slot loop of `Callback` over an explicit list of slot indices. -/
def fillOver (chunk : Nat) :
    List (Fin MaxActiveSounds) → (Fin MaxActiveSounds → ActiveSound) → List UInt8 →
      Option ((Fin MaxActiveSounds → ActiveSound) × List UInt8)
  | [], slots, scratch => some (slots, scratch)
  | i :: rest, slots, scratch =>
    if !(slots i).Active then
      fillOver chunk rest slots scratch
    else
      match mixSlot chunk (slots i) scratch with
      | none => none
      | some (s1, scratch1) => fillOver chunk rest (Function.update slots i s1) scratch1

/-- A buffer holding the single sample 32767 (bytes `FF 7F`). -/
def maxSound : SoundResource := { Data := some [255, 127] }

/-- A buffer holding the single sample -32768 (bytes `00 80`). -/
def minSound : SoundResource := { Data := some [0, 128] }

/-- A mixer with three active voices: 32767 in slots 0 and 1, -32768 in slot 2. -/
def threeVoiceMixer : AudioMixer :=
  { Slots := fun i =>
      if i.val = 0 then { Resource := some maxSound, PlayPos := 0, Active := true }
      else if i.val = 1 then { Resource := some maxSound, PlayPos := 0, Active := true }
      else if i.val = 2 then { Resource := some minSound, PlayPos := 0, Active := true }
      else {},
    Scratch := List.replicate AudioScratchBytes 0 }

/-- A sound resource whose `Data` is non-nil but empty. -/
def emptySound : SoundResource := { Data := some [] }

instance (slots : Fin MaxActiveSounds → ActiveSound) : Decidable (StrictSlots slots) :=
  inferInstanceAs (Decidable (∀ i, (slots i).Active = true → (slots i).PlayPos < (slots i).dataLen))

instance (slots : Fin MaxActiveSounds → ActiveSound) : Decidable (WeakSlots slots) :=
  inferInstanceAs (Decidable (∀ i, (slots i).Active = true → (slots i).PlayPos ≤ (slots i).dataLen))

instance (slots : Fin MaxActiveSounds → ActiveSound) : Decidable (Fits32 slots) :=
  inferInstanceAs (Decidable (∀ i, (slots i).Active = true → (slots i).dataLen < U32))

/-- The new mixer after `Play` of a sound whose `Data` is non-nil but empty. -/
def emptyVoiceMixer : AudioMixer := (NewAudioMixer.Play emptySound).1

/-- A timeline of one sound, loaded as a non-nil but empty buffer. -/
def emptySoundResources : List Resource := [{ Sound := emptySound }]

/-! ## resources.go: the resource cache -/

/-- `type CacheEntry struct`. -/
structure CacheEntry where
  Texture : Option Nat := none
  W : Int := 0
  H : Int := 0
  Sound : SoundResource := {}
  deriving DecidableEq, Repr, Inhabited

/-- `type ResourceCache struct`: the map `entries` as an association list, the
most recent insertion first. -/
structure ResourceCache where
  entries : List (String × CacheEntry) := []
  deriving DecidableEq, Repr, Inhabited

/-- `NewResourceCache`. -/
def NewResourceCache : ResourceCache := {}

/-- The surface `font.RenderTextBlended` returns, with its size. -/
structure Surface where
  W : Int
  H : Int
  deriving DecidableEq, Repr, Inhabited

/-- The collaborators `Load` calls: `filepath.Join` and the SDL decoders.  The
first argument of a decoder is the number of decoder invocations `Load` has
made before, so that a decoder may answer differently each time; `none` is a
returned error (for `RenderTextBlended`, also a nil surface).  `LoadTexture`
yields the texture handle and the size `tex.Size()` reports. -/
structure Decoders where
  Join : String → String → String
  LoadTexture : Nat → String → Option (Nat × Int × Int)
  LoadWAV : Nat → String → Option (Option (List UInt8) × AudioSpec)
  ConvertAudioSamples : Nat → AudioSpec → Option (List UInt8) → Option (Option (List UInt8))
  RenderTextBlended : Nat → String → Option Surface
  CreateTextureFromSurface : Nat → Surface → Option Nat

/-- `sdl.AUDIO_S16`. -/
def AUDIO_S16 : Nat := 0x8010

/-- `targetSpec` of `Load`. -/
def targetSpec : AudioSpec := { Format := AUDIO_S16, Channels := 2, Freq := 44100 }

/-- The integer value of a `StimType` constant (`iota`). -/
def StimType.toNat : StimType → Nat
  | StimImage => 0
  | StimSound => 1
  | StimText => 2
  | StimEnd => 3

/-- The cache key `fmt.Sprintf("%d:%s", s.Type, s.FilePath)`. -/
def cacheKeyOf (t : StimType) (filePath : String) : String :=
  toString t.toNat ++ ":" ++ filePath

/-- The cache key of a stimulus. -/
def cacheKey (s : Stimulus) : String := cacheKeyOf s.Typ s.FilePath

/-- `Resource{Texture: entry.Texture, W: entry.W, H: entry.H, Sound: entry.Sound}`. -/
def CacheEntry.toResource (e : CacheEntry) : Resource :=
  { Texture := e.Texture, W := e.W, H := e.H, Sound := e.Sound }

/-- One invocation of a decoder by `Load`: the timeline position it was made
for, the kind and reference decoded, and whether the decode succeeded. -/
structure DecodeCall where
  index : Nat
  Typ : StimType
  FilePath : String
  ok : Bool
  deriving DecidableEq, Repr, Inhabited

/-- The `switch s.Type` of `Load` (resources.go lines 90 to 137) for a stimulus
that is not cached, as decoder invocation number `n`: the new entry, and
whether a decoder was invoked and with which outcome.  `font` tells whether
the font pointer is non-nil. -/
def decodeEntry (dec : Decoders) (font : Bool) (stimuliDir : String) (n : Nat) (s : Stimulus) :
    CacheEntry × Option Bool :=
  let fullPath := dec.Join stimuliDir s.FilePath
  match s.Typ with
  | StimImage =>
    match dec.LoadTexture n fullPath with
    | none => ({}, some false)
    | some (tex, w, h) => ({ Texture := some tex, W := w, H := h }, some true)
  | StimSound =>
    match dec.LoadWAV n fullPath with
    | none => ({}, some false)
    | some (data, spec) =>
      if spec.Format = targetSpec.Format ∧ spec.Channels = targetSpec.Channels ∧
          spec.Freq = targetSpec.Freq then
        ({ Sound := { Data := data, Spec := spec } }, some true)
      else
        match dec.ConvertAudioSamples n spec data with
        | none => ({ Sound := { Data := data, Spec := spec } }, some true)
        | some dstData => ({ Sound := { Data := dstData, Spec := targetSpec } }, some true)
  | StimText =>
    if font then
      match dec.RenderTextBlended n s.FilePath with
      | none => ({}, some false)
      | some surf =>
        match dec.CreateTextureFromSurface n surf with
        | none => ({}, some false)
        | some tex => ({ Texture := some tex, W := surf.W, H := surf.H }, some true)
    else
      ({}, none)
  | StimEnd => ({}, none)

/-- The state of the loop of `Load`: the result slice, the cache and the
decoder invocations made so far. -/
structure LoadState where
  resources : List Resource
  cache : ResourceCache
  calls : List DecodeCall
  deriving DecidableEq, Repr, Inhabited

/-- The body of `for i, s := range exp.Stimuli` in `Load`. -/
def loadStep (dec : Decoders) (font : Bool) (stimuliDir : String) (i : Nat) (s : Stimulus)
    (st : LoadState) : LoadState :=
  match st.cache.entries.lookup (cacheKey s) with
  | some entry => { st with resources := st.resources.set i entry.toResource }
  | none =>
    let r := decodeEntry dec font stimuliDir st.calls.length s
    { resources := st.resources.set i r.1.toResource
      cache := { entries := (cacheKey s, r.1) :: st.cache.entries }
      calls := st.calls ++
        (match r.2 with
         | none => []
         | some ok => [{ index := i, Typ := s.Typ, FilePath := s.FilePath, ok := ok }]) }

/-- The loop `for i, s := range exp.Stimuli` of `Load`, entered at index `i`. -/
def loadLoop (dec : Decoders) (font : Bool) (stimuliDir : String) :
    List Stimulus → Nat → LoadState → LoadState
  | [], _, st => st
  | s :: rest, i, st => loadLoop dec font stimuliDir rest (i + 1) (loadStep dec font stimuliDir i s st)

/-- What `Load` returns and leaves behind: the resources, the error, the cache
it mutated and the decoder invocations it made. -/
structure LoadResult where
  resources : List Resource
  err : Option String
  cache : ResourceCache
  calls : List DecodeCall
  deriving DecidableEq, Repr, Inhabited

/-- `func (c *ResourceCache) Load(renderer, exp, font, textColor, stimuliDir)`:
the slice is made with one zero `Resource` per stimulus, the loop fills it,
and the error returned is always nil. -/
def ResourceCache.Load (c : ResourceCache) (dec : Decoders) (exp : Experiment) (font : Bool)
    (stimuliDir : String) : LoadResult :=
  let st := loadLoop dec font stimuliDir exp.Stimuli 0
    { resources := List.replicate exp.Stimuli.length {}, cache := c, calls := [] }
  { resources := st.resources, err := none, cache := st.cache, calls := st.calls }

/-- Decoders that know one image, `stim/a.png`, and one text, `hello`, and fail
on everything else; the texture handle they return tells which invocation
produced it. -/
def demoDecoders : Decoders :=
  { Join := fun dir name => dir ++ "/" ++ name
    LoadTexture := fun n path => if path = "stim/a.png" then some (n + 1, 640, 480) else none
    LoadWAV := fun _ _ => none
    ConvertAudioSamples := fun _ _ data => some data
    RenderTextBlended := fun _ text => if text = "hello" then some ⟨100, 20⟩ else none
    CreateTextureFromSurface := fun n _ => some (n + 1) }

/-- A timeline that names the same image twice and a missing sound twice. -/
def repeatExp : Experiment :=
  { Stimuli :=
      [{ TimestampMS := 0, DurationMS := 100, Typ := StimImage, FilePath := "a.png" },
       { TimestampMS := 200, DurationMS := 100, Typ := StimSound, FilePath := "bad.wav" },
       { TimestampMS := 400, DurationMS := 100, Typ := StimImage, FilePath := "a.png" },
       { TimestampMS := 600, DurationMS := 100, Typ := StimSound, FilePath := "bad.wav" }] }

/-- Invariant of the loop of `Load` before index `i`: the slice has one slot per
stimulus; every position below `i` holds the resource of the cache entry of
its key; every decoder invocation was made for a position below `i`, its key
is cached, with the zero entry when the decode failed; and no two invocations
were made for the same kind and reference. -/
def LoadInv (stims : List Stimulus) (i : Nat) (st : LoadState) : Prop :=
  st.resources.length = stims.length ∧
  (∀ k s, k < i → stims[k]? = some s →
    ∃ e, st.cache.entries.lookup (cacheKey s) = some e ∧ st.resources[k]? = some e.toResource) ∧
  (∀ d ∈ st.calls, d.index < i ∧
    (∃ s, stims[d.index]? = some s ∧ s.Typ = d.Typ ∧ s.FilePath = d.FilePath) ∧
    ∃ e, st.cache.entries.lookup (cacheKeyOf d.Typ d.FilePath) = some e ∧
      (d.ok = false → e = {})) ∧
  (st.calls.map fun d => (d.Typ, d.FilePath)).Nodup

/-! ## dlp.go: the trigger device -/

/-- An operation on the serial port of the trigger device. -/
inductive PortOp where
  | Write (bytes : List UInt8)
  | Read
  | Close
  deriving DecidableEq, Repr, Inhabited

/-- What the serial port answers while `NewDLPIO8G` runs: whether `serial.Open`
fails, whether the ping write fails, the count, the error and the byte
`buf[0]` after `port.Read(buf)`, and whether the binary-mode write fails. -/
structure PortScript where
  openErr : Bool := false
  pingWriteErr : Bool := false
  readN : Int := 1
  readErr : Bool := false
  readByte : UInt8 := 81
  binaryWriteErr : Bool := false
  deriving DecidableEq, Repr, Inhabited

/-- The errors `NewDLPIO8G` returns. -/
inductive DlpError where
  | OpenFailed
  | PingWriteFailed
  | NoPingResponse
  | BinaryWriteFailed
  deriving DecidableEq, Repr, Inhabited

/-- The result of `NewDLPIO8G`: whether a device is returned, the error, and the
operations performed on the opened port, in order. -/
structure NewDLPResult where
  device : Bool
  err : Option DlpError
  ops : List PortOp
  deriving DecidableEq, Repr, Inhabited

/-- `func NewDLPIO8G(device string, baudrate int) (*DLPIO8G, error)`; the ping
byte is `0x27`, the acknowledgment `'Q'` is 81, the binary-mode byte `0x5C`. -/
def NewDLPIO8G (p : PortScript) : NewDLPResult :=
  if p.openErr then
    { device := false, err := some DlpError.OpenFailed, ops := [] }
  else if p.pingWriteErr then
    { device := false, err := some DlpError.PingWriteFailed,
      ops := [PortOp.Write [0x27], PortOp.Close] }
  else if p.readErr = true ∨ p.readN ≠ 1 ∨ p.readByte ≠ 81 then
    { device := false, err := some DlpError.NoPingResponse,
      ops := [PortOp.Write [0x27], PortOp.Read, PortOp.Close] }
  else if p.binaryWriteErr then
    { device := false, err := some DlpError.BinaryWriteFailed,
      ops := [PortOp.Write [0x27], PortOp.Read, PortOp.Write [0x5C], PortOp.Close] }
  else
    { device := true, err := none,
      ops := [PortOp.Write [0x27], PortOp.Read, PortOp.Write [0x5C]] }

/-- The `switch cmd[i]` of `Unset`: `'1'..'8'` (49..56) become
`'Q','W','E','R','T','Y','U','I'` (81, 87, 69, 82, 84, 89, 85, 73). -/
def unsetByte (b : UInt8) : UInt8 :=
  if b = 49 then 81
  else if b = 50 then 87
  else if b = 51 then 69
  else if b = 52 then 82
  else if b = 53 then 84
  else if b = 54 then 89
  else if b = 55 then 85
  else if b = 56 then 73
  else b

/-- `func (d *DLPIO8G) Set(lines string)`: the bytes handed to `port.Write` (a
write error is only printed). -/
def DLPIO8G.Set (lines : List UInt8) : List UInt8 := lines

/-- `func (d *DLPIO8G) Unset(lines string)`: the bytes handed to `port.Write`;
the loop rewrites every `cmd[i]` from its own value. -/
def DLPIO8G.Unset (lines : List UInt8) : List UInt8 := lines.map unsetByte

/-- The eight deassert codes `Q W E R T Y U I`. -/
def unsetCodes : List UInt8 := [81, 87, 69, 82, 84, 89, 85, 73]

/-- The byte is one of the ASCII digits `'1'..'8'`. -/
def isLineDigit (b : UInt8) : Bool := decide (49 ≤ b.toNat ∧ b.toNat ≤ 56)

/-! ## experiment.go: saving the event log -/

/-- How the file system answers `Save`: whether `os.Create(path)` fails, whether
the `k`-th `w.Write` (0 is the header) returns an error, and whether the
deferred `w.Flush` fails. -/
structure FileScript where
  createErr : String → Bool := fun _ => false
  writeErr : Nat → Bool := fun _ => false
  flushErr : Bool := false

/-- What `Save` returns and leaves behind: the returned error, the log after the
call, the rows handed to `w.Write`, and whether the deferred `w.Flush` and
`f.Close` ran. -/
structure SaveResult where
  err : Option String
  log : EventLog
  rows : List (List String)
  flushed : Bool
  closed : Bool
  deriving DecidableEq, Repr, Inhabited

/-- `func (l *EventLog) Save(path string) error`.  The results of `w.Write` are
discarded and `w.Error()` is never consulted after the deferred `w.Flush`, so
nothing of `fs.writeErr` and `fs.flushErr` reaches the caller. -/
def EventLog.Save (l : EventLog) (fs : FileScript) (path : String) : SaveResult :=
  if fs.createErr path then
    { err := some "create", log := l, rows := [], flushed := false, closed := false }
  else
    { err := none
      log := l
      rows := ["intended_ms", "actual_ms", "type", "label"] ::
        l.Entries.map fun e => [toString e.IntendedMS, toString e.TimestampMS, e.Typ, e.Label]
      flushed := true
      closed := true }

/-- A file that is created but whose every write and whose flush fail. -/
def failingFile : FileScript :=
  { createErr := fun _ => false, writeErr := fun _ => true, flushErr := true }

/-! ## csv_parser.go -/

/-- The errors of `LoadExperiment`, with the 1-based line number. -/
inductive LoadError where
  | ReadFailed
  | InvalidTimestamp (line : Nat)
  | InvalidDuration (line : Nat)
  | UnknownType (line : Nat) (kind : String)
  deriving DecidableEq, Repr, Inhabited

/-- The `switch strings.ToLower(record[2])` of `LoadExperiment`, on the
lower-cased string. -/
def parseStimType (lower : String) : Option StimType :=
  if lower = "image" then some StimImage
  else if lower = "sound" then some StimSound
  else if lower = "text" then some StimText
  else none

/-- The loop `for i, record := range records` of `LoadExperiment`, entered at
index `i` with the stimuli appended so far.  `parseUint` stands for
`strconv.ParseUint(_, 10, 64)` and `toLower` for `strings.ToLower`. -/
def loadRows (parseUint : String → Option Nat) (toLower : String → String) :
    List (List String) → Nat → List Stimulus → Except LoadError (List Stimulus)
  | [], _, stimuli => Except.ok stimuli
  | record :: rest, i, stimuli =>
    if record.length < 4 then
      loadRows parseUint toLower rest (i + 1) stimuli
    else
      match parseUint (record.getD 0 "") with
      | none => Except.error (LoadError.InvalidTimestamp (i + 1))
      | some timestamp =>
        match parseUint (record.getD 1 "") with
        | none => Except.error (LoadError.InvalidDuration (i + 1))
        | some duration =>
          match parseStimType (toLower (record.getD 2 "")) with
          | none => Except.error (LoadError.UnknownType (i + 1) (record.getD 2 ""))
          | some stype =>
            loadRows parseUint toLower rest (i + 1)
              (stimuli ++ [{ TimestampMS := timestamp, DurationMS := duration, Typ := stype,
                             FilePath := record.getD 3 "" }])

/-- `func LoadExperiment(path string) (*Experiment, error)`; `records` is what
`os.Open` and `reader.ReadAll` deliver, `none` when either fails. -/
def LoadExperiment (parseUint : String → Option Nat) (toLower : String → String)
    (records : Option (List (List String))) : Except LoadError Experiment :=
  match records with
  | none => Except.error LoadError.ReadFailed
  | some rs =>
    match loadRows parseUint toLower rs 0 [] with
    | Except.error e => Except.error e
    | Except.ok stimuli => Except.ok { Stimuli := stimuli }

/-- The stimulus a record with at least four fields stands for, when its onset
and duration parse and its kind is known. -/
def parseRow (parseUint : String → Option Nat) (toLower : String → String)
    (record : List String) : Option Stimulus :=
  match parseUint (record.getD 0 ""), parseUint (record.getD 1 ""),
      parseStimType (toLower (record.getD 2 "")) with
  | some timestamp, some duration, some stype =>
    some { TimestampMS := timestamp, DurationMS := duration, Typ := stype,
           FilePath := record.getD 3 "" }
  | _, _, _ => none

/-- Whether a record has at least four fields. -/
def hasFourFields (record : List String) : Bool := decide (4 ≤ record.length)

/-- A decimal parser in the sense of `strconv.ParseUint(s, 10, 64)`: a non-empty
string of ASCII digits whose value is below 2^64. -/
def decimalUint64 (s : String) : Option Nat :=
  if s.data = [] then none
  else
    (s.data.foldl
      (fun acc ch => acc.bind fun v =>
        if 48 ≤ ch.toNat ∧ ch.toNat ≤ 57 then some (10 * v + (ch.toNat - 48)) else none)
      (some 0)).bind fun v => if v < U64 then some v else none

/-- Lower-casing of the ASCII letters of a string. -/
def asciiToLower (s : String) : String :=
  String.mk (s.data.map fun ch =>
    if 65 ≤ ch.toNat ∧ ch.toNat ≤ 90 then Char.ofNat (ch.toNat + 32) else ch)

/-- Records with a short row, mixed-case kinds and a reference. -/
def demoRecords : List (List String) :=
  [["0", "100", "Image", "a.png"], ["comment"], ["200", "50", "SOUND", "b.wav"],
   ["300", "0", "text", "hello"]]

/-! ## Observers of the visible stimulus -/

/-- The line argument of the `Set` and `Unset` calls that `RunExperiment`
makes for an image or text stimulus: `"1"` for an image, `"3"` otherwise. -/
def triggerLine (s : Stimulus) : String :=
  if s.Typ = StimImage then "1" else "3"

/-- Whether an effect is a call of `dlp.Unset`. -/
def Effect.isUnset : Effect → Bool
  | Effect.DlpUnset _ => true
  | _ => false

/-- The calls of `dlp.Unset` in the trace `after` that follow those of `before`. -/
def unsetsAfter (before after : List Effect) : List Effect :=
  (after.filter Effect.isUnset).drop (before.filter Effect.isUnset).length

/-- The calls of `dlp.Unset` one frame makes, in order: the end of the pulse of
a sound that started playing, then the line of the stimulus that expires. -/
def frameUnsets (exp : Experiment) (resources : List Resource) (dlp : Bool) (laMS stTicks : Nat)
    (st : RunState) (inp : FrameInput) : List Effect :=
  (if dlp = true ∧ firesSound exp resources laMS (sub64 inp.ticks stTicks) st.cs = true ∧
      ((audioThread inp st).mixer.Play (resourceAt resources st.cs).Sound).2 = true
    then [Effect.DlpUnset "2"] else []) ++
  (if dlp = true ∧ expires exp resources laMS (sub64 inp.ticks stTicks) st = true
    then [Effect.DlpUnset (triggerLine (stimulusAt exp
            (aviFired exp resources laMS (sub64 inp.ticks stTicks) st)))] else [])

/-- Invariant of `avi` from the frame in which stimulus `j` fires: it is -1 or
the index of an image or text stimulus with a drawable that is not before `j`. -/
def VisibleFrom (exp : Experiment) (resources : List Resource) (j : Nat) (avi : Int) : Prop :=
  avi ≠ -1 → ∃ k : Nat, avi = (k : Int) ∧ j ≤ k ∧ IsVisualValid exp resources k

/-- Invariant of the log of a run started on the log `log0`: among the entries
appended so far, the offset entries, plus one when a stimulus is visible, plus
`c`, are at most as many as the image and text onset entries. -/
def Balanced (c : Nat) (log0 : EventLog) (st : RunState) : Prop :=
  ∃ d : List EventLogEntry, st.log.Entries = log0.Entries ++ d ∧
    d.countP EventLogEntry.isOffset + (if st.avi ≠ -1 then 1 else 0) + c
      ≤ d.countP EventLogEntry.isVisualOnset

/-- A timeline of two images: the second one starts while the first one is
still on the screen. -/
def overlapExp : Experiment :=
  { Stimuli := [{ TimestampMS := 100, DurationMS := 200, Typ := StimImage, FilePath := "a.png" },
                { TimestampMS := 200, DurationMS := 200, Typ := StimImage, FilePath := "b.png" }] }

/-- The timeline `overlapExp` with a text in place of the second image. -/
def mixedExp : Experiment :=
  { Stimuli := [{ TimestampMS := 100, DurationMS := 200, Typ := StimImage, FilePath := "a.png" },
                { TimestampMS := 200, DurationMS := 200, Typ := StimText, FilePath := "hello" }] }

/-- Two resources that each hold a drawable. -/
def twoTextures : List Resource := [{ Texture := some 1 }, { Texture := some 2 }]

/-! ## Lemmas on the phases of a frame -/

section Phases

variable (cfg : Config) (exp : Experiment) (resources : List Resource) (dlp : Bool)
variable (laMS stTicks ct ot : Nat)

@[simp] theorem audioThread_cs (inp : FrameInput) (st : RunState) :
    (audioThread inp st).cs = st.cs := by
  unfold audioThread; split <;> rfl

@[simp] theorem audioThread_avi (inp : FrameInput) (st : RunState) :
    (audioThread inp st).avi = st.avi := by
  unfold audioThread; split <;> rfl

@[simp] theorem audioThread_vet (inp : FrameInput) (st : RunState) :
    (audioThread inp st).vet = st.vet := by
  unfold audioThread; split <;> rfl

@[simp] theorem audioThread_run (inp : FrameInput) (st : RunState) :
    (audioThread inp st).run = st.run := by
  unfold audioThread; split <;> rfl

@[simp] theorem audioThread_aborted (inp : FrameInput) (st : RunState) :
    (audioThread inp st).aborted = st.aborted := by
  unfold audioThread; split <;> rfl

@[simp] theorem audioThread_log (inp : FrameInput) (st : RunState) :
    (audioThread inp st).log = st.log := by
  unfold audioThread; split <;> rfl

@[simp] theorem audioThread_trace (inp : FrameInput) (st : RunState) :
    (audioThread inp st).trace = st.trace := by
  unfold audioThread; split <;> rfl

@[simp] theorem pollEvents_cs (evs : List Event) (st : RunState) :
    (pollEvents ct evs st).cs = st.cs := by
  induction evs generalizing st with
  | nil => rfl
  | cons ev evs ih =>
    cases ev with
    | Quit => simp [pollEvents, ih]
    | KeyDown key keyName => by_cases h : key = K_ESCAPE <;> simp [pollEvents, ih, h]
    | Other => simp [pollEvents, ih]

@[simp] theorem pollEvents_avi (evs : List Event) (st : RunState) :
    (pollEvents ct evs st).avi = st.avi := by
  induction evs generalizing st with
  | nil => rfl
  | cons ev evs ih =>
    cases ev with
    | Quit => simp [pollEvents, ih]
    | KeyDown key keyName => by_cases h : key = K_ESCAPE <;> simp [pollEvents, ih, h]
    | Other => simp [pollEvents, ih]

@[simp] theorem pollEvents_vet (evs : List Event) (st : RunState) :
    (pollEvents ct evs st).vet = st.vet := by
  induction evs generalizing st with
  | nil => rfl
  | cons ev evs ih =>
    cases ev with
    | Quit => simp [pollEvents, ih]
    | KeyDown key keyName => by_cases h : key = K_ESCAPE <;> simp [pollEvents, ih, h]
    | Other => simp [pollEvents, ih]

@[simp] theorem pollEvents_mixer (evs : List Event) (st : RunState) :
    (pollEvents ct evs st).mixer = st.mixer := by
  induction evs generalizing st with
  | nil => rfl
  | cons ev evs ih =>
    cases ev with
    | Quit => simp [pollEvents, ih]
    | KeyDown key keyName => by_cases h : key = K_ESCAPE <;> simp [pollEvents, ih, h]
    | Other => simp [pollEvents, ih]

@[simp] theorem pollEvents_trace (evs : List Event) (st : RunState) :
    (pollEvents ct evs st).trace = st.trace := by
  induction evs generalizing st with
  | nil => rfl
  | cons ev evs ih =>
    cases ev with
    | Quit => simp [pollEvents, ih]
    | KeyDown key keyName => by_cases h : key = K_ESCAPE <;> simp [pollEvents, ih, h]
    | Other => simp [pollEvents, ih]

@[simp] theorem expireVisible_cs (st : RunState) :
    (expireVisible exp dlp ct st).cs = st.cs := by
  unfold expireVisible; split <;> rfl

@[simp] theorem expireVisible_vet (st : RunState) :
    (expireVisible exp dlp ct st).vet = st.vet := by
  unfold expireVisible; split <;> rfl

@[simp] theorem expireVisible_run (st : RunState) :
    (expireVisible exp dlp ct st).run = st.run := by
  unfold expireVisible; split <;> rfl

@[simp] theorem expireVisible_aborted (st : RunState) :
    (expireVisible exp dlp ct st).aborted = st.aborted := by
  unfold expireVisible; split <;> rfl

@[simp] theorem expireVisible_mixer (st : RunState) :
    (expireVisible exp dlp ct st).mixer = st.mixer := by
  unfold expireVisible; split <;> rfl

@[simp] theorem checkTermination_cs (st : RunState) :
    (checkTermination cfg exp ct st).cs = st.cs := by
  unfold checkTermination; split <;> rfl

@[simp] theorem checkTermination_avi (st : RunState) :
    (checkTermination cfg exp ct st).avi = st.avi := by
  unfold checkTermination; split <;> rfl

@[simp] theorem checkTermination_vet (st : RunState) :
    (checkTermination cfg exp ct st).vet = st.vet := by
  unfold checkTermination; split <;> rfl

@[simp] theorem checkTermination_aborted (st : RunState) :
    (checkTermination cfg exp ct st).aborted = st.aborted := by
  unfold checkTermination; split <;> rfl

@[simp] theorem checkTermination_log (st : RunState) :
    (checkTermination cfg exp ct st).log = st.log := by
  unfold checkTermination; split <;> rfl

@[simp] theorem checkTermination_mixer (st : RunState) :
    (checkTermination cfg exp ct st).mixer = st.mixer := by
  unfold checkTermination; split <;> rfl

@[simp] theorem checkTermination_trace (st : RunState) :
    (checkTermination cfg exp ct st).trace = st.trace := by
  unfold checkTermination; split <;> rfl

@[simp] theorem renderFrame_cs (st : RunState) :
    (renderFrame cfg st).cs = st.cs := by
  rfl

@[simp] theorem renderFrame_avi (st : RunState) :
    (renderFrame cfg st).avi = st.avi := by
  rfl

@[simp] theorem renderFrame_vet (st : RunState) :
    (renderFrame cfg st).vet = st.vet := by
  rfl

@[simp] theorem renderFrame_run (st : RunState) :
    (renderFrame cfg st).run = st.run := by
  rfl

@[simp] theorem renderFrame_aborted (st : RunState) :
    (renderFrame cfg st).aborted = st.aborted := by
  rfl

@[simp] theorem renderFrame_log (st : RunState) :
    (renderFrame cfg st).log = st.log := by
  rfl

@[simp] theorem renderFrame_mixer (st : RunState) :
    (renderFrame cfg st).mixer = st.mixer := by
  rfl

@[simp] theorem logOnset_cs (trig : Bool) (tidx : Int) (st : RunState) :
    (logOnset exp ot trig tidx st).cs = st.cs := by
  unfold logOnset; split <;> rfl

@[simp] theorem logOnset_avi (trig : Bool) (tidx : Int) (st : RunState) :
    (logOnset exp ot trig tidx st).avi = st.avi := by
  unfold logOnset; split <;> rfl

@[simp] theorem logOnset_run (trig : Bool) (tidx : Int) (st : RunState) :
    (logOnset exp ot trig tidx st).run = st.run := by
  unfold logOnset; split <;> rfl

@[simp] theorem logOnset_aborted (trig : Bool) (tidx : Int) (st : RunState) :
    (logOnset exp ot trig tidx st).aborted = st.aborted := by
  unfold logOnset; split <;> rfl

@[simp] theorem logOnset_mixer (trig : Bool) (tidx : Int) (st : RunState) :
    (logOnset exp ot trig tidx st).mixer = st.mixer := by
  unfold logOnset; split <;> rfl

@[simp] theorem logOnset_trace (trig : Bool) (tidx : Int) (st : RunState) :
    (logOnset exp ot trig tidx st).trace = st.trace := by
  unfold logOnset; split <;> rfl

@[simp] theorem yieldFrame_cs (st : RunState) :
    (yieldFrame cfg st).cs = st.cs := by
  unfold yieldFrame; split <;> rfl

@[simp] theorem yieldFrame_avi (st : RunState) :
    (yieldFrame cfg st).avi = st.avi := by
  unfold yieldFrame; split <;> rfl

@[simp] theorem yieldFrame_vet (st : RunState) :
    (yieldFrame cfg st).vet = st.vet := by
  unfold yieldFrame; split <;> rfl

@[simp] theorem yieldFrame_run (st : RunState) :
    (yieldFrame cfg st).run = st.run := by
  unfold yieldFrame; split <;> rfl

@[simp] theorem yieldFrame_aborted (st : RunState) :
    (yieldFrame cfg st).aborted = st.aborted := by
  unfold yieldFrame; split <;> rfl

@[simp] theorem yieldFrame_log (st : RunState) :
    (yieldFrame cfg st).log = st.log := by
  unfold yieldFrame; split <;> rfl

@[simp] theorem yieldFrame_mixer (st : RunState) :
    (yieldFrame cfg st).mixer = st.mixer := by
  unfold yieldFrame; split <;> rfl

theorem fireCond_lt {cs : Nat} (h : fireCond exp laMS ct cs = true) : cs < exp.Stimuli.length := by
  unfold fireCond at h
  split at h
  · simp at h
  · next s hs =>
    have := List.getElem?_eq_some_iff.mp hs
    exact this.1

theorem fireStimulus_cs (st : RunState) :
    (fireStimulus exp resources dlp laMS ct st).1.cs
      = st.cs + (if fireCond exp laMS ct st.cs then 1 else 0) := by
  unfold fireStimulus
  by_cases h : fireCond exp laMS ct st.cs = true
  · simp only [h, if_true]
    split_ifs <;> rfl
  · simp [h]


theorem pollEvents_entries (evs : List Event) (st : RunState) :
    (pollEvents ct evs st).log.Entries = st.log.Entries ++ responseEntries ct evs := by
  induction evs generalizing st with
  | nil => simp [pollEvents, responseEntries]
  | cons ev evs ih =>
    cases ev with
    | Quit => simp [pollEvents, responseEntries, ih]
    | KeyDown key keyName =>
      by_cases h : key = K_ESCAPE <;> simp [pollEvents, responseEntries, ih, h, EventLog.Log]
    | Other => simp [pollEvents, responseEntries, ih]

theorem fireStimulus_trig (st : RunState) :
    (fireStimulus exp resources dlp laMS ct st).2.1 = firesVisual exp resources laMS ct st.cs := by
  unfold fireStimulus firesVisual
  by_cases h : fireCond exp laMS ct st.cs = true
  · simp only [h, if_true, Bool.true_and]
    split_ifs <;> simp_all
  · simp [h]

theorem fireStimulus_tidx (st : RunState) :
    (fireStimulus exp resources dlp laMS ct st).2.2
      = if firesVisual exp resources laMS ct st.cs then (st.cs : Int) else -1 := by
  unfold fireStimulus firesVisual
  by_cases h : fireCond exp laMS ct st.cs = true
  · simp only [h, if_true, Bool.true_and]
    split_ifs <;> simp_all
  · simp [h]

theorem fireStimulus_avi (st : RunState) :
    (fireStimulus exp resources dlp laMS ct st).1.avi = aviFired exp resources laMS ct st := by
  unfold fireStimulus aviFired firesVisual
  by_cases h : fireCond exp laMS ct st.cs = true
  · simp only [h, if_true, Bool.true_and]
    split_ifs <;> simp_all
  · simp [h]

theorem fireStimulus_vet (st : RunState) :
    (fireStimulus exp resources dlp laMS ct st).1.vet = vetFired exp resources laMS ct st := by
  unfold fireStimulus vetFired firesVisual
  by_cases h : fireCond exp laMS ct st.cs = true
  · simp only [h, if_true, Bool.true_and]
    split_ifs <;> simp_all
  · simp [h]

@[simp] theorem fireStimulus_run (st : RunState) :
    (fireStimulus exp resources dlp laMS ct st).1.run = st.run := by
  unfold fireStimulus
  by_cases h : fireCond exp laMS ct st.cs = true
  · simp only [h, if_true]
    split_ifs <;> rfl
  · simp [h]

@[simp] theorem fireStimulus_aborted (st : RunState) :
    (fireStimulus exp resources dlp laMS ct st).1.aborted = st.aborted := by
  unfold fireStimulus
  by_cases h : fireCond exp laMS ct st.cs = true
  · simp only [h, if_true]
    split_ifs <;> rfl
  · simp [h]

theorem fireStimulus_entries (st : RunState) :
    (fireStimulus exp resources dlp laMS ct st).1.log.Entries
      = st.log.Entries ++
        (if firesSound exp resources laMS ct st.cs = true ∧
            (st.mixer.Play (resourceAt resources st.cs).Sound).2 = true
          then [soundOnsetEntry exp ct st.cs] else []) := by
  unfold fireStimulus firesSound
  by_cases h : fireCond exp laMS ct st.cs = true
  · simp only [h, if_true, Bool.true_and]
    split_ifs <;> simp_all [EventLog.Log, soundOnsetEntry]
  · simp [h]

theorem fireStimulus_mixer (st : RunState) :
    (fireStimulus exp resources dlp laMS ct st).1.mixer
      = if firesSound exp resources laMS ct st.cs
          then (st.mixer.Play (resourceAt resources st.cs).Sound).1 else st.mixer := by
  unfold fireStimulus firesSound
  by_cases h : fireCond exp laMS ct st.cs = true
  · simp only [h, if_true, Bool.true_and]
    split_ifs <;> simp_all
  · simp [h]

theorem fireStimulus_plays (st : RunState) :
    (fireStimulus exp resources dlp laMS ct st).1.trace.filter Effect.isMixerPlay
      = st.trace.filter Effect.isMixerPlay ++
        (if firesSound exp resources laMS ct st.cs
          then [Effect.MixerPlay st.cs (st.mixer.Play (resourceAt resources st.cs).Sound).2]
          else []) := by
  unfold fireStimulus firesSound
  by_cases h : fireCond exp laMS ct st.cs = true
  · simp only [h, if_true, Bool.true_and]
    split_ifs <;> simp_all [List.filter_append, Effect.isMixerPlay]
  · simp [h]

theorem expireVisible_avi (st : RunState) :
    (expireVisible exp dlp ct st).avi = if st.avi ≠ -1 ∧ ct ≥ st.vet then -1 else st.avi := by
  unfold expireVisible; split <;> rfl

theorem expireVisible_entries (st : RunState) :
    (expireVisible exp dlp ct st).log.Entries
      = st.log.Entries ++ (if st.avi ≠ -1 ∧ ct ≥ st.vet then [offsetEntry exp ct st.avi] else []) := by
  unfold expireVisible
  split <;> simp [EventLog.Log, offsetEntry]

theorem expireVisible_plays (st : RunState) :
    (expireVisible exp dlp ct st).trace.filter Effect.isMixerPlay
      = st.trace.filter Effect.isMixerPlay := by
  unfold expireVisible
  split_ifs <;> simp [List.filter_append, Effect.isMixerPlay]

theorem renderFrame_plays (st : RunState) :
    (renderFrame cfg st).trace.filter Effect.isMixerPlay = st.trace.filter Effect.isMixerPlay := by
  unfold renderFrame
  split_ifs <;> simp [List.filter_append, Effect.isMixerPlay]

theorem yieldFrame_plays (st : RunState) :
    (yieldFrame cfg st).trace.filter Effect.isMixerPlay = st.trace.filter Effect.isMixerPlay := by
  unfold yieldFrame
  split_ifs <;> simp [List.filter_append, Effect.isMixerPlay]

theorem checkTermination_run (st : RunState) :
    (checkTermination cfg exp ct st).run
      = if st.cs ≥ exp.Stimuli.length ∧ st.avi = -1 ∧ ct ≥ cfg.TotalDuration then false
        else st.run := by
  unfold checkTermination; split <;> rfl

theorem logOnset_vet (trig : Bool) (tidx : Int) (st : RunState) :
    (logOnset exp ot trig tidx st).vet
      = if trig then add64 ot (stimulusAt exp tidx).DurationMS else st.vet := by
  unfold logOnset; split <;> rfl

theorem logOnset_entries (trig : Bool) (tidx : Int) (st : RunState) :
    (logOnset exp ot trig tidx st).log.Entries
      = st.log.Entries ++ (if trig then [onsetEntry exp ot tidx] else []) := by
  unfold logOnset
  split <;> simp [EventLog.Log, onsetEntry]


theorem aviFired_pre (inp : FrameInput) (st : RunState) :
    aviFired exp resources laMS ct (pollEvents ct inp.events (audioThread inp st))
      = aviFired exp resources laMS ct st := by
  simp [aviFired]

theorem vetFired_pre (inp : FrameInput) (st : RunState) :
    vetFired exp resources laMS ct (pollEvents ct inp.events (audioThread inp st))
      = vetFired exp resources laMS ct st := by
  simp [vetFired]

theorem frame_avi (st : RunState) (inp : FrameInput) :
    (frame cfg exp resources dlp laMS stTicks st inp).avi
      = if expires exp resources laMS (sub64 inp.ticks stTicks) st then -1
        else aviFired exp resources laMS (sub64 inp.ticks stTicks) st := by
  simp only [frame, yieldFrame_avi, logOnset_avi, renderFrame_avi, checkTermination_avi,
    expireVisible_avi, fireStimulus_avi, fireStimulus_vet, aviFired_pre, vetFired_pre, expires,
    decide_eq_true_eq]

theorem frame_vet (st : RunState) (inp : FrameInput) :
    (frame cfg exp resources dlp laMS stTicks st inp).vet
      = if firesVisual exp resources laMS (sub64 inp.ticks stTicks) st.cs
          then add64 (sub64 inp.ticksAfter stTicks) (stimulusAt exp st.cs).DurationMS
          else st.vet := by
  simp only [frame, yieldFrame_vet, logOnset_vet, renderFrame_vet, checkTermination_vet,
    expireVisible_vet, fireStimulus_vet, fireStimulus_trig, fireStimulus_tidx, vetFired_pre,
    pollEvents_cs, audioThread_cs]
  by_cases h : firesVisual exp resources laMS (sub64 inp.ticks stTicks) st.cs = true
  · simp [h]
  · simp [h, vetFired]

theorem frame_entries (st : RunState) (inp : FrameInput) :
    (frame cfg exp resources dlp laMS stTicks st inp).log.Entries
      = st.log.Entries ++ responseEntries (sub64 inp.ticks stTicks) inp.events ++
        (if firesSound exp resources laMS (sub64 inp.ticks stTicks) st.cs = true ∧
            ((audioThread inp st).mixer.Play (resourceAt resources st.cs).Sound).2 = true
          then [soundOnsetEntry exp (sub64 inp.ticks stTicks) st.cs] else []) ++
        (if expires exp resources laMS (sub64 inp.ticks stTicks) st
          then [offsetEntry exp (sub64 inp.ticks stTicks)
                  (aviFired exp resources laMS (sub64 inp.ticks stTicks) st)] else []) ++
        (if firesVisual exp resources laMS (sub64 inp.ticks stTicks) st.cs
          then [onsetEntry exp (sub64 inp.ticksAfter stTicks) st.cs] else []) := by
  simp only [frame, yieldFrame_log, logOnset_entries, renderFrame_log, checkTermination_log,
    expireVisible_entries, fireStimulus_entries, fireStimulus_avi, fireStimulus_vet,
    fireStimulus_trig, fireStimulus_tidx, pollEvents_entries, audioThread_log, aviFired_pre,
    vetFired_pre, pollEvents_cs, audioThread_cs, pollEvents_mixer, expires, decide_eq_true_eq]
  by_cases h : firesVisual exp resources laMS (sub64 inp.ticks stTicks) st.cs = true
  · simp [h]
  · simp [h]

theorem frame_plays (st : RunState) (inp : FrameInput) :
    (frame cfg exp resources dlp laMS stTicks st inp).trace.filter Effect.isMixerPlay
      = st.trace.filter Effect.isMixerPlay ++
        (if firesSound exp resources laMS (sub64 inp.ticks stTicks) st.cs
          then [Effect.MixerPlay st.cs
                  ((audioThread inp st).mixer.Play (resourceAt resources st.cs).Sound).2]
          else []) := by
  simp only [frame, yieldFrame_plays, logOnset_trace, renderFrame_plays, checkTermination_trace,
    expireVisible_plays, fireStimulus_plays, pollEvents_trace, audioThread_trace, pollEvents_cs,
    audioThread_cs, pollEvents_mixer]

theorem frame_mixer (st : RunState) (inp : FrameInput) :
    (frame cfg exp resources dlp laMS stTicks st inp).mixer
      = if firesSound exp resources laMS (sub64 inp.ticks stTicks) st.cs
          then ((audioThread inp st).mixer.Play (resourceAt resources st.cs).Sound).1
          else (audioThread inp st).mixer := by
  simp only [frame, yieldFrame_mixer, logOnset_mixer, renderFrame_mixer, checkTermination_mixer,
    expireVisible_mixer, fireStimulus_mixer, pollEvents_mixer, pollEvents_cs, audioThread_cs]

theorem pollEvents_run (evs : List Event) (st : RunState) :
    (pollEvents ct evs st).run = if evs.any Event.isAbort then false else st.run := by
  induction evs generalizing st with
  | nil => simp [pollEvents]
  | cons ev evs ih =>
    cases ev with
    | Quit => simp [pollEvents, ih, Event.isAbort]
    | KeyDown key keyName =>
      by_cases h : key = K_ESCAPE <;> simp [pollEvents, ih, h, Event.isAbort]
    | Other => simp [pollEvents, ih, Event.isAbort]

theorem pollEvents_aborted (evs : List Event) (st : RunState) :
    (pollEvents ct evs st).aborted = if evs.any Event.isAbort then true else st.aborted := by
  induction evs generalizing st with
  | nil => simp [pollEvents]
  | cons ev evs ih =>
    cases ev with
    | Quit => simp [pollEvents, ih, Event.isAbort]
    | KeyDown key keyName =>
      by_cases h : key = K_ESCAPE <;> simp [pollEvents, ih, h, Event.isAbort]
    | Other => simp [pollEvents, ih, Event.isAbort]

theorem frame_aborted (st : RunState) (inp : FrameInput) :
    (frame cfg exp resources dlp laMS stTicks st inp).aborted
      = if inp.events.any Event.isAbort then true else st.aborted := by
  simp only [frame, yieldFrame_aborted, logOnset_aborted, renderFrame_aborted,
    checkTermination_aborted, expireVisible_aborted, fireStimulus_aborted, pollEvents_aborted,
    audioThread_aborted]

theorem frame_run (st : RunState) (inp : FrameInput) :
    (frame cfg exp resources dlp laMS stTicks st inp).run
      = if (frame cfg exp resources dlp laMS stTicks st inp).cs ≥ exp.Stimuli.length ∧
            (frame cfg exp resources dlp laMS stTicks st inp).avi = -1 ∧
            sub64 inp.ticks stTicks ≥ cfg.TotalDuration then false
        else if inp.events.any Event.isAbort then false else st.run := by
  simp only [frame, yieldFrame_run, logOnset_run, renderFrame_run, checkTermination_run,
    expireVisible_run, fireStimulus_run, pollEvents_run, audioThread_run, yieldFrame_cs,
    logOnset_cs, renderFrame_cs, checkTermination_cs, expireVisible_cs, yieldFrame_avi,
    logOnset_avi, renderFrame_avi, checkTermination_avi]


theorem frame_cs (st : RunState) (inp : FrameInput) :
    (frame cfg exp resources dlp laMS stTicks st inp).cs
      = st.cs + (if frameFires exp laMS stTicks st inp then 1 else 0) := by
  simp [frame, frameFires, fireStimulus_cs]

theorem runLoop_cs_le (frames : List FrameInput) (st : RunState)
    (h : st.cs ≤ exp.Stimuli.length) :
    (runLoop cfg exp resources dlp laMS stTicks frames st).cs ≤ exp.Stimuli.length := by
  induction frames generalizing st with
  | nil => exact h
  | cons inp rest ih =>
    unfold runLoop
    split
    · apply ih
      rw [frame_cs]
      by_cases hf : frameFires exp laMS stTicks st inp = true
      · have := fireCond_lt exp laMS _ hf
        simp [hf]; omega
      · simp [hf]; exact h
    · exact h

theorem runLoop_cs_ge (frames : List FrameInput) (st : RunState) :
    st.cs ≤ (runLoop cfg exp resources dlp laMS stTicks frames st).cs := by
  induction frames generalizing st with
  | nil => exact Nat.le_refl _
  | cons inp rest ih =>
    unfold runLoop
    split
    · refine Nat.le_trans ?_ (ih _)
      rw [frame_cs]; omega
    · exact Nat.le_refl _

theorem firedIndices_eq (frames : List FrameInput) (st : RunState) :
    firedIndices cfg exp resources dlp laMS stTicks frames st
      = List.range' st.cs ((runLoop cfg exp resources dlp laMS stTicks frames st).cs - st.cs) := by
  induction frames generalizing st with
  | nil => simp [firedIndices, runLoop]
  | cons inp rest ih =>
    unfold firedIndices runLoop
    by_cases hr : st.run = true
    · simp only [hr, if_true]
      rw [ih]
      have hge := runLoop_cs_ge cfg exp resources dlp laMS stTicks rest
        (frame cfg exp resources dlp laMS stTicks st inp)
      have hcs := frame_cs cfg exp resources dlp laMS stTicks st inp
      by_cases hf : frameFires exp laMS stTicks st inp = true
      · simp only [hf, if_true] at hcs ⊢
        rw [hcs] at hge ⊢
        have : (runLoop cfg exp resources dlp laMS stTicks rest
            (frame cfg exp resources dlp laMS stTicks st inp)).cs - st.cs
            = ((runLoop cfg exp resources dlp laMS stTicks rest
            (frame cfg exp resources dlp laMS stTicks st inp)).cs - (st.cs + 1)) + 1 := by omega
        rw [this, List.range'_succ]
        rfl
      · simp only [hf] at hcs ⊢
        simp at hcs
        simp [hcs]
    · simp [hr]

theorem responseEntries_typ (evs : List Event) :
    ∀ e ∈ responseEntries ct evs, e.Typ = "RESPONSE" ∧ e.IntendedMS = ct ∧ e.TimestampMS = ct := by
  induction evs with
  | nil => simp [responseEntries]
  | cons ev evs ih =>
    cases ev with
    | Quit => simpa [responseEntries] using ih
    | KeyDown key keyName =>
      by_cases h : key = K_ESCAPE
      · simpa [responseEntries, h] using ih
      · intro e he
        simp only [responseEntries, h, if_false, List.mem_cons] at he
        rcases he with he | he
        · subst he; exact ⟨rfl, rfl, rfl⟩
        · exact ih e he
    | Other => simpa [responseEntries] using ih

theorem responseEntries_filter (t : String) (ht : t ≠ "RESPONSE") (evs : List Event) :
    (responseEntries ct evs).filter (fun e => e.Typ = t) = [] := by
  rw [List.filter_eq_nil_iff]
  intro e he
  have := (responseEntries_typ ct evs e he).1
  simp [this, Ne.symm ht]

theorem offsetEntry_typ (i : Int) :
    (offsetEntry exp ct i).Typ = "TEXT_OFFSET" ∨ (offsetEntry exp ct i).Typ = "IMAGE_OFFSET" := by
  unfold offsetEntry
  by_cases h : (stimulusAt exp i).Typ = StimText <;> simp [h]

theorem onsetEntry_typ (i : Int) :
    (onsetEntry exp ot i).Typ = "TEXT_ONSET" ∨ (onsetEntry exp ot i).Typ = "IMAGE_ONSET" := by
  unfold onsetEntry
  by_cases h : (stimulusAt exp i).Typ = StimText <;> simp [h]

theorem frame_log (st : RunState) (inp : FrameInput) :
    (frame cfg exp resources dlp laMS stTicks st inp).log.Entries
      = st.log.Entries ++ frameEntries exp resources laMS stTicks st inp := by
  rw [frame_entries]
  simp [frameEntries, List.append_assoc]

theorem runLoop_log (frames : List FrameInput) (st : RunState) :
    (runLoop cfg exp resources dlp laMS stTicks frames st).log.Entries
      = st.log.Entries ++ appended st.log (runLoop cfg exp resources dlp laMS stTicks frames st).log := by
  induction frames generalizing st with
  | nil => simp [runLoop, appended]
  | cons inp rest ih =>
    unfold runLoop
    split
    · have h1 := ih (frame cfg exp resources dlp laMS stTicks st inp)
      rw [frame_log] at h1
      unfold appended
      rw [h1]
      simp
    · simp [appended]

/-- Induction over the frames of a run: an invariant of the state and a
property of every appended entry. -/
theorem runLoop_induct (Inv : RunState → Prop) (P : EventLogEntry → Prop)
    (frames : List FrameInput)
    (hstep : ∀ (st : RunState) (inp : FrameInput), inp ∈ frames → Inv st →
      Inv (frame cfg exp resources dlp laMS stTicks st inp) ∧
        ∀ e ∈ frameEntries exp resources laMS stTicks st inp, P e)
    (st : RunState) (h0 : Inv st) :
    Inv (runLoop cfg exp resources dlp laMS stTicks frames st) ∧
      ∀ e ∈ appended st.log (runLoop cfg exp resources dlp laMS stTicks frames st).log, P e := by
  induction frames generalizing st with
  | nil => simp [runLoop, appended, h0]
  | cons inp rest ih =>
    unfold runLoop
    split
    · have hs := hstep st inp (List.mem_cons_self _ _) h0
      have hr := ih (fun st1 inp1 hm hi => hstep st1 inp1 (List.mem_cons_of_mem _ hm) hi)
        (frame cfg exp resources dlp laMS stTicks st inp) hs.1
      refine ⟨hr.1, ?_⟩
      intro e he
      have hlog := runLoop_log cfg exp resources dlp laMS stTicks rest
        (frame cfg exp resources dlp laMS stTicks st inp)
      unfold appended at he
      rw [hlog, frame_log, List.append_assoc, List.drop_left] at he
      rcases List.mem_append.mp he with he | he
      · exact hs.2 e he
      · exact hr.2 e he
    · simp [appended, h0]

theorem stimulusAt_of_getElem_some {cs : Nat} {s : Stimulus} (h : exp.Stimuli[cs]? = some s) :
    stimulusAt exp cs = s := by
  simp [stimulusAt, List.getD_eq_getElem?_getD, h]

theorem fireCond_ge {cs : Nat} (h : fireCond exp laMS ct cs = true) :
    add64 ct laMS ≥ (stimulusAt exp cs).TimestampMS := by
  unfold fireCond at h
  split at h
  · simp at h
  · next s hs =>
    rw [stimulusAt_of_getElem_some exp hs]
    simpa using h

theorem add64_le (a b : Nat) : add64 a b ≤ a + b := Nat.mod_le _ _

theorem add64_eq {a b : Nat} (h : a + b < U64) : add64 a b = a + b := Nat.mod_eq_of_lt h

theorem frameEntries_cases (st : RunState) (inp : FrameInput) (e : EventLogEntry)
    (he : e ∈ frameEntries exp resources laMS stTicks st inp) :
    (e.Typ = "RESPONSE" ∧ e.IntendedMS = sub64 inp.ticks stTicks ∧
        e.TimestampMS = sub64 inp.ticks stTicks) ∨
      (firesSound exp resources laMS (sub64 inp.ticks stTicks) st.cs = true ∧
        e = soundOnsetEntry exp (sub64 inp.ticks stTicks) st.cs) ∨
      (expires exp resources laMS (sub64 inp.ticks stTicks) st = true ∧
        e = offsetEntry exp (sub64 inp.ticks stTicks)
              (aviFired exp resources laMS (sub64 inp.ticks stTicks) st)) ∨
      (firesVisual exp resources laMS (sub64 inp.ticks stTicks) st.cs = true ∧
        e = onsetEntry exp (sub64 inp.ticksAfter stTicks) st.cs) := by
  unfold frameEntries at he
  simp only [List.mem_append] at he
  rcases he with ((he | he) | he) | he
  · exact Or.inl (responseEntries_typ _ _ e he)
  · split_ifs at he with h
    · exact Or.inr (Or.inl ⟨h.1, by simpa using he⟩)
    · simp at he
  · split_ifs at he with h
    · exact Or.inr (Or.inr (Or.inl ⟨h, by simpa using he⟩))
    · simp at he
  · split_ifs at he with h
    · exact Or.inr (Or.inr (Or.inr ⟨h, by simpa using he⟩))
    · simp at he

theorem firesSound_fireCond {cs : Nat} (h : firesSound exp resources laMS ct cs = true) :
    fireCond exp laMS ct cs = true := by
  unfold firesSound at h
  exact (Bool.and_eq_true _ _ ▸ h).1

theorem firesVisual_fireCond {cs : Nat} (h : firesVisual exp resources laMS ct cs = true) :
    fireCond exp laMS ct cs = true := by
  unfold firesVisual at h
  exact (Bool.and_eq_true _ _ ▸ h).1

theorem not_isOnset_of_response {e : EventLogEntry} (h : e.Typ = "RESPONSE") :
    e.isOnset = false := by
  simp [EventLogEntry.isOnset, h]

theorem not_isOnset_offsetEntry (i : Int) : (offsetEntry exp ct i).isOnset = false := by
  rcases offsetEntry_typ exp ct i with h | h <;> simp [EventLogEntry.isOnset, h]

theorem firesVisual_valid {cs : Nat} (h : firesVisual exp resources laMS ct cs = true) :
    IsVisualValid exp resources cs := by
  have hc := firesVisual_fireCond exp resources laMS ct h
  unfold firesVisual at h
  rw [Bool.and_eq_true] at h
  exact ⟨fireCond_lt exp laMS ct hc, by simpa using h.2⟩

theorem aviFired_ok (st : RunState) (h : VisibleOK exp resources st.avi) :
    VisibleOK exp resources (aviFired exp resources laMS ct st) := by
  unfold aviFired
  split_ifs with hf
  · intro _
    exact ⟨st.cs, rfl, firesVisual_valid exp resources laMS ct hf⟩
  · exact h

theorem frame_avi_ok (st : RunState) (inp : FrameInput) (h : VisibleOK exp resources st.avi) :
    VisibleOK exp resources (frame cfg exp resources dlp laMS stTicks st inp).avi := by
  rw [frame_avi]
  split_ifs
  · intro hne
    exact absurd rfl hne
  · exact aviFired_ok exp resources laMS _ st h

theorem expires_iff (st : RunState) :
    expires exp resources laMS ct st = true ↔
      aviFired exp resources laMS ct st ≠ -1 ∧ ct ≥ vetFired exp resources laMS ct st := by
  simp [expires]

theorem frame_expiry_ok (st : RunState) (inp : FrameInput)
    (hclock : ClockOK laMS stTicks inp)
    (hdur : ∀ s ∈ exp.Stimuli, sub64 inp.ticksAfter stTicks + s.DurationMS < U64)
    (h : ExpiryOK exp laMS st.avi st.vet) :
    ExpiryOK exp laMS (frame cfg exp resources dlp laMS stTicks st inp).avi
      (frame cfg exp resources dlp laMS stTicks st inp).vet := by
  rw [frame_avi, frame_vet]
  split_ifs with he hf hf
  · intro hne; exact absurd rfl hne
  · intro hne; exact absurd rfl hne
  · intro _
    have hc := firesVisual_fireCond exp resources laMS _ hf
    have hge := fireCond_ge exp laMS _ hc
    have hlt := fireCond_lt exp laMS _ hc
    obtain ⟨hmono, hno⟩ := hclock
    have hmem : stimulusAt exp (st.cs : Int) ∈ exp.Stimuli := by
      simp only [stimulusAt, Int.toNat_ofNat, List.getD_eq_getElem?_getD,
        List.getElem?_eq_getElem hlt, Option.getD_some]
      exact List.getElem_mem _
    have hd := hdur _ hmem
    rw [add64_eq (by omega)] at hge
    simp only [aviFired, hf, if_true]
    rw [add64_eq hd]
    omega
  · simpa [aviFired, hf] using h

theorem offset_bound (st : RunState) (inp : FrameInput)
    (hclock : ClockOK laMS stTicks inp)
    (hdur : ∀ s ∈ exp.Stimuli, sub64 inp.ticksAfter stTicks + s.DurationMS < U64)
    (h : ExpiryOK exp laMS st.avi st.vet)
    (he : expires exp resources laMS (sub64 inp.ticks stTicks) st = true) :
    sub64 inp.ticks stTicks + laMS ≥
      (offsetEntry exp (sub64 inp.ticks stTicks)
        (aviFired exp resources laMS (sub64 inp.ticks stTicks) st)).IntendedMS := by
  obtain ⟨hne, hvet⟩ := (expires_iff exp resources laMS _ st).mp he
  obtain ⟨hmono, hno⟩ := hclock
  simp only [offsetEntry]
  by_cases hf : firesVisual exp resources laMS (sub64 inp.ticks stTicks) st.cs = true
  · have hc := firesVisual_fireCond exp resources laMS _ hf
    have hge := fireCond_ge exp laMS _ hc
    have hlt := fireCond_lt exp laMS _ hc
    have hmem : stimulusAt exp (st.cs : Int) ∈ exp.Stimuli := by
      simp only [stimulusAt, Int.toNat_ofNat, List.getD_eq_getElem?_getD,
        List.getElem?_eq_getElem hlt, Option.getD_some]
      exact List.getElem_mem _
    have hd := hdur _ hmem
    rw [add64_eq (by omega)] at hge
    simp only [vetFired, hf, if_true] at hvet
    rw [add64_eq (by omega)] at hvet
    simp only [aviFired, hf, if_true]
    have := add64_le (stimulusAt exp (st.cs : Int)).TimestampMS
      (stimulusAt exp (st.cs : Int)).DurationMS
    omega
  · simp only [aviFired, hf] at hne ⊢
    simp only [vetFired, hf] at hvet
    have hb := h (by simpa using hne)
    have := add64_le (stimulusAt exp st.avi).TimestampMS (stimulusAt exp st.avi).DurationMS
    simp only [Bool.false_eq_true, if_false] at hvet ⊢
    omega

theorem not_isOffset_of_response {e : EventLogEntry} (h : e.Typ = "RESPONSE") :
    e.isOffset = false := by
  simp [EventLogEntry.isOffset, h]

theorem not_isOffset_soundOnsetEntry (i : Nat) : (soundOnsetEntry exp ct i).isOffset = false := by
  simp [EventLogEntry.isOffset, soundOnsetEntry]

theorem not_isOffset_onsetEntry (i : Int) : (onsetEntry exp ot i).isOffset = false := by
  rcases onsetEntry_typ exp ot i with h | h <;> simp [EventLogEntry.isOffset, h]

theorem frame_returned (st : RunState) (inp : FrameInput)
    (hab : st.aborted = false) (hev : inp.events.any Event.isAbort = false) :
    (frame cfg exp resources dlp laMS stTicks st inp).returned = some true ↔
      (frame cfg exp resources dlp laMS stTicks st inp).run = false := by
  unfold RunState.returned
  rw [frame_aborted, hev, hab]
  by_cases h : (frame cfg exp resources dlp laMS stTicks st inp).run = true <;> simp [h]

theorem frame_run_invariant (st : RunState) (inp : FrameInput)
    (h : st.run = true → st.aborted = false) :
    (frame cfg exp resources dlp laMS stTicks st inp).run = true →
      (frame cfg exp resources dlp laMS stTicks st inp).aborted = false := by
  intro hr
  rw [frame_run] at hr
  rw [frame_aborted]
  split_ifs at hr with h1 h2
  · simp only [h2]
    exact h hr

theorem not_isVisualOnset_of_response {e : EventLogEntry} (h : e.Typ = "RESPONSE") :
    e.isVisualOnset = false := by
  simp [EventLogEntry.isVisualOnset, h]

theorem not_isVisualOnset_soundOnsetEntry (i : Nat) :
    (soundOnsetEntry exp ct i).isVisualOnset = false := by
  simp [EventLogEntry.isVisualOnset, soundOnsetEntry]

theorem not_isVisualOnset_offsetEntry (i : Int) :
    (offsetEntry exp ct i).isVisualOnset = false := by
  rcases offsetEntry_typ exp ct i with h | h <;> simp [EventLogEntry.isVisualOnset, h]

end Phases

set_option maxRecDepth 100000 in
/-- The run over one sound whose file is missing, on the 16 ms clock. -/
theorem soundExp_run :
    (RunExperiment (setTotalDuration {} soundExp) soundExp [{}] NewAudioMixer {} true 16 0
        (clock16 0 60)).returned = some true ∧
      (RunExperiment (setTotalDuration {} soundExp) soundExp [{}] NewAudioMixer {} true 16 0
        (clock16 0 60)).log.Entries = [] ∧
      (RunExperiment (setTotalDuration {} soundExp) soundExp [{}] NewAudioMixer {} true 16 0
        (clock16 0 60)).trace.filter Effect.isMixerPlay = [] := by
  refine ⟨by decide, by decide, by decide⟩

/-! ## What a firing frame does with the index `cs`: lemmas -/

section Fired

variable (cfg : Config) (exp : Experiment) (resources : List Resource) (dlp : Bool)
variable (laMS stTicks ct ot : Nat)

theorem frameFires_iff (st : RunState) (inp : FrameInput) :
    frameFires exp laMS stTicks st inp = true ↔
      ∃ s, exp.Stimuli[st.cs]? = some s ∧
        add64 (sub64 inp.ticks stTicks) laMS ≥ s.TimestampMS := by
  unfold frameFires fireCond
  cases h : exp.Stimuli[st.cs]? with
  | none => simp
  | some s => simp

theorem fireCond_of_getElem {cs : Nat} {s : Stimulus} (hs : exp.Stimuli[cs]? = some s)
    (hge : add64 ct laMS ≥ s.TimestampMS) : fireCond exp laMS ct cs = true := by
  unfold fireCond
  rw [hs]
  simpa using hge

theorem resourceAt_of_getElem_some {i : Nat} {r : Resource} (h : resources[i]? = some r) :
    resourceAt resources i = r := by
  simp [resourceAt, List.getD_eq_getElem?_getD, h]

theorem getElem_of_fireCond {cs : Nat} (h : fireCond exp laMS ct cs = true) :
    exp.Stimuli[cs]? = some (stimulusAt exp cs) := by
  unfold fireCond at h
  split at h
  · simp at h
  · next s hs => rw [stimulusAt_of_getElem_some exp hs, hs]

theorem responseEntries_filter_onset (evs : List Event) :
    (responseEntries ct evs).filter EventLogEntry.isOnset = [] := by
  rw [List.filter_eq_nil_iff]
  intro e he
  simp [not_isOnset_of_response (responseEntries_typ ct evs e he).1]

theorem isOnset_soundOnsetEntry (i : Nat) : (soundOnsetEntry exp ct i).isOnset = true := by
  simp [EventLogEntry.isOnset, soundOnsetEntry]

theorem isOnset_onsetEntry (i : Int) : (onsetEntry exp ot i).isOnset = true := by
  rcases onsetEntry_typ exp ot i with h | h <;> simp [EventLogEntry.isOnset, h]

theorem frameEntries_onsets (st : RunState) (inp : FrameInput) :
    (frameEntries exp resources laMS stTicks st inp).filter EventLogEntry.isOnset
      = (if firesSound exp resources laMS (sub64 inp.ticks stTicks) st.cs = true ∧
            ((audioThread inp st).mixer.Play (resourceAt resources st.cs).Sound).2 = true
          then [soundOnsetEntry exp (sub64 inp.ticks stTicks) st.cs] else []) ++
        (if firesVisual exp resources laMS (sub64 inp.ticks stTicks) st.cs
          then [onsetEntry exp (sub64 inp.ticksAfter stTicks) st.cs] else []) := by
  unfold frameEntries
  simp only [List.filter_append, responseEntries_filter_onset]
  split_ifs <;>
    simp [List.filter_cons, isOnset_soundOnsetEntry, isOnset_onsetEntry, not_isOnset_offsetEntry]

theorem appended_frame (st : RunState) (inp : FrameInput) :
    appended st.log (frame cfg exp resources dlp laMS stTicks st inp).log
      = frameEntries exp resources laMS stTicks st inp := by
  unfold appended
  rw [frame_log, List.drop_left]

theorem firesVisual_not_sound {cs : Nat} (h : firesVisual exp resources laMS ct cs = true) :
    firesSound exp resources laMS ct cs = false := by
  have hv := (firesVisual_valid exp resources laMS ct h).2.1
  rcases hv with hv | hv <;> simp [firesSound, hv]

theorem firesSound_typ {cs : Nat} (h : firesSound exp resources laMS ct cs = true) :
    (stimulusAt exp cs).Typ = StimSound := by
  unfold firesSound at h
  rw [Bool.and_eq_true] at h
  exact (of_decide_eq_true h.2).1

theorem not_firesVisual_of_not_fires {cs : Nat} (h : fireCond exp laMS ct cs = false) :
    firesVisual exp resources laMS ct cs = false := by
  simp [firesVisual, h]

theorem not_firesSound_of_not_fires {cs : Nat} (h : fireCond exp laMS ct cs = false) :
    firesSound exp resources laMS ct cs = false := by
  simp [firesSound, h]

theorem frame_onsets_length (st : RunState) (inp : FrameInput) :
    ((appended st.log (frame cfg exp resources dlp laMS stTicks st inp).log).filter
      EventLogEntry.isOnset).length ≤ 1 := by
  rw [appended_frame, frameEntries_onsets]
  by_cases hv : firesVisual exp resources laMS (sub64 inp.ticks stTicks) st.cs = true
  · simp [hv, firesVisual_not_sound exp resources laMS _ hv]
  · have hv0 : firesVisual exp resources laMS (sub64 inp.ticks stTicks) st.cs = false := by
      simpa using hv
    rw [hv0]
    simp only [Bool.false_eq_true, if_false, List.append_nil]
    split_ifs <;> simp

theorem runLoop_cons_run (inp : FrameInput) (rest : List FrameInput) (st : RunState)
    (hr : st.run = true) :
    runLoop cfg exp resources dlp laMS stTicks (inp :: rest) st
      = runLoop cfg exp resources dlp laMS stTicks rest
          (frame cfg exp resources dlp laMS stTicks st inp) := by
  simp [runLoop, hr]

theorem appended_cons_run (inp : FrameInput) (rest : List FrameInput) (st : RunState) :
    appended st.log (runLoop cfg exp resources dlp laMS stTicks rest
        (frame cfg exp resources dlp laMS stTicks st inp)).log
      = frameEntries exp resources laMS stTicks st inp ++
        appended (frame cfg exp resources dlp laMS stTicks st inp).log
          (runLoop cfg exp resources dlp laMS stTicks rest
            (frame cfg exp resources dlp laMS stTicks st inp)).log := by
  have hlog := runLoop_log cfg exp resources dlp laMS stTicks rest
    (frame cfg exp resources dlp laMS stTicks st inp)
  conv_lhs => unfold appended; rw [hlog, frame_log, List.append_assoc, List.drop_left]

/-- The onset entries a run appends are those of stimuli at strictly
increasing indices, from `cs` on and below the final `cs`. -/
theorem runLoop_onsets (frames : List FrameInput) (st : RunState) :
    ∃ fired : List (Nat × EventLogEntry),
      (appended st.log (runLoop cfg exp resources dlp laMS stTicks frames st).log).filter
          EventLogEntry.isOnset = fired.map Prod.snd ∧
      (fired.map Prod.fst).Pairwise (· < ·) ∧
      ∀ p ∈ fired, st.cs ≤ p.1 ∧
        p.1 < (runLoop cfg exp resources dlp laMS stTicks frames st).cs ∧
        ∃ s, exp.Stimuli[p.1]? = some s ∧ p.2.IntendedMS = s.TimestampMS ∧
          p.2.Label = s.FilePath ∧
          p.2.Typ = (if s.Typ = StimSound then "SOUND_ONSET"
            else if s.Typ = StimText then "TEXT_ONSET" else "IMAGE_ONSET") := by
  induction frames generalizing st with
  | nil => exact ⟨[], by simp [runLoop, appended], by simp, by simp⟩
  | cons inp rest ih =>
    by_cases hr : st.run = true
    · rw [runLoop_cons_run cfg exp resources dlp laMS stTicks inp rest st hr]
      obtain ⟨fired, hf1, hf2, hf3⟩ := ih (frame cfg exp resources dlp laMS stTicks st inp)
      have hge := runLoop_cs_ge cfg exp resources dlp laMS stTicks rest
        (frame cfg exp resources dlp laMS stTicks st inp)
      have hcs := frame_cs cfg exp resources dlp laMS stTicks st inp
      rw [appended_cons_run, List.filter_append, frameEntries_onsets, hf1]
      by_cases hv : firesVisual exp resources laMS (sub64 inp.ticks stTicks) st.cs = true
      · have hc := firesVisual_fireCond exp resources laMS _ hv
        have hff : frameFires exp laMS stTicks st inp = true := hc
        have hval := firesVisual_valid exp resources laMS _ hv
        rw [hff] at hcs
        simp only [if_true] at hcs
        refine ⟨(st.cs, onsetEntry exp (sub64 inp.ticksAfter stTicks) st.cs) :: fired, ?_, ?_, ?_⟩
        · simp [hv, firesVisual_not_sound exp resources laMS _ hv]
        · rw [List.map_cons, List.pairwise_cons]
          refine ⟨?_, hf2⟩
          intro a ha
          obtain ⟨p, hp, rfl⟩ := List.mem_map.mp ha
          have := (hf3 p hp).1
          simp only
          omega
        · intro p hp
          rcases List.mem_cons.mp hp with rfl | hp
          · refine ⟨Nat.le_refl _, by simp only; omega,
              stimulusAt exp st.cs, getElem_of_fireCond exp laMS _ hc, rfl, rfl, ?_⟩
            rcases hval.2.1 with ht | ht <;> simp [onsetEntry, ht]
          · obtain ⟨h1, h2, h3⟩ := hf3 p hp
            exact ⟨by omega, h2, h3⟩
      · by_cases hs : firesSound exp resources laMS (sub64 inp.ticks stTicks) st.cs = true ∧
            ((audioThread inp st).mixer.Play (resourceAt resources st.cs).Sound).2 = true
        · have hc := firesSound_fireCond exp resources laMS _ hs.1
          have hff : frameFires exp laMS stTicks st inp = true := hc
          rw [hff] at hcs
          simp only [if_true] at hcs
          refine ⟨(st.cs, soundOnsetEntry exp (sub64 inp.ticks stTicks) st.cs) :: fired,
            ?_, ?_, ?_⟩
          · simp [hv, hs]
          · rw [List.map_cons, List.pairwise_cons]
            refine ⟨?_, hf2⟩
            intro a ha
            obtain ⟨p, hp, rfl⟩ := List.mem_map.mp ha
            have := (hf3 p hp).1
            simp only
            omega
          · intro p hp
            rcases List.mem_cons.mp hp with rfl | hp
            · refine ⟨Nat.le_refl _, by simp only; omega,
                stimulusAt exp st.cs, getElem_of_fireCond exp laMS _ hc, rfl, rfl, ?_⟩
              simp [soundOnsetEntry, firesSound_typ exp resources laMS _ hs.1]
            · obtain ⟨h1, h2, h3⟩ := hf3 p hp
              exact ⟨by omega, h2, h3⟩
        · refine ⟨fired, ?_, hf2, ?_⟩
          · simp [hv, hs]
          · intro p hp
            obtain ⟨h1, h2, h3⟩ := hf3 p hp
            exact ⟨by omega, h2, h3⟩
    · exact ⟨[], by simp [runLoop, hr, appended], by simp, by simp⟩

end Fired

/-! ## The frame loop: claims -/

/-- C1: every frame fires at most one stimulus, the one at index `cs`.  The
firing check holds exactly when `cs` is below the length of the timeline and
`ct + laMS` has reached the onset of `Stimuli[cs]`; a frame that fires raises
`cs` by exactly one and any other frame leaves it alone.  What a firing frame
presents is `Stimuli[cs]` with `resources[cs]`: for an image or text with a
drawable it sets `avi` and `tidx` to `cs`, `vet` to `ct` plus the duration of
`Stimuli[cs]`, calls no `Play` and appends the one onset entry of
`Stimuli[cs]`; for a sound with data it calls `Play` on `resources[cs].Sound`
and appends the `SOUND_ONSET` entry of `Stimuli[cs]` when `Play` succeeds; in
the remaining cases, and in a frame that does not fire, nothing is presented.
So in every run `cs` never exceeds the length of the timeline, the indices
fired are `0, 1, ..., cs - 1` in this order, each exactly once, and the onset
entries appended to the log belong to stimuli at strictly increasing indices
below `cs`, each with the onset time, the label and the kind of its
stimulus. -/
theorem C1_fires_in_index_order (cfg : Config) (exp : Experiment) (resources : List Resource)
    (dlp : Bool) (stTicks : Nat) :
    (∀ (laMS : Nat) (st : RunState) (inp : FrameInput),
      (frame cfg exp resources dlp laMS stTicks st inp).cs
        = st.cs + (if frameFires exp laMS stTicks st inp then 1 else 0)) ∧
    (∀ (laMS : Nat) (st : RunState) (inp : FrameInput),
      frameFires exp laMS stTicks st inp = true → st.cs < exp.Stimuli.length) ∧
    (∀ (laMS : Nat) (st : RunState) (inp : FrameInput),
      frameFires exp laMS stTicks st inp = true ↔
        ∃ s, exp.Stimuli[st.cs]? = some s ∧
          add64 (sub64 inp.ticks stTicks) laMS ≥ s.TimestampMS) ∧
    (∀ (laMS : Nat) (st : RunState) (inp : FrameInput) (s : Stimulus) (r : Resource),
      exp.Stimuli[st.cs]? = some s → resources[st.cs]? = some r →
      add64 (sub64 inp.ticks stTicks) laMS ≥ s.TimestampMS →
      (s.Typ = StimImage ∨ s.Typ = StimText) → r.Texture ≠ none →
      (fireStimulus exp resources dlp laMS (sub64 inp.ticks stTicks)
        (pollEvents (sub64 inp.ticks stTicks) inp.events (audioThread inp st))).1.avi
          = (st.cs : Int) ∧
      (fireStimulus exp resources dlp laMS (sub64 inp.ticks stTicks)
        (pollEvents (sub64 inp.ticks stTicks) inp.events (audioThread inp st))).1.vet
          = add64 (sub64 inp.ticks stTicks) s.DurationMS ∧
      (fireStimulus exp resources dlp laMS (sub64 inp.ticks stTicks)
        (pollEvents (sub64 inp.ticks stTicks) inp.events (audioThread inp st))).2
          = (true, (st.cs : Int)) ∧
      (frame cfg exp resources dlp laMS stTicks st inp).mixer = (audioThread inp st).mixer ∧
      (frame cfg exp resources dlp laMS stTicks st inp).trace.filter Effect.isMixerPlay
        = st.trace.filter Effect.isMixerPlay ∧
      (appended st.log (frame cfg exp resources dlp laMS stTicks st inp).log).filter
          EventLogEntry.isOnset
        = [{ IntendedMS := s.TimestampMS, TimestampMS := sub64 inp.ticksAfter stTicks,
             Typ := if s.Typ = StimText then "TEXT_ONSET" else "IMAGE_ONSET",
             Label := s.FilePath }]) ∧
    (∀ (laMS : Nat) (st : RunState) (inp : FrameInput) (s : Stimulus) (r : Resource),
      exp.Stimuli[st.cs]? = some s → resources[st.cs]? = some r →
      add64 (sub64 inp.ticks stTicks) laMS ≥ s.TimestampMS →
      s.Typ = StimSound → r.Sound.Data ≠ none →
      (fireStimulus exp resources dlp laMS (sub64 inp.ticks stTicks)
        (pollEvents (sub64 inp.ticks stTicks) inp.events (audioThread inp st))).1.avi
          = st.avi ∧
      (fireStimulus exp resources dlp laMS (sub64 inp.ticks stTicks)
        (pollEvents (sub64 inp.ticks stTicks) inp.events (audioThread inp st))).2
          = (false, (-1 : Int)) ∧
      (frame cfg exp resources dlp laMS stTicks st inp).mixer
        = ((audioThread inp st).mixer.Play r.Sound).1 ∧
      (frame cfg exp resources dlp laMS stTicks st inp).trace.filter Effect.isMixerPlay
        = st.trace.filter Effect.isMixerPlay ++
          [Effect.MixerPlay st.cs ((audioThread inp st).mixer.Play r.Sound).2] ∧
      (appended st.log (frame cfg exp resources dlp laMS stTicks st inp).log).filter
          EventLogEntry.isOnset
        = if ((audioThread inp st).mixer.Play r.Sound).2 = true
          then [{ IntendedMS := s.TimestampMS, TimestampMS := sub64 inp.ticks stTicks,
                  Typ := "SOUND_ONSET", Label := s.FilePath }]
          else []) ∧
    (∀ (laMS : Nat) (st : RunState) (inp : FrameInput) (s : Stimulus) (r : Resource),
      exp.Stimuli[st.cs]? = some s → resources[st.cs]? = some r →
      add64 (sub64 inp.ticks stTicks) laMS ≥ s.TimestampMS →
      ¬ ((s.Typ = StimImage ∨ s.Typ = StimText) ∧ r.Texture ≠ none) →
      ¬ (s.Typ = StimSound ∧ r.Sound.Data ≠ none) →
      (fireStimulus exp resources dlp laMS (sub64 inp.ticks stTicks)
        (pollEvents (sub64 inp.ticks stTicks) inp.events (audioThread inp st))).1.avi
          = st.avi ∧
      (fireStimulus exp resources dlp laMS (sub64 inp.ticks stTicks)
        (pollEvents (sub64 inp.ticks stTicks) inp.events (audioThread inp st))).2
          = (false, (-1 : Int)) ∧
      (frame cfg exp resources dlp laMS stTicks st inp).mixer = (audioThread inp st).mixer ∧
      (frame cfg exp resources dlp laMS stTicks st inp).trace.filter Effect.isMixerPlay
        = st.trace.filter Effect.isMixerPlay ∧
      (appended st.log (frame cfg exp resources dlp laMS stTicks st inp).log).filter
          EventLogEntry.isOnset = []) ∧
    (∀ (laMS : Nat) (st : RunState) (inp : FrameInput),
      frameFires exp laMS stTicks st inp = false →
      fireStimulus exp resources dlp laMS (sub64 inp.ticks stTicks)
        (pollEvents (sub64 inp.ticks stTicks) inp.events (audioThread inp st))
          = (pollEvents (sub64 inp.ticks stTicks) inp.events (audioThread inp st), false,
              (-1 : Int)) ∧
      (frame cfg exp resources dlp laMS stTicks st inp).mixer = (audioThread inp st).mixer ∧
      (frame cfg exp resources dlp laMS stTicks st inp).trace.filter Effect.isMixerPlay
        = st.trace.filter Effect.isMixerPlay ∧
      (appended st.log (frame cfg exp resources dlp laMS stTicks st inp).log).filter
          EventLogEntry.isOnset = []) ∧
    (∀ (laMS : Nat) (st : RunState) (inp : FrameInput),
      ((appended st.log (frame cfg exp resources dlp laMS stTicks st inp).log).filter
        EventLogEntry.isOnset).length ≤ 1) ∧
    (∀ (mixer : AudioMixer) (log : EventLog) (fdMS : Nat) (frames : List FrameInput),
      (RunExperiment cfg exp resources mixer log dlp fdMS stTicks frames).cs ≤ exp.Stimuli.length ∧
      firedIndices cfg exp resources dlp (fdMS / 2) stTicks frames { mixer := mixer, log := log }
        = List.range (RunExperiment cfg exp resources mixer log dlp fdMS stTicks frames).cs ∧
      (firedIndices cfg exp resources dlp (fdMS / 2) stTicks frames
        { mixer := mixer, log := log }).Nodup ∧
      ∃ fired : List (Nat × EventLogEntry),
        (appended log
          (RunExperiment cfg exp resources mixer log dlp fdMS stTicks frames).log).filter
            EventLogEntry.isOnset = fired.map Prod.snd ∧
        (fired.map Prod.fst).Pairwise (· < ·) ∧
        ∀ p ∈ fired,
          p.1 < (RunExperiment cfg exp resources mixer log dlp fdMS stTicks frames).cs ∧
          ∃ s, exp.Stimuli[p.1]? = some s ∧ p.2.IntendedMS = s.TimestampMS ∧
            p.2.Label = s.FilePath ∧
            p.2.Typ = (if s.Typ = StimSound then "SOUND_ONSET"
              else if s.Typ = StimText then "TEXT_ONSET" else "IMAGE_ONSET")) := by
  refine ⟨fun laMS st inp => frame_cs cfg exp resources dlp laMS stTicks st inp,
    fun laMS st inp h => fireCond_lt exp laMS _ h,
    fun laMS st inp => frameFires_iff exp laMS stTicks st inp, ?_, ?_, ?_, ?_,
    fun laMS st inp => frame_onsets_length cfg exp resources dlp laMS stTicks st inp, ?_⟩
  · intro laMS st inp s r hs hr hge htyp htex
    have hfc := fireCond_of_getElem exp laMS _ hs hge
    have hst := stimulusAt_of_getElem_some exp hs
    have hra := resourceAt_of_getElem_some resources hr
    have hv : firesVisual exp resources laMS (sub64 inp.ticks stTicks) st.cs = true := by
      simp [firesVisual, hfc, hst, hra, htyp, htex]
    have hsnd := firesVisual_not_sound exp resources laMS _ hv
    refine ⟨?_, ?_, ?_, ?_, ?_, ?_⟩
    · rw [fireStimulus_avi, aviFired_pre]
      simp [aviFired, hv]
    · rw [fireStimulus_vet, vetFired_pre]
      simp [vetFired, hv, hst]
    · refine Prod.ext ?_ ?_
      · rw [fireStimulus_trig]
        simpa using hv
      · rw [fireStimulus_tidx]
        simp [hv]
    · rw [frame_mixer, hsnd]
      simp
    · rw [frame_plays, hsnd]
      simp
    · rw [appended_frame, frameEntries_onsets, hv, hsnd]
      simp [onsetEntry, hst]
  · intro laMS st inp s r hs hr hge htyp hdat
    have hfc := fireCond_of_getElem exp laMS _ hs hge
    have hst := stimulusAt_of_getElem_some exp hs
    have hra := resourceAt_of_getElem_some resources hr
    have hsnd : firesSound exp resources laMS (sub64 inp.ticks stTicks) st.cs = true := by
      simp [firesSound, hfc, hst, hra, htyp, hdat]
    have hv : firesVisual exp resources laMS (sub64 inp.ticks stTicks) st.cs = false := by
      simp [firesVisual, hst, htyp]
    refine ⟨?_, ?_, ?_, ?_, ?_⟩
    · rw [fireStimulus_avi, aviFired_pre]
      simp [aviFired, hv]
    · refine Prod.ext ?_ ?_
      · rw [fireStimulus_trig]
        simpa using hv
      · rw [fireStimulus_tidx]
        simp [hv]
    · rw [frame_mixer, hsnd, hra]
      simp
    · rw [frame_plays, hsnd, hra]
      simp
    · rw [appended_frame, frameEntries_onsets, hv, hsnd, hra]
      by_cases hok : ((audioThread inp st).mixer.Play r.Sound).2 = true
      · simp [hok, soundOnsetEntry, hst]
      · simp [hok]
  · intro laMS st inp s r hs hr hge hnv hns
    have hfc := fireCond_of_getElem exp laMS _ hs hge
    have hst := stimulusAt_of_getElem_some exp hs
    have hra := resourceAt_of_getElem_some resources hr
    have hsnd : firesSound exp resources laMS (sub64 inp.ticks stTicks) st.cs = false := by
      simp only [firesSound, hfc, hst, hra, Bool.true_and]
      exact decide_eq_false hns
    have hv : firesVisual exp resources laMS (sub64 inp.ticks stTicks) st.cs = false := by
      simp only [firesVisual, hfc, hst, hra, Bool.true_and]
      exact decide_eq_false hnv
    refine ⟨?_, ?_, ?_, ?_, ?_⟩
    · rw [fireStimulus_avi, aviFired_pre]
      simp [aviFired, hv]
    · refine Prod.ext ?_ ?_
      · rw [fireStimulus_trig]
        simpa using hv
      · rw [fireStimulus_tidx]
        simp [hv]
    · rw [frame_mixer, hsnd]
      simp
    · rw [frame_plays, hsnd]
      simp
    · rw [appended_frame, frameEntries_onsets, hv, hsnd]
      simp
  · intro laMS st inp hnf
    have hfc : fireCond exp laMS (sub64 inp.ticks stTicks) st.cs = false := hnf
    have hsnd := not_firesSound_of_not_fires exp resources laMS _ hfc
    have hv := not_firesVisual_of_not_fires exp resources laMS _ hfc
    refine ⟨?_, ?_, ?_, ?_⟩
    · simp [fireStimulus, hfc]
    · rw [frame_mixer, hsnd]
      simp
    · rw [frame_plays, hsnd]
      simp
    · rw [appended_frame, frameEntries_onsets, hv, hsnd]
      simp
  · intro mixer log fdMS frames
    have heq := firedIndices_eq cfg exp resources dlp (fdMS / 2) stTicks frames
      { mixer := mixer, log := log }
    have hrange : firedIndices cfg exp resources dlp (fdMS / 2) stTicks frames
        { mixer := mixer, log := log }
        = List.range (RunExperiment cfg exp resources mixer log dlp fdMS stTicks frames).cs := by
      rw [heq, List.range_eq_range']
      rfl
    refine ⟨?_, hrange, ?_, ?_⟩
    · exact runLoop_cs_le cfg exp resources dlp (fdMS / 2) stTicks frames _ (Nat.zero_le _)
    · rw [hrange]
      exact List.nodup_range _
    · obtain ⟨fired, h1, h2, h3⟩ := runLoop_onsets cfg exp resources dlp (fdMS / 2) stTicks
        frames { mixer := mixer, log := log }
      exact ⟨fired, h1, h2, fun p hp => ⟨(h3 p hp).2.1, (h3 p hp).2.2⟩⟩

/-- Witness for C1 on the end-to-end example: the frame at 96 ms fires index 0,
the image `a.png` with its drawable, makes it the visible stimulus and
appends its `IMAGE_ONSET` entry. -/
theorem C1_fires_in_index_order_witness :
    (demoExp.Stimuli[({} : RunState).cs]?
        = some { TimestampMS := 100, DurationMS := 200, Typ := StimImage, FilePath := "a.png" } ∧
      [({ Texture := some 1 } : Resource)][({} : RunState).cs]? = some { Texture := some 1 } ∧
      add64 (sub64 96 0) 8 ≥ 100) ∧
    (fireStimulus demoExp [{ Texture := some 1 }] true 8 (sub64 96 0)
      (pollEvents (sub64 96 0) [] (audioThread { ticks := 96, ticksAfter := 96 } {}))).1.avi
        = ((0 : Nat) : Int) ∧
    (appended {} (frame {} demoExp [{ Texture := some 1 }] true 8 0 {}
        { ticks := 96, ticksAfter := 96 }).log).filter EventLogEntry.isOnset
      = [{ IntendedMS := 100, TimestampMS := sub64 96 0,
           Typ := if StimImage = StimText then "TEXT_ONSET" else "IMAGE_ONSET",
           Label := "a.png" }] :=
  have h := (C1_fires_in_index_order {} demoExp [{ Texture := some 1 }] true 0).2.2.2.1 8 {}
    { ticks := 96, ticksAfter := 96 }
    { TimestampMS := 100, DurationMS := 200, Typ := StimImage, FilePath := "a.png" }
    { Texture := some 1 } (by decide) (by decide) (by decide) (Or.inl rfl) (by decide)
  ⟨⟨by decide, by decide, by decide⟩, h.1, h.2.2.2.2.2⟩

/-- C2: a frame whose firing check holds raises `cs` by exactly one, whatever
the kind of the stimulus and whatever its resource holds; and when that
stimulus is a sound without cached audio data, the frame does not call
`mixer.Play` (the mixer is as the audio thread left it) and appends no
`SOUND_ONSET` entry.  End to end, the run over one sound whose file is missing
returns true with an empty log and no call of `Play`. -/
theorem C2_firing_advances_regardless (cfg : Config) (exp : Experiment)
    (resources : List Resource) (dlp : Bool) (laMS stTicks : Nat) :
    (∀ (st : RunState) (inp : FrameInput), frameFires exp laMS stTicks st inp = true →
      (frame cfg exp resources dlp laMS stTicks st inp).cs = st.cs + 1) ∧
    (∀ (st : RunState) (inp : FrameInput), frameFires exp laMS stTicks st inp = true →
      (stimulusAt exp st.cs).Typ = StimSound → (resourceAt resources st.cs).Sound.Data = none →
      (frame cfg exp resources dlp laMS stTicks st inp).trace.filter Effect.isMixerPlay
          = st.trace.filter Effect.isMixerPlay ∧
        (frame cfg exp resources dlp laMS stTicks st inp).mixer = (audioThread inp st).mixer ∧
        entriesOfType (frame cfg exp resources dlp laMS stTicks st inp).log "SOUND_ONSET"
          = entriesOfType st.log "SOUND_ONSET") ∧
    ((RunExperiment (setTotalDuration {} soundExp) soundExp [{}] NewAudioMixer {} true 16 0
        (clock16 0 60)).returned = some true ∧
      (RunExperiment (setTotalDuration {} soundExp) soundExp [{}] NewAudioMixer {} true 16 0
        (clock16 0 60)).log.Entries = [] ∧
      (RunExperiment (setTotalDuration {} soundExp) soundExp [{}] NewAudioMixer {} true 16 0
        (clock16 0 60)).trace.filter Effect.isMixerPlay = []) := by
  refine ⟨?_, ?_, soundExp_run⟩
  · intro st inp h
    rw [frame_cs, h]
    rfl
  · intro st inp _ hs hd
    have hsound : firesSound exp resources laMS (sub64 inp.ticks stTicks) st.cs = false := by
      simp [firesSound, hd]
    have hvis : firesVisual exp resources laMS (sub64 inp.ticks stTicks) st.cs = false := by
      simp [firesVisual, hs]
    refine ⟨?_, ?_, ?_⟩
    · rw [frame_plays, hsound]
      simp
    · rw [frame_mixer, hsound]
      simp
    · unfold entriesOfType
      rw [frame_entries, hsound, hvis]
      simp only [Bool.false_eq_true, false_and, if_false, List.append_nil, List.filter_append,
        responseEntries_filter _ "SOUND_ONSET" (by decide)]
      split_ifs with hx
      · rcases offsetEntry_typ exp (sub64 inp.ticks stTicks)
          (aviFired exp resources laMS (sub64 inp.ticks stTicks) st) with h1 | h1 <;>
          simp [h1]
      · simp

/-- Witness for C2: the frame at 96 ms fires the sound whose data is missing. -/
theorem C2_firing_advances_regardless_witness :
    frameFires soundExp 8 0 {} { ticks := 96, ticksAfter := 96 } = true ∧
      (frame {} soundExp [{}] true 8 0 {} { ticks := 96, ticksAfter := 96 }).cs = 0 + 1 ∧
      entriesOfType (frame {} soundExp [{}] true 8 0 {} { ticks := 96, ticksAfter := 96 }).log
        "SOUND_ONSET" = entriesOfType {} "SOUND_ONSET" :=
  ⟨by decide,
    (C2_firing_advances_regardless {} soundExp [{}] true 8 0).1 {}
      { ticks := 96, ticksAfter := 96 } (by decide),
    ((C2_firing_advances_regardless {} soundExp [{}] true 8 0).2.1 {}
      { ticks := 96, ticksAfter := 96 } (by decide) (by decide) (by decide)).2.2⟩

/-- C3: when in every frame the clock reading taken after `Present` is not
earlier than the reading at the top of the frame and adding the lookahead
`laMS = fdMS / 2` does not overflow a `uint64`, every `IMAGE_ONSET`,
`TEXT_ONSET` and `SOUND_ONSET` entry a run appends satisfies
`actual_ms + laMS >= intended_ms`. -/
theorem C3_onset_at_most_lookahead_early (cfg : Config) (exp : Experiment)
    (resources : List Resource) (mixer : AudioMixer) (log : EventLog) (dlp : Bool)
    (fdMS stTicks : Nat) (frames : List FrameInput)
    (hclock : ∀ inp ∈ frames, ClockOK (fdMS / 2) stTicks inp) :
    ∀ e ∈ appended log (RunExperiment cfg exp resources mixer log dlp fdMS stTicks frames).log,
      e.isOnset = true → e.TimestampMS + fdMS / 2 ≥ e.IntendedMS := by
  refine (runLoop_induct cfg exp resources dlp (fdMS / 2) stTicks (fun _ => True)
    (fun e => e.isOnset = true → e.TimestampMS + fdMS / 2 ≥ e.IntendedMS) frames ?_
    { mixer := mixer, log := log } trivial).2
  intro st inp hin _
  refine ⟨trivial, ?_⟩
  intro e he hon
  obtain ⟨hmono, hno⟩ := hclock inp hin
  rcases frameEntries_cases exp resources (fdMS / 2) stTicks st inp e he with
    h | ⟨hf, rfl⟩ | ⟨_, rfl⟩ | ⟨hf, rfl⟩
  · rw [not_isOnset_of_response h.1] at hon
    exact absurd hon (by simp)
  · have hge := fireCond_ge exp (fdMS / 2) _ (firesSound_fireCond exp resources _ _ hf)
    rw [add64_eq (by omega)] at hge
    simpa [soundOnsetEntry] using hge
  · rw [not_isOnset_offsetEntry] at hon
    exact absurd hon (by simp)
  · have hge := fireCond_ge exp (fdMS / 2) _ (firesVisual_fireCond exp resources _ _ hf)
    rw [add64_eq (by omega)] at hge
    simp only [onsetEntry]
    omega

set_option maxRecDepth 100000 in
/-- Witness for C3: the end-to-end example on the 16 ms clock. -/
theorem C3_onset_at_most_lookahead_early_witness :
    (∀ inp ∈ clock16 0 60, ClockOK (16 / 2) 0 inp) ∧
      ∀ e ∈ appended {} (RunExperiment (setTotalDuration {} demoExp) demoExp
          [{ Texture := some 1 }] NewAudioMixer {} true 16 0 (clock16 0 60)).log,
        e.isOnset = true → e.TimestampMS + 16 / 2 ≥ e.IntendedMS :=
  ⟨by decide,
    C3_onset_at_most_lookahead_early (setTotalDuration {} demoExp) demoExp
      [{ Texture := some 1 }] NewAudioMixer {} true 16 0 (clock16 0 60) (by decide)⟩

set_option maxRecDepth 100000 in
/-- Counterexample to C4 as stated: an image at 100 ms lasting 192 ms, on the
16 ms clock whose frames fall at 12, 28, ..., fires at 92 ms and expires at
284 ms, so its offset entry has `actual_ms = 284` before `intended_ms = 292`. -/
theorem C4_counterexample :
    (RunExperiment (setTotalDuration {} earlyExp) earlyExp [{ Texture := some 1 }]
        NewAudioMixer {} true 16 0 (clock16 12 60)).log.Entries
      = [{ IntendedMS := 100, TimestampMS := 92, Typ := "IMAGE_ONSET", Label := "a.png" },
         { IntendedMS := 292, TimestampMS := 284, Typ := "IMAGE_OFFSET", Label := "a.png" }] ∧
    ¬ (∀ e ∈ (RunExperiment (setTotalDuration {} earlyExp) earlyExp [{ Texture := some 1 }]
        NewAudioMixer {} true 16 0 (clock16 12 60)).log.Entries,
      e.isOffset = true → e.TimestampMS ≥ e.IntendedMS) := by
  refine ⟨by decide, by decide⟩

set_option maxRecDepth 1000000 in
/-- The offset entry of the end-to-end example for every phase of the 16 ms clock. -/
theorem demoExp_offset :
    ∀ p < 16,
      (entriesOfType (RunExperiment (setTotalDuration {} demoExp) demoExp [{ Texture := some 1 }]
        NewAudioMixer {} true 16 0 (clock16 p 60)).log "IMAGE_OFFSET").map
          (fun e => (e.IntendedMS, decide (300 ≤ e.TimestampMS ∧ e.TimestampMS ≤ 316)))
        = [(300, true)] := by
  decide

/-- C4 (amended): under the clock assumption of C3 and when `elapsed + duration`
does not overflow a `uint64`, every `IMAGE_OFFSET` or `TEXT_OFFSET` entry a run
appends belongs to an image or text stimulus with a drawable, carries
`intended_ms = onset_ms + duration_ms` (Go `uint64` sum) of that stimulus, and
has `actual_ms + laMS >= intended_ms`: the offset is at most one lookahead
early.  For onset 100 and duration 200 on the 16 ms clock, whatever its
phase, the run logs exactly one `IMAGE_OFFSET`, with `intended_ms = 300` and
`actual_ms` in [300, 316]. -/
theorem C4_offset_at_most_lookahead_early (cfg : Config) (exp : Experiment)
    (resources : List Resource) (dlp : Bool) (fdMS stTicks : Nat) :
    (∀ (mixer : AudioMixer) (log : EventLog) (frames : List FrameInput),
      (∀ inp ∈ frames, ClockOK (fdMS / 2) stTicks inp) →
      (∀ inp ∈ frames, ∀ s ∈ exp.Stimuli, sub64 inp.ticksAfter stTicks + s.DurationMS < U64) →
      ∀ e ∈ appended log (RunExperiment cfg exp resources mixer log dlp fdMS stTicks frames).log,
        e.isOffset = true →
          (∃ i : Nat, IsVisualValid exp resources i ∧
            e.IntendedMS = add64 (stimulusAt exp i).TimestampMS (stimulusAt exp i).DurationMS ∧
            e.Label = (stimulusAt exp i).FilePath) ∧
          e.TimestampMS + fdMS / 2 ≥ e.IntendedMS) ∧
    (∀ p < 16,
      (entriesOfType (RunExperiment (setTotalDuration {} demoExp) demoExp [{ Texture := some 1 }]
        NewAudioMixer {} true 16 0 (clock16 p 60)).log "IMAGE_OFFSET").map
          (fun e => (e.IntendedMS, decide (300 ≤ e.TimestampMS ∧ e.TimestampMS ≤ 316)))
        = [(300, true)]) := by
  refine ⟨?_, demoExp_offset⟩
  intro mixer log frames hclock hdur
  refine (runLoop_induct cfg exp resources dlp (fdMS / 2) stTicks
    (fun st => VisibleOK exp resources st.avi ∧ ExpiryOK exp (fdMS / 2) st.avi st.vet)
    (fun e => e.isOffset = true →
      (∃ i : Nat, IsVisualValid exp resources i ∧
        e.IntendedMS = add64 (stimulusAt exp i).TimestampMS (stimulusAt exp i).DurationMS ∧
        e.Label = (stimulusAt exp i).FilePath) ∧
      e.TimestampMS + fdMS / 2 ≥ e.IntendedMS) frames ?_
    { mixer := mixer, log := log } ⟨fun h => absurd rfl h, fun h => absurd rfl h⟩).2
  intro st inp hin ⟨hvis, hexp⟩
  refine ⟨⟨frame_avi_ok cfg exp resources dlp (fdMS / 2) stTicks st inp hvis,
    frame_expiry_ok cfg exp resources dlp (fdMS / 2) stTicks st inp (hclock inp hin)
      (hdur inp hin) hexp⟩, ?_⟩
  intro e he hoff
  rcases frameEntries_cases exp resources (fdMS / 2) stTicks st inp e he with
    h | ⟨_, rfl⟩ | ⟨hx, rfl⟩ | ⟨_, rfl⟩
  · rw [not_isOffset_of_response h.1] at hoff
    exact absurd hoff (by simp)
  · rw [not_isOffset_soundOnsetEntry] at hoff
    exact absurd hoff (by simp)
  · refine ⟨?_, offset_bound exp resources (fdMS / 2) stTicks st inp (hclock inp hin)
      (hdur inp hin) hexp hx⟩
    obtain ⟨i, hi, hval⟩ := aviFired_ok exp resources (fdMS / 2) (sub64 inp.ticks stTicks) st hvis
      ((expires_iff exp resources (fdMS / 2) _ st).mp hx).1
    exact ⟨i, hval, by rw [hi]; rfl, by rw [hi]; rfl⟩
  · rw [not_isOffset_onsetEntry] at hoff
    exact absurd hoff (by simp)

set_option maxRecDepth 100000 in
/-- Witness for C4 (amended): the end-to-end example on the 16 ms clock. -/
theorem C4_offset_at_most_lookahead_early_witness :
    (∀ inp ∈ clock16 0 60, ClockOK (16 / 2) 0 inp) ∧
    (∀ inp ∈ clock16 0 60, ∀ s ∈ demoExp.Stimuli, sub64 inp.ticksAfter 0 + s.DurationMS < U64) ∧
    ∀ e ∈ appended {} (RunExperiment (setTotalDuration {} demoExp) demoExp
        [{ Texture := some 1 }] NewAudioMixer {} true 16 0 (clock16 0 60)).log,
      e.isOffset = true →
        (∃ i : Nat, IsVisualValid demoExp [{ Texture := some 1 }] i ∧
          e.IntendedMS
            = add64 (stimulusAt demoExp i).TimestampMS (stimulusAt demoExp i).DurationMS ∧
          e.Label = (stimulusAt demoExp i).FilePath) ∧
        e.TimestampMS + 16 / 2 ≥ e.IntendedMS :=
  ⟨by decide, by decide,
    (C4_offset_at_most_lookahead_early (setTotalDuration {} demoExp) demoExp
      [{ Texture := some 1 }] true 16 0).1 NewAudioMixer {} (clock16 0 60)
      (by decide) (by decide)⟩

/-- C5 (code at the failing input): for an image with `duration_ms = 0` the
firing frame sets `vet = ct + 0`, so the expiry check of the same iteration
already passes and appends `IMAGE_OFFSET`; the `IMAGE_ONSET` entry, deferred
until after `Present`, is appended after it. -/
theorem C5_zero_duration_offset_before_onset :
    (RunExperiment (setTotalDuration {} zeroExp) zeroExp [{ Texture := some 1 }]
        NewAudioMixer {} true 16 0 (clock16 0 7)).log.Entries
      = [{ IntendedMS := 100, TimestampMS := 96, Typ := "IMAGE_OFFSET", Label := "a.png" },
         { IntendedMS := 100, TimestampMS := 96, Typ := "IMAGE_ONSET", Label := "a.png" }] := by
  decide

/-- C6: in a frame without quit or abort input, entered with `run` set and
`aborted` clear, the loop ends as Finished (`RunExperiment` returns true)
exactly when, after the firing and expiry checks of that frame, `cs` is at
least the length of the timeline, `avi` is -1 and the elapsed time has
reached `cfg.TotalDuration`; `aborted` is clear whenever `run` is set; `Run`
sets `TotalDuration` to onset + duration + 500 of the last stimulus (`uint64`
sums), which is 800 for the end-to-end example, whose run on the 16 ms clock
is still going after the frame at 784 ms and Finished after the frame at
800 ms. -/
theorem C6_finished_iff (cfg : Config) (exp : Experiment) (resources : List Resource)
    (dlp : Bool) (stTicks : Nat) :
    (∀ (laMS : Nat) (st : RunState) (inp : FrameInput),
      st.run = true → st.aborted = false → inp.events.any Event.isAbort = false →
      ((frame cfg exp resources dlp laMS stTicks st inp).returned = some true ↔
        ((frame cfg exp resources dlp laMS stTicks st inp).cs ≥ exp.Stimuli.length ∧
          (frame cfg exp resources dlp laMS stTicks st inp).avi = -1 ∧
          sub64 inp.ticks stTicks ≥ cfg.TotalDuration))) ∧
    (∀ (mixer : AudioMixer) (log : EventLog) (fdMS : Nat) (frames : List FrameInput),
      (RunExperiment cfg exp resources mixer log dlp fdMS stTicks frames).run = true →
        (RunExperiment cfg exp resources mixer log dlp fdMS stTicks frames).aborted = false) ∧
    (∀ (cfg0 : Config) (lastStim : Stimulus), exp.Stimuli.getLast? = some lastStim →
      (setTotalDuration cfg0 exp).TotalDuration
        = add64 (add64 lastStim.TimestampMS lastStim.DurationMS) 500) ∧
    ((setTotalDuration {} demoExp).TotalDuration = 100 + 200 + 500 ∧
      (RunExperiment (setTotalDuration {} demoExp) demoExp [{ Texture := some 1 }]
        NewAudioMixer {} true 16 0 (clock16 0 50)).returned = none ∧
      (RunExperiment (setTotalDuration {} demoExp) demoExp [{ Texture := some 1 }]
        NewAudioMixer {} true 16 0 (clock16 0 51)).returned = some true) := by
  refine ⟨?_, ?_, ?_, by decide, by decide, by decide⟩
  · intro laMS st inp hrun hab hev
    rw [frame_returned cfg exp resources dlp laMS stTicks st inp hab hev, frame_run, hev, hrun]
    by_cases h : (frame cfg exp resources dlp laMS stTicks st inp).cs ≥ exp.Stimuli.length ∧
        (frame cfg exp resources dlp laMS stTicks st inp).avi = -1 ∧
        sub64 inp.ticks stTicks ≥ cfg.TotalDuration
    · simp only [h, and_self, if_true]
    · simp [h]
  · intro mixer log fdMS frames
    exact (runLoop_induct cfg exp resources dlp (fdMS / 2) stTicks
      (fun st => st.run = true → st.aborted = false) (fun _ => True) frames
      (fun st inp _ hinv =>
        ⟨frame_run_invariant cfg exp resources dlp (fdMS / 2) stTicks st inp hinv,
          fun _ _ => trivial⟩)
      { mixer := mixer, log := log } (fun _ => rfl)).1
  · intro cfg0 lastStim hlast
    simp [setTotalDuration, hlast]

/-- Witness for C6: the frame at 800 ms of the end-to-end example, entered
with the stimulus fired and nothing visible, ends the run as Finished. -/
theorem C6_finished_iff_witness :
    (({ cs := 1 } : RunState).run = true ∧ ({ cs := 1 } : RunState).aborted = false ∧
      ([] : List Event).any Event.isAbort = false) ∧
    (frame (setTotalDuration {} demoExp) demoExp [{ Texture := some 1 }] true 8 0 { cs := 1 }
      { ticks := 800, ticksAfter := 800 }).returned = some true :=
  ⟨⟨rfl, rfl, rfl⟩,
    ((C6_finished_iff (setTotalDuration {} demoExp) demoExp [{ Texture := some 1 }] true 0).1 8
      { cs := 1 } { ticks := 800, ticksAfter := 800 } rfl rfl rfl).mpr
      ⟨by decide, by decide, by decide⟩⟩

set_option maxRecDepth 100000 in
/-- Counterexample to C7 as stated: the end-to-end timeline with an image whose
drawable failed to load runs to Finished, past the stimulus, with an empty
log: neither `IMAGE_ONSET` nor `IMAGE_OFFSET` is appended. -/
theorem C7_counterexample :
    (RunExperiment (setTotalDuration {} demoExp) demoExp [{ Texture := none }]
        NewAudioMixer {} true 16 0 (clock16 0 60)).returned = some true ∧
    (RunExperiment (setTotalDuration {} demoExp) demoExp [{ Texture := none }]
        NewAudioMixer {} true 16 0 (clock16 0 60)).cs = 1 ∧
    (RunExperiment (setTotalDuration {} demoExp) demoExp [{ Texture := none }]
        NewAudioMixer {} true 16 0 (clock16 0 60)).log.Entries = [] := by
  refine ⟨by decide, by decide, by decide⟩

/-- C7 (amended): the guard `resources[cs].Texture != nil` makes an image or
text stimulus without a drawable a no-op apart from the advance.  The frame
in which it fires raises `cs` by one, does not call `Play`, does not make the
stimulus visible (`avi` becomes -1 or keeps its value, `vet` keeps its value)
and appends, besides responses, at most the offset entry of the stimulus that
was visible before.  In every run, each `IMAGE_ONSET`, `TEXT_ONSET`,
`IMAGE_OFFSET` and `TEXT_OFFSET` entry appended carries the label and the
intended time of an image or text stimulus that has a drawable. -/
theorem C7_failed_drawable_advances_without_entries (cfg : Config) (exp : Experiment)
    (resources : List Resource) (dlp : Bool) (stTicks : Nat) :
    (∀ (laMS : Nat) (st : RunState) (inp : FrameInput),
      frameFires exp laMS stTicks st inp = true →
      ((stimulusAt exp st.cs).Typ = StimImage ∨ (stimulusAt exp st.cs).Typ = StimText) →
      (resourceAt resources st.cs).Texture = none →
      (frame cfg exp resources dlp laMS stTicks st inp).cs = st.cs + 1 ∧
        ((frame cfg exp resources dlp laMS stTicks st inp).avi = -1 ∨
          (frame cfg exp resources dlp laMS stTicks st inp).avi = st.avi) ∧
        (frame cfg exp resources dlp laMS stTicks st inp).vet = st.vet ∧
        (frame cfg exp resources dlp laMS stTicks st inp).trace.filter Effect.isMixerPlay
          = st.trace.filter Effect.isMixerPlay ∧
        (∀ e ∈ appended st.log (frame cfg exp resources dlp laMS stTicks st inp).log,
          e.Typ = "RESPONSE" ∨
            (st.avi ≠ -1 ∧ e = offsetEntry exp (sub64 inp.ticks stTicks) st.avi))) ∧
    (∀ (mixer : AudioMixer) (log : EventLog) (fdMS : Nat) (frames : List FrameInput),
      ∀ e ∈ appended log (RunExperiment cfg exp resources mixer log dlp fdMS stTicks frames).log,
        (e.isVisualOnset = true →
          ∃ i : Nat, IsVisualValid exp resources i ∧
            e.IntendedMS = (stimulusAt exp i).TimestampMS ∧
            e.Label = (stimulusAt exp i).FilePath) ∧
        (e.isOffset = true →
          ∃ i : Nat, IsVisualValid exp resources i ∧
            e.IntendedMS = add64 (stimulusAt exp i).TimestampMS (stimulusAt exp i).DurationMS ∧
            e.Label = (stimulusAt exp i).FilePath)) := by
  constructor
  · intro laMS st inp hfire htyp htex
    have hvis : firesVisual exp resources laMS (sub64 inp.ticks stTicks) st.cs = false := by
      simp [firesVisual, htex]
    have hsound : firesSound exp resources laMS (sub64 inp.ticks stTicks) st.cs = false := by
      rcases htyp with h | h <;> simp [firesSound, h]
    refine ⟨?_, ?_, ?_, ?_, ?_⟩
    · rw [frame_cs, hfire]; rfl
    · rw [frame_avi]
      split_ifs
      · exact Or.inl rfl
      · exact Or.inr (by simp [aviFired, hvis])
    · rw [frame_vet, hvis]; rfl
    · rw [frame_plays, hsound]; simp
    · intro e he
      unfold appended at he
      rw [frame_log, List.drop_left] at he
      rcases frameEntries_cases exp resources laMS stTicks st inp e he with
        h | ⟨hf, _⟩ | ⟨hx, rfl⟩ | ⟨hf, _⟩
      · exact Or.inl h.1
      · rw [hsound] at hf; exact absurd hf (by simp)
      · have hne := ((expires_iff exp resources laMS _ st).mp hx).1
        have havi : aviFired exp resources laMS (sub64 inp.ticks stTicks) st = st.avi := by
          simp [aviFired, hvis]
        rw [havi] at hne ⊢
        exact Or.inr ⟨hne, rfl⟩
      · rw [hvis] at hf; exact absurd hf (by simp)
  · intro mixer log fdMS frames
    refine (runLoop_induct cfg exp resources dlp (fdMS / 2) stTicks
      (fun st => VisibleOK exp resources st.avi)
      (fun e =>
        (e.isVisualOnset = true →
          ∃ i : Nat, IsVisualValid exp resources i ∧
            e.IntendedMS = (stimulusAt exp i).TimestampMS ∧
            e.Label = (stimulusAt exp i).FilePath) ∧
        (e.isOffset = true →
          ∃ i : Nat, IsVisualValid exp resources i ∧
            e.IntendedMS = add64 (stimulusAt exp i).TimestampMS (stimulusAt exp i).DurationMS ∧
            e.Label = (stimulusAt exp i).FilePath)) frames ?_
      { mixer := mixer, log := log } (fun h => absurd rfl h)).2
    intro st inp _ hvis
    refine ⟨frame_avi_ok cfg exp resources dlp (fdMS / 2) stTicks st inp hvis, ?_⟩
    intro e he
    rcases frameEntries_cases exp resources (fdMS / 2) stTicks st inp e he with
      h | ⟨_, rfl⟩ | ⟨hx, rfl⟩ | ⟨hf, rfl⟩
    · rw [not_isVisualOnset_of_response h.1, not_isOffset_of_response h.1]
      exact ⟨fun h => absurd h (by simp), fun h => absurd h (by simp)⟩
    · rw [not_isVisualOnset_soundOnsetEntry, not_isOffset_soundOnsetEntry]
      exact ⟨fun h => absurd h (by simp), fun h => absurd h (by simp)⟩
    · rw [not_isVisualOnset_offsetEntry]
      refine ⟨fun h => absurd h (by simp), fun _ => ?_⟩
      obtain ⟨i, hi, hval⟩ := aviFired_ok exp resources (fdMS / 2) (sub64 inp.ticks stTicks) st
        hvis ((expires_iff exp resources (fdMS / 2) _ st).mp hx).1
      exact ⟨i, hval, by rw [hi]; rfl, by rw [hi]; rfl⟩
    · rw [not_isOffset_onsetEntry]
      refine ⟨fun _ => ?_, fun h => absurd h (by simp)⟩
      exact ⟨st.cs, firesVisual_valid exp resources (fdMS / 2) _ hf, rfl, rfl⟩

/-- Witness for C7 (amended): the frame at 96 ms fires the image whose drawable
is missing. -/
theorem C7_failed_drawable_advances_without_entries_witness :
    (frameFires demoExp 8 0 {} { ticks := 96, ticksAfter := 96 } = true ∧
      ((stimulusAt demoExp (0 : Nat)).Typ = StimImage ∨
        (stimulusAt demoExp (0 : Nat)).Typ = StimText) ∧
      (resourceAt [{ Texture := none }] 0).Texture = none) ∧
    (frame {} demoExp [{ Texture := none }] true 8 0 {} { ticks := 96, ticksAfter := 96 }).cs
      = 0 + 1 :=
  ⟨⟨by decide, by decide, by decide⟩,
    ((C7_failed_drawable_advances_without_entries {} demoExp [{ Texture := none }] true 0).1 8 {}
      { ticks := 96, ticksAfter := 96 } (by decide) (by decide) (by decide)).1⟩


/-! ## The mixer: lemmas and claims -/

theorem playLoop_all_active (res : SoundResource) (m : AudioMixer)
    (h : ∀ i, (m.Slots i).Active = true) (fuel i : Nat) :
    AudioMixer.playLoop res m fuel i = (m, false) := by
  induction fuel generalizing i with
  | zero => rfl
  | succ fuel ih =>
    unfold AudioMixer.playLoop
    split_ifs with hi ha
    · simp [h ⟨i, hi⟩] at ha
    · exact ih (i + 1)
    · rfl

theorem playLoop_first_free (res : SoundResource) (m : AudioMixer) (k : Fin MaxActiveSounds)
    (hk : (m.Slots k).Active = false) (hlow : ∀ j, j < k → (m.Slots j).Active = true)
    (fuel i : Nat) (hi : i ≤ k.val) (hfuel : k.val < i + fuel) :
    AudioMixer.playLoop res m fuel i
      = ({ m with Slots := Function.update m.Slots k (ActiveSound.mk (some res) 0 true) }, true) := by
  induction fuel generalizing i with
  | zero => omega
  | succ fuel ih =>
    unfold AudioMixer.playLoop
    have hi16 : i < MaxActiveSounds := Nat.lt_of_le_of_lt hi k.isLt
    simp only [hi16, dif_pos]
    by_cases hik : i = k.val
    · have : (⟨i, hi16⟩ : Fin MaxActiveSounds) = k := Fin.ext hik
      simp [this, hk]
    · have hlt : (⟨i, hi16⟩ : Fin MaxActiveSounds) < k := by
        rw [Fin.lt_def]; simp only; omega
      simp only [hlow _ hlt, Bool.not_true, Bool.false_eq_true, if_false]
      exact ih (i + 1) (by omega) (by omega)

theorem exists_first_free (m : AudioMixer) (h : ∃ i, (m.Slots i).Active = false) :
    ∃ k, (m.Slots k).Active = false ∧ ∀ j, j < k → (m.Slots j).Active = true := by
  classical
  have hex : ∃ n : Nat, ∃ hn : n < MaxActiveSounds, (m.Slots ⟨n, hn⟩).Active = false := by
    obtain ⟨i, hi⟩ := h
    exact ⟨i.val, i.isLt, hi⟩
  obtain ⟨hn, hfree⟩ := Nat.find_spec hex
  refine ⟨⟨Nat.find hex, hn⟩, hfree, ?_⟩
  intro j hj
  have hmin := Nat.find_min hex (m := j.val) (by simpa [Fin.lt_def] using hj)
  by_contra hc
  exact hmin ⟨j.isLt, by simpa using hc⟩

/-- C8: when all 16 slots are active, `Play` returns false and the mixer, so
every slot with its `Resource`, `PlayPos` and `Active`, is exactly as before. -/
theorem C8_play_full_mixer (m : AudioMixer) (res : SoundResource)
    (h : ∀ i, (m.Slots i).Active = true) :
    (m.Play res).2 = false ∧ (m.Play res).1 = m ∧ ∀ i, (m.Play res).1.Slots i = m.Slots i := by
  have hp : m.Play res = (m, false) := playLoop_all_active res m h MaxActiveSounds 0
  rw [hp]
  exact ⟨rfl, rfl, fun _ => rfl⟩

/-- Witness for C8: a mixer whose 16 slots all play the same buffer. -/
theorem C8_play_full_mixer_witness :
    (∀ i, (fullMixer.Slots i).Active = true) ∧ (fullMixer.Play { Data := some [1, 0] }).2 = false :=
  ⟨fun _ => rfl, (C8_play_full_mixer fullMixer { Data := some [1, 0] } (fun _ => rfl)).1⟩

/-- C9: when some slot is inactive, `Play` returns true, the inactive slot of
lowest index becomes `{Resource: res, PlayPos: 0, Active: true}`, and every
other slot and the scratch buffer are unchanged. -/
theorem C9_play_claims_first_free (m : AudioMixer) (res : SoundResource)
    (h : ∃ i, (m.Slots i).Active = false) :
    ∃ k, (m.Slots k).Active = false ∧ (∀ j, j < k → (m.Slots j).Active = true) ∧
      (m.Play res).2 = true ∧
      (m.Play res).1.Slots k = { Resource := some res, PlayPos := 0, Active := true } ∧
      (∀ j, j ≠ k → (m.Play res).1.Slots j = m.Slots j) ∧
      (m.Play res).1.Scratch = m.Scratch := by
  obtain ⟨k, hk, hlow⟩ := exists_first_free m h
  have hp : m.Play res = ({ m with Slots := Function.update m.Slots k (ActiveSound.mk (some res) 0 true) }, true) :=
    playLoop_first_free res m k hk hlow MaxActiveSounds 0 (Nat.zero_le _) (by
      have := k.isLt
      omega)
  refine ⟨k, hk, hlow, ?_, ?_, ?_, ?_⟩
  · rw [hp]
  · rw [hp]; simp
  · intro j hj
    rw [hp]; simp [Function.update, hj]
  · rw [hp]

/-- Witness for C9: on the new mixer `Play` claims slot 0. -/
theorem C9_play_claims_first_free_witness :
    (∃ i, (NewAudioMixer.Slots i).Active = false) ∧
      ∃ k, (NewAudioMixer.Slots k).Active = false ∧
        (∀ j, j < k → (NewAudioMixer.Slots j).Active = true) ∧
        (NewAudioMixer.Play { Data := some [1, 0] }).2 = true ∧
        (NewAudioMixer.Play { Data := some [1, 0] }).1.Slots k
          = { Resource := some { Data := some [1, 0] }, PlayPos := 0, Active := true } ∧
        (∀ j, j ≠ k → (NewAudioMixer.Play { Data := some [1, 0] }).1.Slots j
          = NewAudioMixer.Slots j) ∧
        (NewAudioMixer.Play { Data := some [1, 0] }).1.Scratch = NewAudioMixer.Scratch :=
  ⟨⟨⟨0, by decide⟩, rfl⟩,
    C9_play_claims_first_free NewAudioMixer { Data := some [1, 0] } ⟨⟨0, by decide⟩, rfl⟩⟩


theorem UInt8_toNat_ofNat (n : Nat) : (UInt8.ofNat n).toNat = n % 256 := rfl

theorem toInt16_range (u : Nat) : -32768 ≤ toInt16 u ∧ toInt16 u ≤ 32767 := by
  unfold toInt16
  split_ifs <;> omega

theorem readI16_range (buf : List UInt8) (k : Nat) :
    -32768 ≤ readI16 buf k ∧ readI16 buf k ≤ 32767 := toInt16_range _

theorem clamp16_range (v : Int) : -32768 ≤ clamp16 v ∧ clamp16 v ≤ 32767 := by
  unfold clamp16
  split_ifs <;> omega

theorem clamp16_of_range {v : Int} (h1 : -32768 ≤ v) (h2 : v ≤ 32767) : clamp16 v = v := by
  unfold clamp16
  split_ifs <;> omega

theorem writeI16_length (buf : List UInt8) (k : Nat) (v : Int) :
    (writeI16 buf k v).length = buf.length := by
  simp [writeI16]

theorem getD_writeI16_ne (buf : List UInt8) (k i : Nat) (v : Int) (h1 : i ≠ k) (h2 : i ≠ k + 1) :
    (writeI16 buf k v).getD i 0 = buf.getD i 0 := by
  simp [writeI16, List.getD_eq_getElem?_getD, List.getElem?_set, Ne.symm h1, Ne.symm h2]

theorem readI16_writeI16_ne (buf : List UInt8) (k i : Nat) (v : Int)
    (h : i + 1 < k ∨ k + 1 < i) : readI16 (writeI16 buf k v) i = readI16 buf i := by
  unfold readI16
  rw [getD_writeI16_ne buf k i v (by omega) (by omega),
    getD_writeI16_ne buf k (i + 1) v (by omega) (by omega)]

theorem readI16_writeI16_same (buf : List UInt8) (k : Nat) (v : Int) (hk : k + 1 < buf.length)
    (h1 : -32768 ≤ v) (h2 : v ≤ 32767) : readI16 (writeI16 buf k v) k = v := by
  have hk0 : k < buf.length := by omega
  simp only [readI16, writeI16, List.getD_eq_getElem?_getD]
  rw [List.getElem?_set_ne (by omega), List.getElem?_set_self (by simpa using hk0),
    List.getElem?_set_self (by simpa using hk)]
  simp only [Option.getD_some, UInt8_toNat_ofNat]
  unfold toInt16
  split_ifs <;> omega

theorem mixSamples_succ (data : List UInt8) (pos n : Nat) (scratch : List UInt8) :
    mixSamples data pos (n + 1) scratch
      = writeI16 (mixSamples data pos n scratch) (2 * n)
          (clamp16 (readI16 (mixSamples data pos n scratch) (2 * n) + readI16 data (pos + 2 * n))) := by
  simp [mixSamples, List.range_succ, List.foldl_append]

theorem mixSamples_length (data : List UInt8) (pos n : Nat) (scratch : List UInt8) :
    (mixSamples data pos n scratch).length = scratch.length := by
  induction n with
  | zero => simp [mixSamples]
  | succ n ih => rw [mixSamples_succ, writeI16_length, ih]

theorem mixSamples_getD_ge (data : List UInt8) (pos n : Nat) (scratch : List UInt8) (k : Nat)
    (hk : 2 * n ≤ k) : (mixSamples data pos n scratch).getD k 0 = scratch.getD k 0 := by
  induction n with
  | zero => simp [mixSamples]
  | succ n ih =>
    rw [mixSamples_succ, getD_writeI16_ne _ _ _ _ (by omega) (by omega)]
    exact ih (by omega)

theorem mixSamples_read_ge (data : List UInt8) (pos n : Nat) (scratch : List UInt8) (j : Nat)
    (hj : n ≤ j) : readI16 (mixSamples data pos n scratch) (2 * j) = readI16 scratch (2 * j) := by
  unfold readI16
  rw [mixSamples_getD_ge _ _ _ _ _ (by omega), mixSamples_getD_ge _ _ _ _ _ (by omega)]

theorem mixSamples_read_lt (data : List UInt8) (pos n : Nat) (scratch : List UInt8) (j : Nat)
    (hj : j < n) (hlen : 2 * n ≤ scratch.length) :
    readI16 (mixSamples data pos n scratch) (2 * j)
      = clamp16 (readI16 scratch (2 * j) + readI16 data (pos + 2 * j)) := by
  induction n with
  | zero => omega
  | succ n ih =>
    rw [mixSamples_succ]
    by_cases hjn : j = n
    · subst hjn
      rw [readI16_writeI16_same _ _ _ (by rw [mixSamples_length]; omega) (clamp16_range _).1
        (clamp16_range _).2, mixSamples_read_ge _ _ _ _ _ (Nat.le_refl _)]
    · rw [readI16_writeI16_ne _ _ _ _ (by omega)]
      exact ih (by omega) (by omega)

theorem clearScratch_succ (chunk : Nat) (scratch : List UInt8) :
    clearScratch (chunk + 1) scratch = (clearScratch chunk scratch).set chunk 0 := by
  simp [clearScratch, List.range_succ, List.foldl_append]

theorem clearScratch_length (chunk : Nat) (scratch : List UInt8) :
    (clearScratch chunk scratch).length = scratch.length := by
  induction chunk with
  | zero => simp [clearScratch]
  | succ n ih => rw [clearScratch_succ, List.length_set, ih]

theorem clearScratch_getD_lt (chunk : Nat) (scratch : List UInt8) (k : Nat) (hk : k < chunk) :
    (clearScratch chunk scratch).getD k 0 = 0 := by
  induction chunk with
  | zero => omega
  | succ n ih =>
    rw [clearScratch_succ, List.getD_eq_getElem?_getD, List.getElem?_set]
    by_cases hkn : n = k
    · simp only [hkn, if_true]
      split_ifs <;> rfl
    · simp only [hkn, if_false]
      rw [← List.getD_eq_getElem?_getD]
      exact ih (by omega)

theorem clearScratch_read (chunk : Nat) (scratch : List UInt8) (k : Nat) (hk : k + 1 < chunk) :
    readI16 (clearScratch chunk scratch) k = 0 := by
  unfold readI16
  rw [clearScratch_getD_lt _ _ _ (by omega), clearScratch_getD_lt _ _ _ hk]
  rfl

theorem readI16_take (buf : List UInt8) (chunk k : Nat) (hk : k + 1 < chunk) :
    readI16 (buf.take chunk) k = readI16 buf k := by
  unfold readI16
  simp only [List.getD_eq_getElem?_getD]
  rw [List.getElem?_take_of_lt (by omega), List.getElem?_take_of_lt hk]

theorem slotToMix_le (chunk : Nat) (res : SoundResource) (playPos : Nat) :
    slotToMix chunk res playPos ≤ chunk := by
  unfold slotToMix
  have := Nat.mod_le chunk U32
  simp only
  split_ifs <;> omega

theorem slotToMix_eq_min (chunk : Nat) (res : SoundResource) (playPos : Nat)
    (hc : chunk < U32) (hlen : res.len < U32) (hp : playPos ≤ res.len) :
    slotToMix chunk res playPos = min chunk (res.len - playPos) := by
  have hU : U32 = 4294967296 := rfl
  unfold slotToMix sub32
  rw [Nat.mod_eq_of_lt hc, Nat.mod_eq_of_lt hlen, Nat.mod_eq_of_lt (by omega : playPos < U32),
    Nat.mod_eq_of_lt hlen]
  have h1 : (res.len + (U32 - playPos)) % U32 = res.len - playPos := by
    have : res.len + (U32 - playPos) = (res.len - playPos) + U32 := by omega
    rw [this, Nat.add_mod_right, Nat.mod_eq_of_lt (by omega)]
  simp only [h1]
  split_ifs <;> omega

theorem mixSlot_eq (chunk : Nat) (s : ActiveSound) (scratch : List UInt8) (res : SoundResource)
    (hr : s.Resource = some res) (hp : s.PlayPos < res.len) :
    mixSlot chunk s scratch
      = some ({ s with
                  PlayPos := add32 s.PlayPos (slotToMix chunk res s.PlayPos)
                  Active := if add32 s.PlayPos (slotToMix chunk res s.PlayPos) ≥ res.len % U32
                              then false else s.Active },
              mixSamples (res.Data.getD []) s.PlayPos (slotToMix chunk res s.PlayPos / 2)
                scratch) := by
  unfold mixSlot
  simp [hr, hp]

theorem fillLoop_inactive (chunk : Nat) (slots : Fin MaxActiveSounds → ActiveSound)
    (scratch : List UInt8) (fuel i : Nat)
    (h : ∀ k : Fin MaxActiveSounds, i ≤ k.val → (slots k).Active = false) :
    fillLoop chunk fuel i slots scratch = some (slots, scratch) := by
  induction fuel generalizing i with
  | zero => rfl
  | succ fuel ih =>
    unfold fillLoop
    split_ifs with hi ha
    · exact ih (i + 1) (fun k hk => h k (by omega))
    · simp [h ⟨i, hi⟩ (Nat.le_refl _)] at ha
    · rfl

theorem fillLoop_next_active (chunk : Nat) (slots : Fin MaxActiveSounds → ActiveSound)
    (scratch : List UInt8) (k : Fin MaxActiveSounds) (s1 : ActiveSound) (scratch1 : List UInt8)
    (hk : (slots k).Active = true) (hmix : mixSlot chunk (slots k) scratch = some (s1, scratch1))
    (fuel i : Nat) (hik : i ≤ k.val) (hfuel : k.val < i + fuel)
    (h : ∀ j : Fin MaxActiveSounds, i ≤ j.val → j.val < k.val → (slots j).Active = false) :
    fillLoop chunk fuel i slots scratch
      = fillLoop chunk (fuel - (k.val - i) - 1) (k.val + 1) (Function.update slots k s1)
          scratch1 := by
  induction fuel generalizing i with
  | zero => omega
  | succ fuel ih =>
    have hi16 : i < MaxActiveSounds := Nat.lt_of_le_of_lt hik k.isLt
    by_cases hik2 : i = k.val
    · have hfin : (⟨i, hi16⟩ : Fin MaxActiveSounds) = k := Fin.ext hik2
      rw [fillLoop]
      simp only [hi16, dif_pos, hfin, hk, Bool.not_true, Bool.false_eq_true, if_false, hmix]
      have : fuel + 1 - (k.val - i) - 1 = fuel := by omega
      rw [this, hik2]
    · rw [fillLoop]
      simp only [hi16, dif_pos, h ⟨i, hi16⟩ (Nat.le_refl _) (by simp only; omega), Bool.not_false,
        if_true]
      rw [ih (i + 1) (by omega) (by omega) (fun j h1 h2 => h j (by omega) h2)]
      have : fuel + 1 - (k.val - i) - 1 = fuel - (k.val - (i + 1)) - 1 := by omega
      rw [this]

theorem fillLoop_two_voices (chunk : Nat) (slots : Fin MaxActiveSounds → ActiveSound)
    (scratch : List UInt8) (i1 i2 : Fin MaxActiveSounds) (r1 r2 : SoundResource)
    (hlt : i1 < i2)
    (hA1 : (slots i1).Active = true) (hR1 : (slots i1).Resource = some r1)
    (hA2 : (slots i2).Active = true) (hR2 : (slots i2).Resource = some r2)
    (hothers : ∀ k, k ≠ i1 → k ≠ i2 → (slots k).Active = false)
    (hP1 : (slots i1).PlayPos < r1.len) (hP2 : (slots i2).PlayPos < r2.len) :
    ∃ slots2, fillLoop chunk MaxActiveSounds 0 slots scratch
      = some (slots2,
          mixSamples (r2.Data.getD []) (slots i2).PlayPos
            (slotToMix chunk r2 (slots i2).PlayPos / 2)
            (mixSamples (r1.Data.getD []) (slots i1).PlayPos
              (slotToMix chunk r1 (slots i1).PlayPos / 2) scratch)) := by
  have h16 : MaxActiveSounds = 16 := rfl
  have hi1 := i1.isLt
  have hi2 := i2.isLt
  have hlt2 : i1.val < i2.val := hlt
  have hne : i2 ≠ i1 := fun h => by rw [h] at hlt2; omega
  have hm1 := mixSlot_eq chunk (slots i1) scratch r1 hR1 hP1
  rw [fillLoop_next_active chunk slots scratch i1 _ _ hA1 hm1 MaxActiveSounds 0 (Nat.zero_le _)
    (by omega) (fun j _ hj => hothers j (fun h => by rw [h] at hj; omega)
      (fun h => by rw [h] at hj; omega))]
  have hs2 : Function.update slots i1
      { slots i1 with
          PlayPos := add32 (slots i1).PlayPos (slotToMix chunk r1 (slots i1).PlayPos)
          Active := if add32 (slots i1).PlayPos (slotToMix chunk r1 (slots i1).PlayPos)
              ≥ r1.len % U32 then false else (slots i1).Active } i2 = slots i2 :=
    Function.update_noteq hne _ _
  have hm2 := mixSlot_eq chunk (slots i2)
    (mixSamples (r1.Data.getD []) (slots i1).PlayPos
      (slotToMix chunk r1 (slots i1).PlayPos / 2) scratch) r2 hR2 hP2
  rw [fillLoop_next_active chunk _ _ i2 _ _ (by rw [hs2]; exact hA2) (by rw [hs2]; exact hm2)
    _ _ (by omega) (by omega)
    (fun j hj1 hj2 => by
      have hj : j ≠ i1 := fun h => by rw [h] at hj1; omega
      rw [Function.update_noteq hj]
      exact hothers j hj (fun h => by rw [h] at hj2; omega))]
  refine ⟨_, fillLoop_inactive chunk _ _ _ _ ?_⟩
  intro k hk
  have hk2 : k ≠ i2 := fun h => by rw [h] at hk; omega
  have hk1 : k ≠ i1 := fun h => by rw [h] at hk; omega
  rw [Function.update_noteq hk2, Function.update_noteq hk1]
  exact hothers k hk1 hk2

/-- C10: when exactly two slots are active (buffers shorter than 2^32 bytes,
a chunk of at most 4096 bytes that fits the scratch buffer), for every sample
position `j` that lies inside the chunk and inside the remaining data of both
voices, one fill pass of `Callback` returns normally and the `int16` at
position `j` of the bytes handed to the stream is `a + b` clamped to
[-32768, 32767], where `a` and `b` are the samples of the two voices at that
position; in particular two samples of 32767 give 32767. -/
theorem C10_two_voices_saturate (m : AudioMixer) (chunk : Nat)
    (i1 i2 : Fin MaxActiveSounds) (r1 r2 : SoundResource) (j : Nat)
    (hlt : i1 < i2)
    (hA1 : (m.Slots i1).Active = true) (hR1 : (m.Slots i1).Resource = some r1)
    (hA2 : (m.Slots i2).Active = true) (hR2 : (m.Slots i2).Resource = some r2)
    (hothers : ∀ k, k ≠ i1 → k ≠ i2 → (m.Slots k).Active = false)
    (hchunk : chunk ≤ AudioScratchBytes) (hscratch : chunk ≤ m.Scratch.length)
    (hj : 2 * j + 2 ≤ chunk)
    (hlen1 : r1.len < U32) (hcov1 : (m.Slots i1).PlayPos + 2 * j + 2 ≤ r1.len)
    (hlen2 : r2.len < U32) (hcov2 : (m.Slots i2).PlayPos + 2 * j + 2 ≤ r2.len) :
    ∃ m1 out, m.fillPass chunk = some (m1, out) ∧
      readI16 out (2 * j)
        = clamp16 (readI16 (r1.Data.getD []) ((m.Slots i1).PlayPos + 2 * j) +
            readI16 (r2.Data.getD []) ((m.Slots i2).PlayPos + 2 * j)) ∧
      (readI16 (r1.Data.getD []) ((m.Slots i1).PlayPos + 2 * j) = 32767 →
        readI16 (r2.Data.getD []) ((m.Slots i2).PlayPos + 2 * j) = 32767 →
        readI16 out (2 * j) = 32767) := by
  have hU : U32 = 4294967296 := rfl
  have hS : AudioScratchBytes = 4096 := rfl
  obtain ⟨slots2, hfill⟩ := fillLoop_two_voices chunk m.Slots (clearScratch chunk m.Scratch)
    i1 i2 r1 r2 hlt hA1 hR1 hA2 hR2 hothers (by omega) (by omega)
  have hpass : m.fillPass chunk = some (AudioMixer.mk slots2
      (mixSamples (r2.Data.getD []) (m.Slots i2).PlayPos
        (slotToMix chunk r2 (m.Slots i2).PlayPos / 2)
        (mixSamples (r1.Data.getD []) (m.Slots i1).PlayPos
          (slotToMix chunk r1 (m.Slots i1).PlayPos / 2) (clearScratch chunk m.Scratch))),
      (mixSamples (r2.Data.getD []) (m.Slots i2).PlayPos
        (slotToMix chunk r2 (m.Slots i2).PlayPos / 2)
        (mixSamples (r1.Data.getD []) (m.Slots i1).PlayPos
          (slotToMix chunk r1 (m.Slots i1).PlayPos / 2)
          (clearScratch chunk m.Scratch))).take chunk) := by
    unfold AudioMixer.fillPass
    rw [if_pos ⟨hscratch, by omega⟩, hfill]
  have hn1 : j < slotToMix chunk r1 (m.Slots i1).PlayPos / 2 := by
    rw [slotToMix_eq_min chunk r1 _ (by omega) hlen1 (by omega)]
    omega
  have hn2 : j < slotToMix chunk r2 (m.Slots i2).PlayPos / 2 := by
    rw [slotToMix_eq_min chunk r2 _ (by omega) hlen2 (by omega)]
    omega
  have hle1 := slotToMix_le chunk r1 (m.Slots i1).PlayPos
  have hle2 := slotToMix_le chunk r2 (m.Slots i2).PlayPos
  have hval : readI16 ((mixSamples (r2.Data.getD []) (m.Slots i2).PlayPos
        (slotToMix chunk r2 (m.Slots i2).PlayPos / 2)
        (mixSamples (r1.Data.getD []) (m.Slots i1).PlayPos
          (slotToMix chunk r1 (m.Slots i1).PlayPos / 2)
          (clearScratch chunk m.Scratch))).take chunk) (2 * j)
      = clamp16 (readI16 (r1.Data.getD []) ((m.Slots i1).PlayPos + 2 * j) +
          readI16 (r2.Data.getD []) ((m.Slots i2).PlayPos + 2 * j)) := by
    rw [readI16_take _ _ _ (by omega),
      mixSamples_read_lt _ _ _ _ _ hn2 (by rw [mixSamples_length, clearScratch_length]; omega),
      mixSamples_read_lt _ _ _ _ _ hn1 (by rw [clearScratch_length]; omega),
      clearScratch_read _ _ _ (by omega), Int.zero_add,
      clamp16_of_range (readI16_range _ _).1 (readI16_range _ _).2]
  refine ⟨_, _, hpass, hval, ?_⟩
  intro ha hb
  rw [hval, ha, hb]
  rfl

set_option maxRecDepth 100000 in
/-- Witness for C10: slots 3 and 7 play a buffer of samples 32767; the second
sample of a 4-byte chunk is 32767. -/
theorem C10_two_voices_saturate_witness :
    ∃ m1 out, twoVoiceMixer.fillPass 4 = some (m1, out) ∧ readI16 out (2 * 1) = 32767 := by
  obtain ⟨m1, out, h1, _, h3⟩ := C10_two_voices_saturate twoVoiceMixer 4 ⟨3, by decide⟩
    ⟨7, by decide⟩ loudSound loudSound 1 (by decide) rfl rfl rfl rfl (by decide) (by decide)
    (by rw [show twoVoiceMixer.Scratch = List.replicate AudioScratchBytes 0 from rfl,
      List.length_replicate]; decide) (by decide) (by decide) (by decide) (by decide)
    (by decide)
  exact ⟨m1, out, h1, h3 (by decide) (by decide)⟩

/-! ## The fill pass in general -/

theorem finRange_drop_cons (i : Nat) (h : i < MaxActiveSounds) :
    (List.finRange MaxActiveSounds).drop i
      = ⟨i, h⟩ :: (List.finRange MaxActiveSounds).drop (i + 1) := by
  rw [List.drop_eq_getElem_cons (by simpa using h)]
  simp

theorem fillLoop_eq_fillOver (chunk : Nat) (fuel i : Nat)
    (slots : Fin MaxActiveSounds → ActiveSound) (scratch : List UInt8)
    (hfi : i + fuel = MaxActiveSounds) :
    fillLoop chunk fuel i slots scratch
      = fillOver chunk ((List.finRange MaxActiveSounds).drop i) slots scratch := by
  induction fuel generalizing i slots scratch with
  | zero =>
    have : (List.finRange MaxActiveSounds).drop i = [] := by
      apply List.drop_eq_nil_of_le
      simp; omega
    rw [this]
    rfl
  | succ fuel ih =>
    have hi : i < MaxActiveSounds := by omega
    rw [finRange_drop_cons i hi, fillLoop, fillOver]
    simp only [hi, dif_pos]
    split_ifs with ha
    · exact ih (i + 1) slots scratch (by omega)
    · cases hm : mixSlot chunk (slots ⟨i, hi⟩) scratch with
      | none => rfl
      | some p =>
        obtain ⟨s1, scratch1⟩ := p
        exact ih (i + 1) _ _ (by omega)

theorem mixSlot_strict (chunk : Nat) (s : ActiveSound) (scratch : List UInt8)
    (hc : chunk < U32) (ha : s.Active = true) (hp : s.PlayPos < s.dataLen)
    (hlen : s.dataLen < U32) :
    mixSlot chunk s scratch
      = some (advanced chunk s,
          mixSamples s.data s.PlayPos (min chunk (s.dataLen - s.PlayPos) / 2) scratch) := by
  have hU : U32 = 4294967296 := rfl
  cases hr : s.Resource with
  | none => simp [ActiveSound.dataLen, hr] at hp
  | some r =>
    have hd : s.dataLen = r.len := by simp [ActiveSound.dataLen, hr]
    have hdata : s.data = r.Data.getD [] := by simp [ActiveSound.data, hr]
    rw [hd] at hp hlen
    rw [mixSlot_eq chunk s scratch r hr hp, slotToMix_eq_min chunk r _ hc hlen (by omega), hd,
      hdata]
    have hadd : add32 s.PlayPos (min chunk (r.len - s.PlayPos)) = min (s.PlayPos + chunk) r.len := by
      unfold add32
      rw [Nat.mod_eq_of_lt (by omega)]
      omega
    simp only [hadd, Nat.mod_eq_of_lt hlen, advanced, hd, ha]
    congr 2
    by_cases hlt : min (s.PlayPos + chunk) r.len < r.len
    · simp [hlt, Nat.not_le.mpr hlt]
    · simp [hlt, Nat.le_of_not_lt hlt]

theorem voiceSample_update_ne (slots : Fin MaxActiveSounds → ActiveSound)
    (a k : Fin MaxActiveSounds) (s1 : ActiveSound) (j : Nat) (h : k ≠ a) :
    voiceSample (Function.update slots a s1 k) j = voiceSample (slots k) j := by
  rw [Function.update_noteq h]

theorem foldl_clamp_congr (f g : Fin MaxActiveSounds → Option Int) (l : List (Fin MaxActiveSounds))
    (h : ∀ k ∈ l, f k = g k) : l.filterMap f = l.filterMap g := by
  induction l with
  | nil => rfl
  | cons a l ih =>
    rw [List.filterMap_cons, List.filterMap_cons, h a (List.mem_cons_self _ _),
      ih (fun k hk => h k (List.mem_cons_of_mem _ hk))]

theorem fillOver_spec (chunk : Nat) (hc : chunk < U32) (l : List (Fin MaxActiveSounds))
    (hnd : l.Nodup) (slots : Fin MaxActiveSounds → ActiveSound) (scratch : List UInt8)
    (hlen : chunk ≤ scratch.length)
    (hstrict : ∀ k ∈ l, (slots k).Active = true →
      (slots k).PlayPos < (slots k).dataLen ∧ (slots k).dataLen < U32) :
    ∃ scratch1, fillOver chunk l slots scratch
        = some (fun k => if k ∈ l ∧ (slots k).Active = true then advanced chunk (slots k)
                         else slots k, scratch1) ∧
      scratch1.length = scratch.length ∧
      ∀ j, 2 * j + 2 ≤ chunk →
        readI16 scratch1 (2 * j)
          = (l.filterMap fun k => voiceSample (slots k) j).foldl
              (fun acc v => clamp16 (acc + v)) (readI16 scratch (2 * j)) := by
  induction l generalizing slots scratch with
  | nil =>
    exact ⟨scratch, by simp [fillOver], rfl, fun j _ => by simp⟩
  | cons a l ih =>
    have hnd2 := List.nodup_cons.mp hnd
    by_cases ha : (slots a).Active = true
    · obtain ⟨hp, hl32⟩ := hstrict a (List.mem_cons_self _ _) ha
      have hmix := mixSlot_strict chunk (slots a) scratch hc ha hp hl32
      obtain ⟨scratch1, hfill, hlen1, hread⟩ := ih hnd2.2
        (Function.update slots a (advanced chunk (slots a)))
        (mixSamples (slots a).data (slots a).PlayPos
          (min chunk ((slots a).dataLen - (slots a).PlayPos) / 2) scratch)
        (by rw [mixSamples_length]; exact hlen)
        (fun k hk => by
          have hka : k ≠ a := fun h => hnd2.1 (h ▸ hk)
          rw [Function.update_noteq hka]
          exact hstrict k (List.mem_cons_of_mem _ hk))
      refine ⟨scratch1, ?_, ?_, ?_⟩
      · rw [fillOver]
        simp only [ha, Bool.not_true, Bool.false_eq_true, if_false, hmix, hfill]
        congr 2
        funext k
        by_cases hka : k = a
        · subst hka
          simp [hnd2.1, ha]
        · simp [Function.update_noteq hka, hka]
      · rw [hlen1, mixSamples_length]
      · intro j hj
        rw [hread j hj, List.filterMap_cons]
        have hcongr : (l.filterMap fun k =>
            voiceSample (Function.update slots a (advanced chunk (slots a)) k) j)
            = l.filterMap fun k => voiceSample (slots k) j :=
          foldl_clamp_congr _ _ l (fun k hk =>
            voiceSample_update_ne slots a k _ j (fun h => hnd2.1 (h ▸ hk)))
        rw [hcongr]
        by_cases hcov : (slots a).PlayPos + 2 * j + 2 ≤ (slots a).dataLen
        · have hv : voiceSample (slots a) j
              = some (readI16 (slots a).data ((slots a).PlayPos + 2 * j)) := by
            simp [voiceSample, ha, hcov]
          rw [hv, mixSamples_read_lt _ _ _ _ _ (by omega) (by omega)]
          rfl
        · have hv : voiceSample (slots a) j = none := by
            simp [voiceSample, hcov]
          rw [hv, mixSamples_read_ge _ _ _ _ _ (by omega)]
    · obtain ⟨scratch1, hfill, hlen1, hread⟩ := ih hnd2.2 slots scratch hlen
        (fun k hk => hstrict k (List.mem_cons_of_mem _ hk))
      refine ⟨scratch1, ?_, hlen1, ?_⟩
      · rw [fillOver]
        simp only [ha, Bool.not_false, if_true, hfill]
        congr 2
        funext k
        by_cases hka : k = a
        · subst hka
          simp [ha]
        · simp [hka]
      · intro j hj
        rw [hread j hj, List.filterMap_cons]
        have hv : voiceSample (slots a) j = none := by
          simp [voiceSample, ha]
        rw [hv]

theorem clearScratch_take (chunk : Nat) (scratch : List UInt8) (h : chunk ≤ scratch.length) :
    (clearScratch chunk scratch).take chunk = List.replicate chunk 0 := by
  rw [List.eq_replicate_iff]
  refine ⟨by rw [List.length_take, clearScratch_length]; omega, ?_⟩
  intro b hb
  obtain ⟨k, hk, rfl⟩ := List.mem_iff_getElem.mp hb
  have hk2 : k < chunk := by
    rw [List.length_take] at hk; omega
  have := clearScratch_getD_lt chunk scratch k hk2
  rw [List.getElem_take]
  rw [List.getD_eq_getElem _ _ (by rw [clearScratch_length]; omega)] at this
  exact this

theorem fillPass_spec (m : AudioMixer) (chunk : Nat) (hchunk : chunk ≤ AudioScratchBytes)
    (hscr : chunk ≤ m.Scratch.length) (h0 : 0 < m.Scratch.length)
    (hstrict : StrictSlots m.Slots) (hfits : Fits32 m.Slots) :
    ∃ m1 out, m.fillPass chunk = some (m1, out) ∧
      m1.Slots = (fun k => if (m.Slots k).Active = true then advanced chunk (m.Slots k)
                           else m.Slots k) ∧
      m1.Scratch.length = m.Scratch.length ∧ out.length = chunk ∧
      ∀ j, 2 * j + 2 ≤ chunk → readI16 out (2 * j) = saturatingSum (coveringSamples m.Slots j) := by
  have hU : U32 = 4294967296 := rfl
  have hS : AudioScratchBytes = 4096 := rfl
  obtain ⟨scratch1, hfill, hlen1, hread⟩ := fillOver_spec chunk (by omega)
    (List.finRange MaxActiveSounds) (List.nodup_finRange _) m.Slots (clearScratch chunk m.Scratch)
    (by rw [clearScratch_length]; exact hscr)
    (fun k _ ha => ⟨hstrict k ha, hfits k ha⟩)
  have hloop := fillLoop_eq_fillOver chunk MaxActiveSounds 0 m.Slots
    (clearScratch chunk m.Scratch) (Nat.zero_add _)
  rw [List.drop_zero, hfill] at hloop
  refine ⟨AudioMixer.mk (fun k => if k ∈ List.finRange MaxActiveSounds ∧ (m.Slots k).Active = true
      then advanced chunk (m.Slots k) else m.Slots k) scratch1, scratch1.take chunk,
    ?_, ?_, ?_, ?_, ?_⟩
  · unfold AudioMixer.fillPass
    rw [if_pos ⟨hscr, h0⟩, hloop]
  · funext k
    simp [List.mem_finRange]
  · rw [hlen1, clearScratch_length]
  · rw [List.length_take, hlen1, clearScratch_length]; omega
  · intro j hj
    rw [readI16_take _ _ _ (by omega), hread j hj, clearScratch_read _ _ _ (by omega)]
    rfl

theorem voiceSample_range (s : ActiveSound) (j : Nat) (v : Int) (h : voiceSample s j = some v) :
    -32768 ≤ v ∧ v ≤ 32767 := by
  unfold voiceSample at h
  split_ifs at h
  · cases h
    exact readI16_range _ _

theorem coveringSamples_range (slots : Fin MaxActiveSounds → ActiveSound) (j : Nat) :
    ∀ v ∈ coveringSamples slots j, -32768 ≤ v ∧ v ≤ 32767 := by
  intro v hv
  unfold coveringSamples at hv
  obtain ⟨i, _, hi⟩ := List.mem_filterMap.mp hv
  exact voiceSample_range _ _ _ hi

theorem foldl_clamp_nonneg (vs : List Int) (acc : Int) (h0 : 0 ≤ acc) (h1 : acc ≤ 32767)
    (hv : ∀ v ∈ vs, 0 ≤ v) :
    vs.foldl (fun a v => clamp16 (a + v)) acc = clamp16 (acc + vs.sum) := by
  induction vs generalizing acc with
  | nil => simp [clamp16_of_range (by omega : (-32768 : Int) ≤ acc) h1]
  | cons v vs ih =>
    have hv0 := hv v (List.mem_cons_self _ _)
    have hs : 0 ≤ vs.sum := List.sum_nonneg (fun x hx => hv x (List.mem_cons_of_mem _ hx))
    rw [List.foldl_cons, List.sum_cons,
      ih (clamp16 (acc + v)) (by unfold clamp16; split_ifs <;> omega) (clamp16_range _).2
        (fun x hx => hv x (List.mem_cons_of_mem _ hx))]
    unfold clamp16
    split_ifs <;> omega

theorem list_sum_nonpos (vs : List Int) (h : ∀ v ∈ vs, v ≤ 0) : vs.sum ≤ 0 := by
  induction vs with
  | nil => simp
  | cons v vs ih =>
    have h1 := h v (List.mem_cons_self _ _)
    have h2 := ih (fun x hx => h x (List.mem_cons_of_mem _ hx))
    rw [List.sum_cons]
    omega

theorem foldl_clamp_nonpos (vs : List Int) (acc : Int) (h0 : acc ≤ 0) (h1 : -32768 ≤ acc)
    (hv : ∀ v ∈ vs, v ≤ 0) :
    vs.foldl (fun a v => clamp16 (a + v)) acc = clamp16 (acc + vs.sum) := by
  induction vs generalizing acc with
  | nil => simp [clamp16_of_range h1 (by omega : acc ≤ 32767)]
  | cons v vs ih =>
    have hv0 := hv v (List.mem_cons_self _ _)
    have hs : vs.sum ≤ 0 := list_sum_nonpos vs (fun x hx => hv x (List.mem_cons_of_mem _ hx))
    rw [List.foldl_cons, List.sum_cons,
      ih (clamp16 (acc + v)) (by unfold clamp16; split_ifs <;> omega) (clamp16_range _).1
        (fun x hx => hv x (List.mem_cons_of_mem _ hx))]
    unfold clamp16
    split_ifs <;> omega

theorem saturatingSum_le_two (vs : List Int) (hlen : vs.length ≤ 2)
    (hr : ∀ v ∈ vs, -32768 ≤ v ∧ v ≤ 32767) : saturatingSum vs = clamp16 vs.sum := by
  match vs, hlen, hr with
  | [], _, _ => rfl
  | [a], _, _ => simp [saturatingSum]
  | [a, b], _, hr =>
    have ha := hr a (by simp)
    simp only [saturatingSum, List.foldl_cons, List.foldl_nil, Int.zero_add, List.sum_cons,
      List.sum_nil, Int.add_zero]
    rw [clamp16_of_range ha.1 ha.2]
  | _ :: _ :: _ :: _, hlen, _ => simp at hlen
/-- Counterexample to C11 as stated: with voices 32767, 32767 and -32768 at the
same position the pass stores 32767 after the second voice and -1 after the
third, while the exact sum 32766 needs no clamping. -/
theorem C11_counterexample :
    coveringSamples threeVoiceMixer.Slots 0 = [32767, 32767, -32768] ∧
    clamp16 (32767 + 32767 + -32768) = 32766 ∧
    ∃ m1 out, threeVoiceMixer.fillPass 2 = some (m1, out) ∧ readI16 out (2 * 0) = -1 := by
  refine ⟨by decide, by decide, ?_⟩
  obtain ⟨m1, out, h1, _, _, _, h5⟩ := fillPass_spec threeVoiceMixer 2 (by decide)
    (by rw [show threeVoiceMixer.Scratch = List.replicate AudioScratchBytes 0 from rfl,
      List.length_replicate]; decide)
    (by rw [show threeVoiceMixer.Scratch = List.replicate AudioScratchBytes 0 from rfl,
      List.length_replicate]; decide)
    (by decide) (by decide)
  refine ⟨m1, out, h1, ?_⟩
  rw [h5 0 (by decide)]
  decide

/-- C11 (amended): when every active slot has its cursor inside a buffer shorter
than 2^32 bytes, one fill pass over a chunk of 1 to 4096 bytes returns
normally with `chunk` bytes, and the output sample at every position `j` of
the chunk is the saturating accumulation, in slot order, of the samples of
the active voices that cover the position: each voice is added to the running
16-bit value and the result is clamped before the next voice is added.  It
lies in [-32768, 32767], and it equals the clamped exact sum whenever at most
two voices cover the position or the covering samples all have the same
sign. -/
theorem C11_mix_is_saturating_accumulation (m : AudioMixer) (chunk : Nat)
    (h0 : 0 < chunk) (hchunk : chunk ≤ AudioScratchBytes) (hscr : chunk ≤ m.Scratch.length)
    (hstrict : StrictSlots m.Slots) (hfits : Fits32 m.Slots) :
    ∃ m1 out, m.fillPass chunk = some (m1, out) ∧ out.length = chunk ∧
      ∀ j, 2 * j + 2 ≤ chunk →
        readI16 out (2 * j) = saturatingSum (coveringSamples m.Slots j) ∧
        (-32768 ≤ readI16 out (2 * j) ∧ readI16 out (2 * j) ≤ 32767) ∧
        ((coveringSamples m.Slots j).length ≤ 2 →
          readI16 out (2 * j) = clamp16 (coveringSamples m.Slots j).sum) ∧
        ((∀ v ∈ coveringSamples m.Slots j, 0 ≤ v) →
          readI16 out (2 * j) = clamp16 (coveringSamples m.Slots j).sum) ∧
        ((∀ v ∈ coveringSamples m.Slots j, v ≤ 0) →
          readI16 out (2 * j) = clamp16 (coveringSamples m.Slots j).sum) := by
  obtain ⟨m1, out, h1, _, _, h4, h5⟩ := fillPass_spec m chunk hchunk hscr (by omega) hstrict hfits
  refine ⟨m1, out, h1, h4, ?_⟩
  intro j hj
  have hval := h5 j hj
  refine ⟨hval, readI16_range _ _, ?_, ?_, ?_⟩
  · intro hlen
    rw [hval, saturatingSum_le_two _ hlen (coveringSamples_range _ _)]
  · intro hpos
    rw [hval]
    have := foldl_clamp_nonneg (coveringSamples m.Slots j) 0 (Int.le_refl _) (by decide) hpos
    rw [Int.zero_add] at this
    exact this
  · intro hneg
    rw [hval]
    have := foldl_clamp_nonpos (coveringSamples m.Slots j) 0 (Int.le_refl _) (by decide) hneg
    rw [Int.zero_add] at this
    exact this

/-- Witness for C11 (amended): the mixer with voices 32767, 32767 and -32768
mixes them to -1 in a chunk of two bytes. -/
theorem C11_mix_is_saturating_accumulation_witness :
    ((0 : Nat) < 2 ∧ 2 ≤ AudioScratchBytes ∧ 2 ≤ threeVoiceMixer.Scratch.length ∧
      StrictSlots threeVoiceMixer.Slots ∧ Fits32 threeVoiceMixer.Slots) ∧
    ∃ m1 out, threeVoiceMixer.fillPass 2 = some (m1, out) ∧ out.length = 2 ∧
      readI16 out (2 * 0) = saturatingSum [32767, 32767, -32768] := by
  have hs : 2 ≤ threeVoiceMixer.Scratch.length := by
    rw [show threeVoiceMixer.Scratch = List.replicate AudioScratchBytes 0 from rfl,
      List.length_replicate]
    decide
  refine ⟨⟨by decide, by decide, hs, by decide, by decide⟩, ?_⟩
  obtain ⟨m1, out, h1, h2, h3⟩ := C11_mix_is_saturating_accumulation threeVoiceMixer 2
    (by decide) (by decide) hs (by decide) (by decide)
  exact ⟨m1, out, h1, h2, (h3 0 (by decide)).1⟩

/-! ## The callback loop -/

theorem fillPass_idle (m : AudioMixer) (chunk : Nat) (hidle : ∀ i, (m.Slots i).Active = false)
    (hscr : chunk ≤ m.Scratch.length) (h0 : 0 < m.Scratch.length) :
    m.fillPass chunk
      = some (AudioMixer.mk m.Slots (clearScratch chunk m.Scratch), List.replicate chunk 0) := by
  unfold AudioMixer.fillPass
  rw [if_pos ⟨hscr, h0⟩, fillLoop_inactive chunk m.Slots _ _ _ (fun k _ => hidle k)]
  simp only [clearScratch_take chunk m.Scratch hscr]

theorem callbackLoop_fuel_succ (fuel : Nat) (m : AudioMixer) (remaining : Int)
    (out : List (List UInt8)) (h : remaining.toNat ≤ fuel) :
    AudioMixer.callbackLoop (fuel + 1) m remaining out
      = AudioMixer.callbackLoop fuel m remaining out := by
  induction fuel generalizing m remaining out with
  | zero =>
    have : ¬ remaining > 0 := by omega
    simp [AudioMixer.callbackLoop, this]
  | succ fuel ih =>
    rw [AudioMixer.callbackLoop, AudioMixer.callbackLoop]
    by_cases hr : remaining > 0
    · simp only [hr, if_true]
      cases hp : m.fillPass
          (if remaining > (AudioScratchBytes : Int) then (AudioScratchBytes : Int)
            else remaining).toNat with
      | none => rfl
      | some p =>
        obtain ⟨m1, bytes⟩ := p
        simp only
        apply ih
        have hS : (AudioScratchBytes : Int) = 4096 := rfl
        split_ifs <;> omega
    · simp [hr]

theorem callbackLoop_fuel_ge (fuel fuel1 : Nat) (m : AudioMixer) (remaining : Int)
    (out : List (List UInt8)) (h : remaining.toNat ≤ fuel) (hle : fuel ≤ fuel1) :
    AudioMixer.callbackLoop fuel1 m remaining out
      = AudioMixer.callbackLoop fuel m remaining out := by
  induction fuel1 with
  | zero =>
    have : fuel = 0 := by omega
    rw [this]
  | succ k ih =>
    by_cases hk : fuel = k + 1
    · rw [hk]
    · rw [callbackLoop_fuel_succ k m remaining out (by omega)]
      exact ih (by omega)

theorem callbackLoop_idle (fuel : Nat) (m : AudioMixer) (remaining : Int)
    (out : List (List UInt8)) (hidle : ∀ i, (m.Slots i).Active = false)
    (hscr : AudioScratchBytes ≤ m.Scratch.length) (hfuel : remaining.toNat ≤ fuel) :
    ∃ m1 chunks, AudioMixer.callbackLoop fuel m remaining out = some (m1, out ++ chunks) ∧
      m1.Slots = m.Slots ∧ (chunks.map List.length).sum = remaining.toNat ∧
      ∀ c ∈ chunks, c.length ≤ AudioScratchBytes ∧ ∀ b ∈ c, b = 0 := by
  have hS : AudioScratchBytes = 4096 := rfl
  have hSi : (AudioScratchBytes : Int) = 4096 := rfl
  induction fuel generalizing m remaining out with
  | zero =>
    refine ⟨m, [], by simp [AudioMixer.callbackLoop], rfl, ?_, by simp⟩
    simp; omega
  | succ fuel ih =>
    rw [AudioMixer.callbackLoop]
    by_cases hr : remaining > 0
    · simp only [hr, if_true]
      have hchunk : (if remaining > (AudioScratchBytes : Int) then (AudioScratchBytes : Int)
          else remaining).toNat ≤ AudioScratchBytes := by
        split_ifs <;> omega
      rw [fillPass_idle m _ hidle (by omega) (by omega)]
      simp only
      obtain ⟨m1, chunks, hrun, hslots, hsum, hall⟩ := ih
        (AudioMixer.mk m.Slots (clearScratch
          (if remaining > (AudioScratchBytes : Int) then (AudioScratchBytes : Int)
            else remaining).toNat m.Scratch))
        (remaining - (if remaining > (AudioScratchBytes : Int) then (AudioScratchBytes : Int)
          else remaining))
        (out ++ [List.replicate (if remaining > (AudioScratchBytes : Int)
          then (AudioScratchBytes : Int) else remaining).toNat 0])
        hidle (by simp only [clearScratch_length]; exact hscr) (by split_ifs <;> omega)
      refine ⟨m1, List.replicate (if remaining > (AudioScratchBytes : Int)
          then (AudioScratchBytes : Int) else remaining).toNat 0 :: chunks, ?_, hslots, ?_, ?_⟩
      · rw [hrun, List.append_assoc]
        rfl
      · rw [List.map_cons, List.sum_cons, hsum, List.length_replicate]
        split_ifs <;> omega
      · intro c hc
        rcases List.mem_cons.mp hc with rfl | hc
        · refine ⟨by rw [List.length_replicate]; exact hchunk, ?_⟩
          intro b hb
          exact (List.mem_replicate.mp hb).2
        · exact hall c hc
    · refine ⟨m, [], by simp [hr], rfl, ?_, by simp⟩
      simp; omega

/-- C12: on a mixer without active slot whose scratch buffer holds at least
4096 bytes, `Callback` for a request of `n > 0` bytes returns normally, within
the `n` iterations it is given and with the same result for any larger
budget; the chunks handed to the stream hold `n` bytes in total, each chunk
at most 4096 bytes and every byte zero; the slot table is unchanged. -/
theorem C12_idle_callback_writes_zeros (m : AudioMixer) (n : Int) (hn : 0 < n)
    (hidle : ∀ i, (m.Slots i).Active = false) (hscr : AudioScratchBytes ≤ m.Scratch.length) :
    ∃ m1 chunks, m.Callback n = some (m1, chunks) ∧
      ((chunks.map List.length).sum : Int) = n ∧
      (∀ c ∈ chunks, c.length ≤ AudioScratchBytes ∧ ∀ b ∈ c, b = 0) ∧
      m1.Slots = m.Slots ∧
      ∀ fuel, n.toNat ≤ fuel → AudioMixer.callbackLoop fuel m n [] = m.Callback n := by
  obtain ⟨m1, chunks, hrun, hslots, hsum, hall⟩ :=
    callbackLoop_idle n.toNat m n [] hidle hscr (Nat.le_refl _)
  refine ⟨m1, chunks, ?_, ?_, hall, hslots, ?_⟩
  · unfold AudioMixer.Callback
    rw [hrun, List.nil_append]
  · rw [hsum]
    omega
  · intro fuel hfuel
    exact callbackLoop_fuel_ge n.toNat fuel m n [] (Nat.le_refl _) hfuel

/-- Witness for C12: a request of 5000 bytes on the new mixer. -/
theorem C12_idle_callback_writes_zeros_witness :
    ((0 : Int) < 5000 ∧ (∀ i, (NewAudioMixer.Slots i).Active = false) ∧
      AudioScratchBytes ≤ NewAudioMixer.Scratch.length) ∧
    ∃ m1 chunks, NewAudioMixer.Callback 5000 = some (m1, chunks) ∧
      ((chunks.map List.length).sum : Int) = 5000 ∧
      (∀ c ∈ chunks, c.length ≤ AudioScratchBytes ∧ ∀ b ∈ c, b = 0) ∧
      m1.Slots = NewAudioMixer.Slots := by
  have hs : AudioScratchBytes ≤ NewAudioMixer.Scratch.length := by
    rw [show NewAudioMixer.Scratch = List.replicate AudioScratchBytes 0 from rfl,
      List.length_replicate]
  refine ⟨⟨by decide, fun _ => rfl, hs⟩, ?_⟩
  obtain ⟨m1, chunks, h1, h2, h3, h4, _⟩ :=
    C12_idle_callback_writes_zeros NewAudioMixer 5000 (by decide) (fun _ => rfl) hs
  exact ⟨m1, chunks, h1, h2, h3, h4⟩

/-! ## The cursor conditions -/

theorem mixSlot_none_of_not_lt (chunk : Nat) (s : ActiveSound) (scratch : List UInt8)
    (h : ¬ s.PlayPos < s.dataLen) : mixSlot chunk s scratch = none := by
  unfold mixSlot
  cases hr : s.Resource with
  | none => rfl
  | some r =>
    have hd : s.dataLen = r.len := by simp [ActiveSound.dataLen, hr]
    rw [hd] at h
    simp [h]

theorem fillOver_panic (chunk : Nat) (l : List (Fin MaxActiveSounds))
    (slots : Fin MaxActiveSounds → ActiveSound) (scratch : List UInt8)
    (k : Fin MaxActiveSounds) (hk : k ∈ l) (ha : (slots k).Active = true)
    (hp : ¬ (slots k).PlayPos < (slots k).dataLen) :
    fillOver chunk l slots scratch = none := by
  induction l generalizing slots scratch with
  | nil => simp at hk
  | cons a l ih =>
    rw [fillOver]
    by_cases hak : a = k
    · subst hak
      simp [ha, mixSlot_none_of_not_lt chunk (slots a) scratch hp]
    · have hkl : k ∈ l := by
        rcases List.mem_cons.mp hk with h | h
        · exact absurd h.symm hak
        · exact h
      split_ifs
      · exact ih slots scratch hkl ha hp
      · cases hm : mixSlot chunk (slots a) scratch with
        | none => rfl
        | some p =>
          obtain ⟨s1, scratch1⟩ := p
          have hne : k ≠ a := fun h => hak h.symm
          exact ih _ _ hkl (by rw [Function.update_noteq hne]; exact ha)
            (by rw [Function.update_noteq hne]; exact hp)

theorem fillPass_panic (m : AudioMixer) (chunk : Nat) (k : Fin MaxActiveSounds)
    (ha : (m.Slots k).Active = true) (hp : ¬ (m.Slots k).PlayPos < (m.Slots k).dataLen) :
    m.fillPass chunk = none := by
  unfold AudioMixer.fillPass
  split_ifs
  · have hloop := fillLoop_eq_fillOver chunk MaxActiveSounds 0 m.Slots
      (clearScratch chunk m.Scratch) (Nat.zero_add _)
    rw [List.drop_zero, fillOver_panic chunk _ _ _ k (List.mem_finRange k) ha hp] at hloop
    rw [hloop]
  · rfl

theorem callback_panic (m : AudioMixer) (n : Int) (hn : 0 < n) (k : Fin MaxActiveSounds)
    (ha : (m.Slots k).Active = true) (hp : ¬ (m.Slots k).PlayPos < (m.Slots k).dataLen) :
    m.Callback n = none := by
  unfold AudioMixer.Callback
  obtain ⟨f, hf⟩ : ∃ f, n.toNat = f + 1 := ⟨n.toNat - 1, by omega⟩
  rw [hf, AudioMixer.callbackLoop]
  simp [hn, fillPass_panic m _ k ha hp]

theorem advanced_dataLen (c : Nat) (s : ActiveSound) : (advanced c s).dataLen = s.dataLen := rfl

theorem advanced_strict (c : Nat) (s : ActiveSound) (h : (advanced c s).Active = true) :
    (advanced c s).PlayPos < (advanced c s).dataLen := by
  rw [advanced_dataLen]
  simpa [advanced] using h

theorem strict_after_pass (chunk : Nat) (slots : Fin MaxActiveSounds → ActiveSound)
    (hstrict : StrictSlots slots) :
    StrictSlots (fun k => if (slots k).Active = true then advanced chunk (slots k) else slots k) := by
  intro i hi
  by_cases ha : (slots i).Active = true
  · simp only [ha, if_true] at hi ⊢
    exact advanced_strict chunk _ hi
  · simp only [ha] at hi ⊢
    exact hstrict i hi

theorem fits32_after_pass (chunk : Nat) (slots : Fin MaxActiveSounds → ActiveSound)
    (hfits : Fits32 slots) :
    Fits32 (fun k => if (slots k).Active = true then advanced chunk (slots k) else slots k) := by
  intro i hi
  by_cases ha : (slots i).Active = true
  · simp only [ha, if_true] at hi ⊢
    rw [advanced_dataLen]
    exact hfits i ha
  · simp only [ha] at hi ⊢
    exact hfits i hi

theorem callbackLoop_strict (fuel : Nat) (m : AudioMixer) (remaining : Int)
    (out : List (List UInt8)) (hscr : AudioScratchBytes ≤ m.Scratch.length)
    (hstrict : StrictSlots m.Slots) (hfits : Fits32 m.Slots) :
    ∃ m1 chunks, AudioMixer.callbackLoop fuel m remaining out = some (m1, chunks) ∧
      StrictSlots m1.Slots ∧ Fits32 m1.Slots := by
  have hS : AudioScratchBytes = 4096 := rfl
  have hSi : (AudioScratchBytes : Int) = 4096 := rfl
  induction fuel generalizing m remaining out with
  | zero => exact ⟨m, out, rfl, hstrict, hfits⟩
  | succ fuel ih =>
    rw [AudioMixer.callbackLoop]
    by_cases hr : remaining > 0
    · simp only [hr, if_true]
      obtain ⟨m1, bytes, hpass, hslots, hlen, _, _⟩ := fillPass_spec m
        (if remaining > (AudioScratchBytes : Int) then (AudioScratchBytes : Int)
          else remaining).toNat (by split_ifs <;> omega) (by split_ifs <;> omega) (by omega)
        hstrict hfits
      rw [hpass]
      simp only
      exact ih m1 _ _ (by rw [hlen]; exact hscr)
        (by rw [hslots]; exact strict_after_pass _ _ hstrict)
        (by rw [hslots]; exact fits32_after_pass _ _ hfits)
    · simp only [hr, if_false]
      exact ⟨m, out, rfl, hstrict, hfits⟩

theorem play_cases (m : AudioMixer) (res : SoundResource) :
    m.Play res = (m, false) ∨
      ∃ k, (m.Slots k).Active = false ∧
        m.Play res
          = ({ m with Slots := Function.update m.Slots k (ActiveSound.mk (some res) 0 true) },
              true) := by
  by_cases h : ∃ i, (m.Slots i).Active = false
  · obtain ⟨k, hk, hlow⟩ := exists_first_free m h
    exact Or.inr ⟨k, hk, playLoop_first_free res m k hk hlow MaxActiveSounds 0 (Nat.zero_le _)
      (by have := k.isLt; omega)⟩
  · refine Or.inl (playLoop_all_active res m (fun i => ?_) MaxActiveSounds 0)
    by_contra hc
    exact h ⟨i, by simpa using hc⟩

theorem play_strict (m : AudioMixer) (res : SoundResource) (hlen : 0 < res.len)
    (hstrict : StrictSlots m.Slots) : StrictSlots (m.Play res).1.Slots := by
  rcases play_cases m res with h | ⟨k, _, h⟩
  · rw [h]; exact hstrict
  · rw [h]
    intro i hi
    by_cases hik : i = k
    · subst hik
      simp [ActiveSound.dataLen, hlen]
    · simp only [Function.update_noteq hik] at hi ⊢
      exact hstrict i hi

theorem play_empty_panics (m : AudioMixer) (res : SoundResource) (hlen : res.len = 0)
    (hfree : ∃ i, (m.Slots i).Active = false) :
    ∃ k, ((m.Play res).1.Slots k).Active = true ∧ ((m.Play res).1.Slots k).PlayPos = 0 ∧
      ((m.Play res).1.Slots k).dataLen = 0 ∧
      (∀ chunk, (m.Play res).1.fillPass chunk = none) ∧
      ∀ n : Int, 0 < n → (m.Play res).1.Callback n = none := by
  obtain ⟨k, hk, hlow⟩ := exists_first_free m hfree
  have h := playLoop_first_free res m k hk hlow MaxActiveSounds 0 (Nat.zero_le _)
    (by have := k.isLt; omega)
  · rw [show m.Play res = _ from h]
    have ha : (Function.update m.Slots k (ActiveSound.mk (some res) 0 true) k).Active = true := by
      simp
    have hp : ¬ (Function.update m.Slots k (ActiveSound.mk (some res) 0 true) k).PlayPos
        < (Function.update m.Slots k (ActiveSound.mk (some res) 0 true) k).dataLen := by
      simp [ActiveSound.dataLen, hlen]
    refine ⟨k, ha, by simp, by simp [ActiveSound.dataLen, hlen], ?_, ?_⟩
    · intro chunk
      exact fillPass_panic _ chunk k ha hp
    · intro n hn
      exact callback_panic _ n hn k ha hp
/-- C13 (code at the failing input): after `Play` of a non-nil but empty buffer
on the new mixer, slot 0 is active with `PlayPos = 0 = len(Data)`, so the
slot table satisfies `PlayPos <= len(Data)`; the spec wants a fill pass to
leave that slot at `PlayPos = 0` and inactive, but every fill pass panics on
the index expression `Data[PlayPos]` before it reaches the cursor update. -/
theorem C13_cursor_at_end_panics :
    WeakSlots emptyVoiceMixer.Slots ∧
    (emptyVoiceMixer.Slots ⟨0, by decide⟩).Active = true ∧
    (emptyVoiceMixer.Slots ⟨0, by decide⟩).PlayPos = 0 ∧
    (emptyVoiceMixer.Slots ⟨0, by decide⟩).dataLen = 0 ∧
    advanced 4 (emptyVoiceMixer.Slots ⟨0, by decide⟩)
      = { Resource := some emptySound, PlayPos := 0, Active := false } ∧
    ∀ chunk, emptyVoiceMixer.fillPass chunk = none := by
  refine ⟨by decide, by decide, by decide, by decide, by decide, ?_⟩
  intro chunk
  exact fillPass_panic emptyVoiceMixer chunk ⟨0, by decide⟩ (by decide) (by decide)

/-- C20: (1) when every active slot has `PlayPos < len(Resource.Data)` (buffers
shorter than 2^32 bytes), a fill pass over a chunk of 1 to 4096 bytes returns
normally, every sample it reads from `Resource.Data` lies inside the buffer,
each active slot is left with `PlayPos = min(PlayPos + chunk, len)` and
active exactly when that is below `len`, and the strict condition holds
again; (2) so `Callback` returns normally and preserves it; (3) `Play`
preserves the strict condition on every mixer if and only if the buffer it
is given is non-empty; (4) a resource whose `Data` is non-nil but empty passes
the guard `Sound.Data != nil` of the scheduler, and after `Play` on a mixer
with a free slot there is an active slot with `PlayPos = 0 = len(Data)` on
which every fill pass, hence every `Callback` for a positive amount, panics;
(5) this happens in the frame that fires such a sound. -/
theorem C20_strict_cursor_condition :
    (∀ (m : AudioMixer) (chunk : Nat), 0 < chunk → chunk ≤ AudioScratchBytes →
      chunk ≤ m.Scratch.length → StrictSlots m.Slots → Fits32 m.Slots →
      ∃ m1 out, m.fillPass chunk = some (m1, out) ∧
        (∀ i r, (m.Slots i).Resource = some r → (m.Slots i).Active = true →
          ∀ j, j < slotToMix chunk r (m.Slots i).PlayPos / 2 →
            (m.Slots i).PlayPos + 2 * j + 1 < r.len) ∧
        (∀ i, (m.Slots i).Active = true → m1.Slots i = advanced chunk (m.Slots i)) ∧
        (∀ i, (m.Slots i).Active = false → m1.Slots i = m.Slots i) ∧
        StrictSlots m1.Slots ∧ Fits32 m1.Slots) ∧
    (∀ (m : AudioMixer) (n : Int), AudioScratchBytes ≤ m.Scratch.length →
      StrictSlots m.Slots → Fits32 m.Slots →
      ∃ m1 chunks, m.Callback n = some (m1, chunks) ∧ StrictSlots m1.Slots ∧ Fits32 m1.Slots) ∧
    (∀ res : SoundResource,
      (∀ m : AudioMixer, StrictSlots m.Slots → StrictSlots (m.Play res).1.Slots) ↔ 0 < res.len) ∧
    (∀ (m : AudioMixer) (res : SoundResource), res.Data = some [] →
      (∃ i, (m.Slots i).Active = false) →
      res.Data ≠ none ∧
      ∃ k, ((m.Play res).1.Slots k).Active = true ∧ ((m.Play res).1.Slots k).PlayPos = 0 ∧
        ((m.Play res).1.Slots k).dataLen = 0 ∧
        (∀ chunk, (m.Play res).1.fillPass chunk = none) ∧
        ∀ n : Int, 0 < n → (m.Play res).1.Callback n = none) ∧
    (firesSound soundExp emptySoundResources 8 96 0 = true ∧
      ∀ chunk, (frame {} soundExp emptySoundResources true 8 0 {}
        { ticks := 96, ticksAfter := 96 }).mixer.fillPass chunk = none) := by
  have hU : U32 = 4294967296 := rfl
  have hS : AudioScratchBytes = 4096 := rfl
  refine ⟨?_, ?_, ?_, ?_, by decide, ?_⟩
  · intro m chunk h0 hchunk hscr hstrict hfits
    obtain ⟨m1, out, hpass, hslots, _, _, _⟩ :=
      fillPass_spec m chunk hchunk hscr (by omega) hstrict hfits
    refine ⟨m1, out, hpass, ?_, ?_, ?_, ?_, ?_⟩
    · intro i r hr ha j hj
      have hd : (m.Slots i).dataLen = r.len := by simp [ActiveSound.dataLen, hr]
      have hp := hstrict i ha
      have hf := hfits i ha
      rw [hd] at hp hf
      rw [slotToMix_eq_min chunk r _ (by omega) hf (by omega)] at hj
      omega
    · intro i ha
      rw [hslots]
      simp [ha]
    · intro i ha
      rw [hslots]
      simp [ha]
    · rw [hslots]
      exact strict_after_pass chunk m.Slots hstrict
    · rw [hslots]
      exact fits32_after_pass chunk m.Slots hfits
  · intro m n hscr hstrict hfits
    exact callbackLoop_strict n.toNat m n [] hscr hstrict hfits
  · intro res
    constructor
    · intro h
      by_contra hlen
      have hs : StrictSlots (NewAudioMixer.Play res).1.Slots := h NewAudioMixer (fun i hi => by
        simp [NewAudioMixer] at hi)
      obtain ⟨k, hk1, hk2, hk3, _⟩ := play_empty_panics NewAudioMixer res (by omega)
        ⟨⟨0, by decide⟩, rfl⟩
      have := hs k hk1
      omega
    · intro hlen m hstrict
      exact play_strict m res hlen hstrict
  · intro m res hdata hfree
    refine ⟨by rw [hdata]; simp, play_empty_panics m res (by simp [SoundResource.len, hdata]) hfree⟩
  · intro chunk
    have hm : (frame {} soundExp emptySoundResources true 8 0 {}
        { ticks := 96, ticksAfter := 96 }).mixer = (NewAudioMixer.Play emptySound).1 := by
      rw [frame_mixer]
      rfl
    rw [hm]
    exact fillPass_panic _ chunk ⟨0, by decide⟩ (by decide) (by decide)

/-- Witness for C20: the two-voice mixer satisfies the strict condition and a
fill pass of four bytes keeps it; `Play` of the empty buffer on the new mixer
leaves a slot on which the fill pass panics. -/
theorem C20_strict_cursor_condition_witness :
    ((0 : Nat) < 4 ∧ 4 ≤ AudioScratchBytes ∧ 4 ≤ twoVoiceMixer.Scratch.length ∧
      StrictSlots twoVoiceMixer.Slots ∧ Fits32 twoVoiceMixer.Slots) ∧
    (∃ m1 out, twoVoiceMixer.fillPass 4 = some (m1, out) ∧ StrictSlots m1.Slots) ∧
    (emptySound.Data = some [] ∧ (∃ i, (NewAudioMixer.Slots i).Active = false)) ∧
    ∃ k, ((NewAudioMixer.Play emptySound).1.Slots k).Active = true ∧
      ∀ chunk, (NewAudioMixer.Play emptySound).1.fillPass chunk = none := by
  have hs : 4 ≤ twoVoiceMixer.Scratch.length := by
    rw [show twoVoiceMixer.Scratch = List.replicate AudioScratchBytes 0 from rfl,
      List.length_replicate]
    decide
  refine ⟨⟨by decide, by decide, hs, by decide, by decide⟩, ?_, ⟨rfl, ⟨⟨0, by decide⟩, rfl⟩⟩, ?_⟩
  · obtain ⟨m1, out, h1, _, _, _, h5, _⟩ := C20_strict_cursor_condition.1 twoVoiceMixer 4
      (by decide) (by decide) hs (by decide) (by decide)
    exact ⟨m1, out, h1, h5⟩
  · obtain ⟨_, k, h1, _, _, h4, _⟩ := C20_strict_cursor_condition.2.2.2.1 NewAudioMixer
      emptySound rfl ⟨⟨0, by decide⟩, rfl⟩
    exact ⟨k, h1, h4⟩

/-! ## The resource cache: lemmas and claims -/

set_option maxRecDepth 100000 in
theorem repeatExp_load :
    (NewResourceCache.Load demoDecoders repeatExp true "stim").resources
      = [{ Texture := some 1, W := 640, H := 480 }, {}, { Texture := some 1, W := 640, H := 480 },
         {}] ∧
    (NewResourceCache.Load demoDecoders repeatExp true "stim").calls
      = [⟨0, StimImage, "a.png", true⟩, ⟨1, StimSound, "bad.wav", false⟩] := by
  refine ⟨by decide, by decide⟩

theorem decodeEntry_failed (dec : Decoders) (font : Bool) (stimuliDir : String) (n : Nat)
    (s : Stimulus) (h : (decodeEntry dec font stimuliDir n s).2 = some false) :
    (decodeEntry dec font stimuliDir n s).1 = {} := by
  unfold decodeEntry at h ⊢
  cases hT : s.Typ <;> simp only [hT] at h ⊢
  · cases hd : dec.LoadTexture n (dec.Join stimuliDir s.FilePath) with
    | none => rfl
    | some p => simp [hd] at h
  · cases hd : dec.LoadWAV n (dec.Join stimuliDir s.FilePath) with
    | none => rfl
    | some p =>
      obtain ⟨data, spec⟩ := p
      simp only [hd] at h
      split_ifs at h
      · simp at h
      · cases hc : dec.ConvertAudioSamples n spec data <;> simp [hc] at h
  · cases font
    · simp at h
    · simp only [if_true] at h ⊢
      cases hd : dec.RenderTextBlended n s.FilePath with
      | none => rfl
      | some surf =>
        simp only [hd] at h ⊢
        cases hc : dec.CreateTextureFromSurface n surf with
        | none => rfl
        | some tex => simp [hc] at h

theorem lookup_cons_ne (key k : String) (e : CacheEntry) (es : List (String × CacheEntry))
    (h : k ≠ key) : List.lookup k ((key, e) :: es) = List.lookup k es := by
  have hb : (k == key) = false := beq_eq_false_iff_ne.mpr h
  rw [List.lookup_cons, hb]

theorem lookup_cons_self (key : String) (e : CacheEntry) (es : List (String × CacheEntry)) :
    List.lookup key ((key, e) :: es) = some e := by
  simp [List.lookup_cons]

theorem loadStep_inv (dec : Decoders) (font : Bool) (stimuliDir : String)
    (stims : List Stimulus) (i : Nat) (s : Stimulus) (st : LoadState)
    (hs : stims[i]? = some s) (hinv : LoadInv stims i st) :
    LoadInv stims (i + 1) (loadStep dec font stimuliDir i s st) := by
  obtain ⟨hlen, hres, hcalls, hnd⟩ := hinv
  have hi : i < stims.length := (List.getElem?_eq_some_iff.mp hs).1
  unfold loadStep
  cases hl : st.cache.entries.lookup (cacheKey s) with
  | some entry =>
    refine ⟨by simp [hlen], ?_, ?_, hnd⟩
    · intro k sk hk hsk
      by_cases hki : k = i
      · subst hki
        rw [hs] at hsk
        cases hsk
        exact ⟨entry, hl, by simp [List.getElem?_set_self (by omega : k < st.resources.length)]⟩
      · obtain ⟨e, he1, he2⟩ := hres k sk (by omega) hsk
        exact ⟨e, he1, by simp [List.getElem?_set_ne (Ne.symm hki), he2]⟩
    · intro d hd
      obtain ⟨h1, h2, h3⟩ := hcalls d hd
      exact ⟨by omega, h2, h3⟩
  | none =>
    refine ⟨by simp [hlen], ?_, ?_, ?_⟩
    · intro k sk hk hsk
      by_cases hki : k = i
      · subst hki
        rw [hs] at hsk
        cases hsk
        exact ⟨_, lookup_cons_self _ _ _,
          by simp [List.getElem?_set_self (by omega : k < st.resources.length)]⟩
      · obtain ⟨e, he1, he2⟩ := hres k sk (by omega) hsk
        have hne : cacheKey sk ≠ cacheKey s := fun h => by rw [h, hl] at he1; cases he1
        exact ⟨e, by simp only [lookup_cons_ne _ _ _ _ hne, he1],
          by simp [List.getElem?_set_ne (Ne.symm hki), he2]⟩
    · intro d hd
      simp only [List.mem_append] at hd
      rcases hd with hd | hd
      · obtain ⟨h1, h2, e, he1, he2⟩ := hcalls d hd
        have hne : cacheKeyOf d.Typ d.FilePath ≠ cacheKey s := fun h => by
          rw [h, hl] at he1; cases he1
        exact ⟨by omega, h2, e, by simp only [lookup_cons_ne _ _ _ _ hne, he1], he2⟩
      · cases hout : (decodeEntry dec font stimuliDir st.calls.length s).2 with
        | none => simp [hout] at hd
        | some ok =>
          simp only [hout, List.mem_singleton] at hd
          subst hd
          refine ⟨by simp, ⟨s, hs, rfl, rfl⟩, _, lookup_cons_self _ _ _, ?_⟩
          intro hok
          simp only at hok
          subst hok
          exact decodeEntry_failed dec font stimuliDir _ s hout
    · rw [List.map_append, List.nodup_append]
      refine ⟨hnd, ?_, ?_⟩
      · cases (decodeEntry dec font stimuliDir st.calls.length s).2 <;> simp
      · intro p hp1 hp2
        obtain ⟨d, hd, rfl⟩ := List.mem_map.mp hp1
        obtain ⟨_, _, e, he1, _⟩ := hcalls d hd
        have hpair : (d.Typ, d.FilePath) = (s.Typ, s.FilePath) := by
          cases hout : (decodeEntry dec font stimuliDir st.calls.length s).2 with
          | none => simp [hout] at hp2
          | some ok =>
            simp only [hout, List.map_cons, List.map_nil, List.mem_singleton] at hp2
            exact hp2
        have h1 : d.Typ = s.Typ := congrArg Prod.fst hpair
        have h2 : d.FilePath = s.FilePath := congrArg Prod.snd hpair
        rw [h1, h2] at he1
        rw [show cacheKeyOf s.Typ s.FilePath = cacheKey s from rfl, hl] at he1
        cases he1

theorem loadLoop_inv (dec : Decoders) (font : Bool) (stimuliDir : String)
    (stims rest : List Stimulus) (i : Nat) (st : LoadState)
    (hrest : stims.drop i = rest) (hinv : LoadInv stims i st) :
    LoadInv stims stims.length (loadLoop dec font stimuliDir rest i st) := by
  induction rest generalizing i st with
  | nil =>
    have hi : stims.length ≤ i := List.drop_eq_nil_iff.mp hrest
    obtain ⟨h1, h2, h3, h4⟩ := hinv
    refine ⟨h1, ?_, ?_, h4⟩
    · intro k s hk hs
      exact h2 k s (by omega) hs
    · intro d hd
      obtain ⟨a, b, c⟩ := h3 d hd
      obtain ⟨s, hs, _⟩ := b
      exact ⟨(List.getElem?_eq_some_iff.mp hs).1, ⟨s, hs, ‹_›⟩, c⟩
  | cons s rest ih =>
    have hi : i < stims.length := by
      by_contra hc
      rw [List.drop_eq_nil_of_le (by omega)] at hrest
      cases hrest
    have hcons := List.drop_eq_getElem_cons hi
    rw [hrest] at hcons
    have hs : stims[i]? = some s := by
      rw [List.getElem?_eq_getElem hi]
      exact congrArg some (List.cons.inj hcons).1.symm
    rw [loadLoop]
    exact ih (i + 1) _ (List.cons.inj hcons).2.symm
      (loadStep_inv dec font stimuliDir stims i s st hs hinv)

theorem load_inv (c : ResourceCache) (dec : Decoders) (exp : Experiment) (font : Bool)
    (stimuliDir : String) :
    LoadInv exp.Stimuli exp.Stimuli.length
      { resources := (c.Load dec exp font stimuliDir).resources
        cache := (c.Load dec exp font stimuliDir).cache
        calls := (c.Load dec exp font stimuliDir).calls } := by
  exact loadLoop_inv dec font stimuliDir exp.Stimuli exp.Stimuli 0 _ (List.drop_zero _)
    ⟨by simp, fun k s hk _ => absurd hk (Nat.not_lt_zero _), fun d hd => by simp at hd,
      by simp⟩

theorem decodeEntry_failed_iff (dec : Decoders) (font : Bool) (stimuliDir : String) (n : Nat)
    (s : Stimulus) :
    (decodeEntry dec font stimuliDir n s).2 = some false ↔
      (s.Typ = StimImage ∧ dec.LoadTexture n (dec.Join stimuliDir s.FilePath) = none) ∨
      (s.Typ = StimSound ∧ dec.LoadWAV n (dec.Join stimuliDir s.FilePath) = none) ∨
      (s.Typ = StimText ∧ font = true ∧
        (dec.RenderTextBlended n s.FilePath = none ∨
          ∃ surf, dec.RenderTextBlended n s.FilePath = some surf ∧
            dec.CreateTextureFromSurface n surf = none)) := by
  unfold decodeEntry
  cases hT : s.Typ <;> simp only [hT]
  · cases hd : dec.LoadTexture n (dec.Join stimuliDir s.FilePath) <;> simp
  · cases hd : dec.LoadWAV n (dec.Join stimuliDir s.FilePath) with
    | none => simp
    | some p =>
      obtain ⟨data, spec⟩ := p
      simp only
      split_ifs
      · simp
      · cases hc : dec.ConvertAudioSamples n spec data <;> simp
  · cases font
    · simp
    · cases hd : dec.RenderTextBlended n s.FilePath with
      | none => simp
      | some surf =>
        cases hc : dec.CreateTextureFromSurface n surf <;> simp [hc]
  · simp

/-- C14: for every cache, timeline and decoder behaviour, `Load` returns one
resource per timeline position; the decoder invocations it makes are for
stimuli of the timeline and no two of them are for the same kind and
reference, whatever their outcome; and two positions with the same kind and
reference receive the same resource.  On the example timeline the second
`a.png` and the second `bad.wav` trigger no decode. -/
theorem C14_load_decodes_once_per_key (c : ResourceCache) (dec : Decoders) (exp : Experiment)
    (font : Bool) (stimuliDir : String) :
    (c.Load dec exp font stimuliDir).resources.length = exp.Stimuli.length ∧
    ((c.Load dec exp font stimuliDir).calls.map fun d => (d.Typ, d.FilePath)).Nodup ∧
    (∀ d ∈ (c.Load dec exp font stimuliDir).calls,
      ∃ s, exp.Stimuli[d.index]? = some s ∧ s.Typ = d.Typ ∧ s.FilePath = d.FilePath) ∧
    (∀ (i j : Nat) (si sj : Stimulus), exp.Stimuli[i]? = some si → exp.Stimuli[j]? = some sj →
      si.Typ = sj.Typ → si.FilePath = sj.FilePath →
      ∃ r, (c.Load dec exp font stimuliDir).resources[i]? = some r ∧
        (c.Load dec exp font stimuliDir).resources[j]? = some r) ∧
    ((NewResourceCache.Load demoDecoders repeatExp true "stim").resources
        = [{ Texture := some 1, W := 640, H := 480 }, {},
           { Texture := some 1, W := 640, H := 480 }, {}] ∧
      (NewResourceCache.Load demoDecoders repeatExp true "stim").calls
        = [⟨0, StimImage, "a.png", true⟩, ⟨1, StimSound, "bad.wav", false⟩]) := by
  obtain ⟨hlen, hres, hcalls, hnd⟩ := load_inv c dec exp font stimuliDir
  refine ⟨hlen, hnd, fun d hd => (hcalls d hd).2.1, ?_, repeatExp_load⟩
  intro i j si sj hi hj hT hP
  obtain ⟨ei, hei1, hei2⟩ := hres i si (List.getElem?_eq_some_iff.mp hi).1 hi
  obtain ⟨ej, hej1, hej2⟩ := hres j sj (List.getElem?_eq_some_iff.mp hj).1 hj
  have hkey : cacheKey si = cacheKey sj := by simp [cacheKey, hT, hP]
  rw [hkey, hej1] at hei1
  cases hei1
  exact ⟨_, hei2, hej2⟩

set_option maxRecDepth 100000 in
/-- Witness for C14: positions 0 and 2 of the example timeline name the same
image and receive the same resource. -/
theorem C14_load_decodes_once_per_key_witness :
    (repeatExp.Stimuli[0]? = some ⟨0, 100, StimImage, "a.png"⟩ ∧
      repeatExp.Stimuli[2]? = some ⟨400, 100, StimImage, "a.png"⟩) ∧
    ∃ r, (NewResourceCache.Load demoDecoders repeatExp true "stim").resources[0]? = some r ∧
      (NewResourceCache.Load demoDecoders repeatExp true "stim").resources[2]? = some r :=
  ⟨⟨by decide, by decide⟩,
    (C14_load_decodes_once_per_key NewResourceCache demoDecoders repeatExp true "stim").2.2.2.1
      0 2 ⟨0, 100, StimImage, "a.png"⟩ ⟨400, 100, StimImage, "a.png"⟩ (by decide) (by decide)
      rfl rfl⟩

/-- C15: `Load` returns a nil error whatever the decoders do.  A decoder
invocation fails exactly when `LoadTexture`, `LoadWAV`, `RenderTextBlended` or
`CreateTextureFromSurface` returns an error for it, the entry cached for it is
then the zero entry, and the resource returned at its position, and at every
position with the same kind and reference, is the zero `Resource`: `Texture`
nil, `W` and `H` 0, `Sound.Data` nil. -/
theorem C15_load_failures_leave_empty (c : ResourceCache) (dec : Decoders) (exp : Experiment)
    (font : Bool) (stimuliDir : String) :
    (c.Load dec exp font stimuliDir).err = none ∧
    (∀ d ∈ (c.Load dec exp font stimuliDir).calls, d.ok = false →
      (c.Load dec exp font stimuliDir).resources[d.index]?
        = some { Texture := none, W := 0, H := 0, Sound := { Data := none } }) ∧
    (∀ d ∈ (c.Load dec exp font stimuliDir).calls, d.ok = false →
      ∀ (j : Nat) (s : Stimulus), exp.Stimuli[j]? = some s → s.Typ = d.Typ → s.FilePath = d.FilePath →
        (c.Load dec exp font stimuliDir).resources[j]?
          = some { Texture := none, W := 0, H := 0, Sound := { Data := none } }) ∧
    (∀ (n : Nat) (s : Stimulus), (decodeEntry dec font stimuliDir n s).2 = some false →
      (decodeEntry dec font stimuliDir n s).1 = {}) ∧
    (∀ (n : Nat) (s : Stimulus), (decodeEntry dec font stimuliDir n s).2 = some false ↔
      (s.Typ = StimImage ∧ dec.LoadTexture n (dec.Join stimuliDir s.FilePath) = none) ∨
      (s.Typ = StimSound ∧ dec.LoadWAV n (dec.Join stimuliDir s.FilePath) = none) ∨
      (s.Typ = StimText ∧ font = true ∧
        (dec.RenderTextBlended n s.FilePath = none ∨
          ∃ surf, dec.RenderTextBlended n s.FilePath = some surf ∧
            dec.CreateTextureFromSurface n surf = none))) := by
  obtain ⟨_, hres, hcalls, _⟩ := load_inv c dec exp font stimuliDir
  have hshared : ∀ d ∈ (c.Load dec exp font stimuliDir).calls, d.ok = false →
      ∀ (j : Nat) (s : Stimulus), exp.Stimuli[j]? = some s → s.Typ = d.Typ → s.FilePath = d.FilePath →
        (c.Load dec exp font stimuliDir).resources[j]?
          = some { Texture := none, W := 0, H := 0, Sound := { Data := none } } := by
    intro d hd hok j s hj hT hP
    obtain ⟨_, _, e, he1, he2⟩ := hcalls d hd
    obtain ⟨ej, hej1, hej2⟩ := hres j s (List.getElem?_eq_some_iff.mp hj).1 hj
    have hkey : cacheKey s = cacheKeyOf d.Typ d.FilePath := by simp [cacheKey, hT, hP]
    rw [hkey, he1] at hej1
    cases hej1
    rw [hej2, he2 hok]
    rfl
  refine ⟨rfl, ?_, hshared, decodeEntry_failed dec font stimuliDir,
    decodeEntry_failed_iff dec font stimuliDir⟩
  intro d hd hok
  obtain ⟨_, ⟨s, hs, hT, hP⟩, _⟩ := hcalls d hd
  exact hshared d hd hok d.index s hs hT hP

set_option maxRecDepth 100000 in
/-- Witness for C15: the decode of `bad.wav` fails and positions 1 and 3 of the
example timeline receive the zero resource. -/
theorem C15_load_failures_leave_empty_witness :
    ((⟨1, StimSound, "bad.wav", false⟩ : DecodeCall)
        ∈ (NewResourceCache.Load demoDecoders repeatExp true "stim").calls ∧
      repeatExp.Stimuli[3]? = some ⟨600, 100, StimSound, "bad.wav"⟩) ∧
    (NewResourceCache.Load demoDecoders repeatExp true "stim").resources[3]?
      = some { Texture := none, W := 0, H := 0, Sound := { Data := none } } :=
  ⟨⟨by decide, by decide⟩,
    (C15_load_failures_leave_empty NewResourceCache demoDecoders repeatExp true "stim").2.2.1
      ⟨1, StimSound, "bad.wav", false⟩ (by decide) rfl 3 ⟨600, 100, StimSound, "bad.wav"⟩
      (by decide) rfl rfl⟩

/-! ## The trigger device, the log file and the timeline loader: claims -/

theorem demoRecords_load :
    loadRows decimalUint64 asciiToLower demoRecords 0 []
      = Except.ok [⟨0, 100, StimImage, "a.png"⟩, ⟨200, 50, StimSound, "b.wav"⟩,
          ⟨300, 0, StimText, "hello"⟩] := by
  rfl

set_option maxRecDepth 100000 in
theorem unsetByte_fin : ∀ n : Fin (2 ^ 8),
    (isLineDigit (UInt8.mk (BitVec.ofFin n)) = false →
      unsetByte (UInt8.mk (BitVec.ofFin n)) = UInt8.mk (BitVec.ofFin n)) ∧
    (isLineDigit (UInt8.mk (BitVec.ofFin n)) = true →
      unsetByte (UInt8.mk (BitVec.ofFin n)) ∈ unsetCodes ∧
        isLineDigit (unsetByte (UInt8.mk (BitVec.ofFin n))) = false) := by
  decide

theorem unsetByte_spec (b : UInt8) :
    (isLineDigit b = false → unsetByte b = b) ∧
    (isLineDigit b = true → unsetByte b ∈ unsetCodes ∧ isLineDigit (unsetByte b) = false) := by
  rcases b with ⟨⟨n⟩⟩
  exact unsetByte_fin n

/-- C16: for every byte string, `Unset` writes a byte string of the same length
whose `i`-th byte is the image of the `i`-th input byte under the table
`'1'..'8'` to `'Q','W','E','R','T','Y','U','I'`, every other byte being kept;
the eight codes are pairwise distinct and none of them is an ASCII digit; so
when the input consists of digits `'1'..'8'` only, no byte written is one of
those digits, while `Set` writes the input bytes themselves. -/
theorem C16_unset_substitutes_digits (lines : List UInt8) :
    (DLPIO8G.Unset lines).length = lines.length ∧
    (∀ (i : Nat) (b : UInt8), lines[i]? = some b → (DLPIO8G.Unset lines)[i]? = some (unsetByte b)) ∧
    (unsetByte 49 = 81 ∧ unsetByte 50 = 87 ∧ unsetByte 51 = 69 ∧ unsetByte 52 = 82 ∧
      unsetByte 53 = 84 ∧ unsetByte 54 = 89 ∧ unsetByte 55 = 85 ∧ unsetByte 56 = 73) ∧
    (∀ b : UInt8, isLineDigit b = false → unsetByte b = b) ∧
    (unsetCodes.Nodup ∧ ∀ c ∈ unsetCodes, ¬ (48 ≤ c.toNat ∧ c.toNat ≤ 57)) ∧
    ((∀ b ∈ lines, isLineDigit b = true) →
      (∀ b ∈ DLPIO8G.Unset lines, b ∈ unsetCodes ∧ isLineDigit b = false) ∧
      (∀ b ∈ DLPIO8G.Unset lines, b ∉ DLPIO8G.Set lines)) ∧
    DLPIO8G.Set lines = lines := by
  refine ⟨by simp [DLPIO8G.Unset], ?_, by decide, fun b => (unsetByte_spec b).1,
    ⟨by decide, by decide⟩, ?_, rfl⟩
  · intro i b hb
    simp [DLPIO8G.Unset, hb]
  · intro hall
    have hcodes : ∀ b ∈ DLPIO8G.Unset lines, b ∈ unsetCodes ∧ isLineDigit b = false := by
      intro b hb
      obtain ⟨a, ha, rfl⟩ := List.mem_map.mp hb
      exact (unsetByte_spec a).2 (hall a ha)
    refine ⟨hcodes, ?_⟩
    intro b hb hset
    have h1 := (hcodes b hb).2
    have h2 := hall b hset
    rw [h1] at h2
    cases h2

/-- Witness for C16: deasserting lines 1, 3 and 8. -/
theorem C16_unset_substitutes_digits_witness :
    (∀ b ∈ ([49, 51, 56] : List UInt8), isLineDigit b = true) ∧
    DLPIO8G.Unset [49, 51, 56] = [81, 69, 73] ∧
    ∀ b ∈ DLPIO8G.Unset [49, 51, 56], b ∉ DLPIO8G.Set [49, 51, 56] :=
  ⟨by decide, by decide,
    ((C16_unset_substitutes_digits [49, 51, 56]).2.2.2.2.2.1 (by decide)).2⟩

/-- C17: once the serial port has opened, `NewDLPIO8G` returns a device exactly
when the ping write succeeds, the read returns one byte, `'Q'`, without error,
and the binary-mode write succeeds; then it has written `0x27` and, after the
read, `0x5C`, and has not closed the port.  In every other case it returns an
error and no device, and the port is closed right after the operation that
failed: nothing is written after it. -/
theorem C17_handshake (p : PortScript) (hopen : p.openErr = false) :
    ((NewDLPIO8G p).device = true ↔
      (p.pingWriteErr = false ∧ p.readErr = false ∧ p.readN = 1 ∧ p.readByte = 81 ∧
        p.binaryWriteErr = false)) ∧
    ((NewDLPIO8G p).device = true →
      (NewDLPIO8G p).err = none ∧
      (NewDLPIO8G p).ops = [PortOp.Write [0x27], PortOp.Read, PortOp.Write [0x5C]]) ∧
    ((NewDLPIO8G p).device = false →
      (NewDLPIO8G p).err ≠ none ∧
      ((p.pingWriteErr = true ∧ (NewDLPIO8G p).ops = [PortOp.Write [0x27], PortOp.Close]) ∨
       (p.pingWriteErr = false ∧ (p.readErr = true ∨ p.readN ≠ 1 ∨ p.readByte ≠ 81) ∧
          (NewDLPIO8G p).ops = [PortOp.Write [0x27], PortOp.Read, PortOp.Close]) ∨
       (p.pingWriteErr = false ∧ p.binaryWriteErr = true ∧
          (NewDLPIO8G p).ops
            = [PortOp.Write [0x27], PortOp.Read, PortOp.Write [0x5C], PortOp.Close]))) := by
  cases hpw : p.pingWriteErr <;> cases hre : p.readErr <;> cases hbw : p.binaryWriteErr <;>
    by_cases hn : p.readN = 1 <;> by_cases hb : p.readByte = 81 <;>
    simp [NewDLPIO8G, hopen, hpw, hre, hbw, hn, hb]

/-- Witness for C17: a port that answers the ping with `'Q'`. -/
theorem C17_handshake_witness :
    ({} : PortScript).openErr = false ∧ (NewDLPIO8G {}).device = true ∧
      (NewDLPIO8G {}).ops = [PortOp.Write [0x27], PortOp.Read, PortOp.Write [0x5C]] :=
  ⟨rfl, ((C17_handshake {} rfl).1).mpr ⟨rfl, rfl, rfl, rfl, rfl⟩,
    ((C17_handshake {} rfl).2.1 (((C17_handshake {} rfl).1).mpr ⟨rfl, rfl, rfl, rfl, rfl⟩)).2⟩

/-- C18 (code at the failing input): `Save` returns a non-nil error exactly when
`os.Create` fails, and never changes the entries.  On a file that is created
but whose every write and whose flush fail, it hands the header and the row
to the CSV writer and returns nil: the failure does not reach the caller. -/
theorem C18_write_failure_not_returned :
    (∀ (l : EventLog) (fs : FileScript) (path : String), (l.Save fs path).log = l) ∧
    (∀ (l : EventLog) (fs : FileScript) (path : String),
      (l.Save fs path).err ≠ none ↔ fs.createErr path = true) ∧
    (failingFile.writeErr 0 = true ∧ failingFile.writeErr 1 = true ∧
      failingFile.flushErr = true) ∧
    ((EventLog.mk [⟨100, 96, "IMAGE_ONSET", "a.png"⟩]).Save failingFile "results.csv").err
      = none ∧
    ((EventLog.mk [⟨100, 96, "IMAGE_ONSET", "a.png"⟩]).Save failingFile "results.csv").rows
      = [["intended_ms", "actual_ms", "type", "label"], ["100", "96", "IMAGE_ONSET", "a.png"]] := by
  refine ⟨?_, ?_, ⟨rfl, rfl, rfl⟩, by decide, by decide⟩
  · intro l fs path
    unfold EventLog.Save
    split_ifs <;> rfl
  · intro l fs path
    unfold EventLog.Save
    by_cases h : fs.createErr path = true <;> simp [h]

theorem loadRows_ok (parseUint : String → Option Nat) (toLower : String → String)
    (records : List (List String)) (i : Nat) (stimuli : List Stimulus)
    (h : ∀ r ∈ records, hasFourFields r = true → parseRow parseUint toLower r ≠ none) :
    loadRows parseUint toLower records i stimuli
      = Except.ok (stimuli ++
          (records.filter hasFourFields).filterMap (parseRow parseUint toLower)) := by
  induction records generalizing i stimuli with
  | nil => simp [loadRows]
  | cons r rest ih =>
    have hrest := fun x hx => h x (List.mem_cons_of_mem _ hx)
    rw [loadRows]
    by_cases hlen : r.length < 4
    · have hf : hasFourFields r = false := by simp [hasFourFields, hlen]
      simp only [hlen, if_true, List.filter_cons, hf]
      exact ih (i + 1) stimuli hrest
    · have hf : hasFourFields r = true := by simp [hasFourFields]; omega
      have hr := h r (List.mem_cons_self _ _) hf
      simp only [hlen, if_false, List.filter_cons, hf, if_true]
      cases h0 : parseUint (r.getD 0 "") with
      | none => exact absurd (by unfold parseRow; rw [h0]) hr
      | some ts =>
        cases h1 : parseUint (r.getD 1 "") with
        | none => exact absurd (by unfold parseRow; rw [h0, h1]) hr
        | some d =>
          cases h2 : parseStimType (toLower (r.getD 2 "")) with
          | none => exact absurd (by unfold parseRow; rw [h0, h1, h2]) hr
          | some k =>
            have hpr : parseRow parseUint toLower r = some ⟨ts, d, k, r.getD 3 ""⟩ := by
              unfold parseRow; rw [h0, h1, h2]
            rw [List.filterMap_cons, hpr]
            simp only []
            rw [ih (i + 1) _ hrest, List.append_assoc]
            rfl

theorem loadRows_error (parseUint : String → Option Nat) (toLower : String → String)
    (records : List (List String)) (i : Nat) (stimuli : List Stimulus)
    (h : ∃ r ∈ records, hasFourFields r = true ∧ parseRow parseUint toLower r = none) :
    ∃ e, loadRows parseUint toLower records i stimuli = Except.error e := by
  induction records generalizing i stimuli with
  | nil => simp at h
  | cons r rest ih =>
    rw [loadRows]
    by_cases hlen : r.length < 4
    · have hf : hasFourFields r = false := by simp [hasFourFields, hlen]
      simp only [hlen, if_true]
      apply ih
      obtain ⟨x, hx, hx4, hxn⟩ := h
      rcases List.mem_cons.mp hx with rfl | hx
      · rw [hf] at hx4; cases hx4
      · exact ⟨x, hx, hx4, hxn⟩
    · simp only [hlen, if_false]
      cases h0 : parseUint (r.getD 0 "") with
      | none => exact ⟨_, rfl⟩
      | some ts =>
        cases h1 : parseUint (r.getD 1 "") with
        | none => exact ⟨_, rfl⟩
        | some d =>
          cases h2 : parseStimType (toLower (r.getD 2 "")) with
          | none => exact ⟨_, rfl⟩
          | some k =>
            simp only []
            apply ih
            obtain ⟨x, hx, hx4, hxn⟩ := h
            rcases List.mem_cons.mp hx with rfl | hx
            · have hpr : parseRow parseUint toLower x = some ⟨ts, d, k, x.getD 3 ""⟩ := by
                unfold parseRow; rw [h0, h1, h2]
              rw [hpr] at hxn
              cases hxn
            · exact ⟨x, hx, hx4, hxn⟩

theorem filterMap_map_some {α β : Type} (f : α → Option β) (l : List α)
    (h : ∀ a ∈ l, f a ≠ none) : (l.filterMap f).map some = l.map f := by
  induction l with
  | nil => rfl
  | cons a l ih =>
    have ha := h a (List.mem_cons_self _ _)
    cases hfa : f a with
    | none => exact absurd hfa ha
    | some b =>
      rw [List.filterMap_cons, hfa]
      simp only [List.map_cons, hfa]
      rw [ih (fun x hx => h x (List.mem_cons_of_mem _ hx))]

theorem parseRow_none_iff (parseUint : String → Option Nat) (toLower : String → String)
    (r : List String) :
    parseRow parseUint toLower r = none ↔
      parseUint (r.getD 0 "") = none ∨ parseUint (r.getD 1 "") = none ∨
        (toLower (r.getD 2 "") ≠ "image" ∧ toLower (r.getD 2 "") ≠ "sound" ∧
          toLower (r.getD 2 "") ≠ "text") := by
  unfold parseRow parseStimType
  generalize parseUint (r.getD 0 "") = a
  generalize parseUint (r.getD 1 "") = b
  generalize toLower (r.getD 2 "") = c
  generalize r.getD 3 "" = p
  cases a <;> cases b <;> by_cases h1 : c = "image" <;> by_cases h2 : c = "sound" <;>
    by_cases h3 : c = "text" <;> simp [h1, h2, h3]

/-- C19: for every list of records, with `parseUint` standing for
`strconv.ParseUint(_, 10, 64)` and `toLower` for `strings.ToLower`, the row
loop of `LoadExperiment` returns an error exactly when some record with at
least four fields has an onset or a duration that does not parse or a kind
whose lower-cased form is none of `image`, `sound`, `text`; otherwise it
returns, in input order, one stimulus per record with at least four fields,
built from its four fields, and the records with fewer fields are skipped. -/
theorem C19_row_loop (parseUint : String → Option Nat) (toLower : String → String)
    (records : List (List String)) :
    ((∃ e, loadRows parseUint toLower records 0 [] = Except.error e) ↔
      ∃ r ∈ records, 4 ≤ r.length ∧
        (parseUint (r.getD 0 "") = none ∨ parseUint (r.getD 1 "") = none ∨
          (toLower (r.getD 2 "") ≠ "image" ∧ toLower (r.getD 2 "") ≠ "sound" ∧
            toLower (r.getD 2 "") ≠ "text"))) ∧
    ((¬ ∃ e, loadRows parseUint toLower records 0 [] = Except.error e) →
      ∃ stimuli, loadRows parseUint toLower records 0 [] = Except.ok stimuli ∧
        LoadExperiment parseUint toLower (some records) = Except.ok { Stimuli := stimuli } ∧
        stimuli.length = (records.filter fun r => decide (4 ≤ r.length)).length ∧
        stimuli.map some
          = (records.filter fun r => decide (4 ≤ r.length)).map (parseRow parseUint toLower)) ∧
    (∀ (ts d : Nat) (k : StimType) (r : List String),
      parseRow parseUint toLower r = some ⟨ts, d, k, r.getD 3 ""⟩ ↔
        (parseUint (r.getD 0 "") = some ts ∧ parseUint (r.getD 1 "") = some d ∧
          parseStimType (toLower (r.getD 2 "")) = some k)) := by
  have hiff : (∃ e, loadRows parseUint toLower records 0 [] = Except.error e) ↔
      ∃ r ∈ records, hasFourFields r = true ∧ parseRow parseUint toLower r = none := by
    constructor
    · rintro ⟨e, he⟩
      by_contra hc
      have hall : ∀ r ∈ records, hasFourFields r = true → parseRow parseUint toLower r ≠ none :=
        fun r hr h4 hn => hc ⟨r, hr, h4, hn⟩
      rw [loadRows_ok parseUint toLower records 0 [] hall] at he
      cases he
    · exact loadRows_error parseUint toLower records 0 []
  refine ⟨?_, ?_, ?_⟩
  · rw [hiff]
    constructor
    · rintro ⟨r, hr, h4, hn⟩
      exact ⟨r, hr, by simpa [hasFourFields] using h4,
        (parseRow_none_iff parseUint toLower r).mp hn⟩
    · rintro ⟨r, hr, h4, hn⟩
      exact ⟨r, hr, by simpa [hasFourFields] using h4,
        (parseRow_none_iff parseUint toLower r).mpr hn⟩
  · intro hne
    have hall : ∀ r ∈ records, hasFourFields r = true → parseRow parseUint toLower r ≠ none :=
      fun r hr h4 hn => hne (hiff.mpr ⟨r, hr, h4, hn⟩)
    have hok := loadRows_ok parseUint toLower records 0 [] hall
    rw [List.nil_append] at hok
    have hmap := filterMap_map_some (parseRow parseUint toLower) (records.filter hasFourFields)
      (fun r hr => hall r (List.mem_filter.mp hr).1 (List.mem_filter.mp hr).2)
    refine ⟨_, hok, ?_, ?_, hmap⟩
    · simp only [LoadExperiment, hok]
    · have hl := congrArg List.length hmap
      rw [List.length_map, List.length_map] at hl
      exact hl
  · intro ts d k r
    unfold parseRow
    generalize parseUint (r.getD 0 "") = a
    generalize parseUint (r.getD 1 "") = b
    generalize parseStimType (toLower (r.getD 2 "")) = c
    generalize r.getD 3 "" = p
    cases a <;> cases b <;> cases c <;> simp

/-- Witness for C19: the example records load to three stimuli, the short row
being skipped; a record with an unknown kind is an error. -/
theorem C19_row_loop_witness :
    (¬ ∃ e, loadRows decimalUint64 asciiToLower demoRecords 0 [] = Except.error e) ∧
    (∃ stimuli, loadRows decimalUint64 asciiToLower demoRecords 0 [] = Except.ok stimuli ∧
      stimuli.length = 3) ∧
    ∃ e, loadRows decimalUint64 asciiToLower [["0", "100", "video", "a.mp4"]] 0 []
      = Except.error e := by
  have hno : ¬ ∃ e, loadRows decimalUint64 asciiToLower demoRecords 0 [] = Except.error e := by
    rw [demoRecords_load]
    rintro ⟨e, he⟩
    cases he
  refine ⟨hno, ?_, ?_⟩
  · obtain ⟨stimuli, h1, _, h3, _⟩ :=
      (C19_row_loop decimalUint64 asciiToLower demoRecords).2.1 hno
    exact ⟨stimuli, h1, by rw [h3]; rfl⟩
  · exact ⟨_, rfl⟩

/-! ## A stimulus replaced while visible: lemmas and claim -/

section Visible

variable (cfg : Config) (exp : Experiment) (resources : List Resource) (dlp : Bool)
variable (laMS stTicks ct ot : Nat)

theorem runLoop_append (a b : List FrameInput) (st : RunState) :
    runLoop cfg exp resources dlp laMS stTicks (a ++ b) st
      = runLoop cfg exp resources dlp laMS stTicks b
          (runLoop cfg exp resources dlp laMS stTicks a st) := by
  induction a generalizing st with
  | nil => rfl
  | cons inp rest ih =>
    by_cases hr : st.run = true
    · simp only [List.cons_append, runLoop, hr, if_true]
      exact ih _
    · have hb : runLoop cfg exp resources dlp laMS stTicks b st = st := by
        cases b <;> simp [runLoop, hr]
      simp [runLoop, hr, hb]

theorem fireStimulus_unsets (st : RunState) :
    (fireStimulus exp resources dlp laMS ct st).1.trace.filter Effect.isUnset
      = st.trace.filter Effect.isUnset ++
        (if dlp = true ∧ firesSound exp resources laMS ct st.cs = true ∧
            (st.mixer.Play (resourceAt resources st.cs).Sound).2 = true
          then [Effect.DlpUnset "2"] else []) := by
  unfold fireStimulus firesSound
  by_cases h : fireCond exp laMS ct st.cs = true
  · simp only [h, if_true, Bool.true_and]
    split_ifs <;> simp_all [List.filter_append, Effect.isUnset]
  · simp [h]

theorem expireVisible_unsets (st : RunState) :
    (expireVisible exp dlp ct st).trace.filter Effect.isUnset
      = st.trace.filter Effect.isUnset ++
        (if dlp = true ∧ st.avi ≠ -1 ∧ ct ≥ st.vet
          then [Effect.DlpUnset (triggerLine (stimulusAt exp st.avi))] else []) := by
  unfold expireVisible triggerLine
  split_ifs <;> simp_all [List.filter_append, Effect.isUnset]

theorem renderFrame_unsets (st : RunState) :
    (renderFrame cfg st).trace.filter Effect.isUnset = st.trace.filter Effect.isUnset := by
  unfold renderFrame
  split_ifs <;> simp [List.filter_append, Effect.isUnset]

theorem yieldFrame_unsets (st : RunState) :
    (yieldFrame cfg st).trace.filter Effect.isUnset = st.trace.filter Effect.isUnset := by
  unfold yieldFrame
  split_ifs <;> simp [List.filter_append, Effect.isUnset]

theorem frame_unsets (st : RunState) (inp : FrameInput) :
    (frame cfg exp resources dlp laMS stTicks st inp).trace.filter Effect.isUnset
      = st.trace.filter Effect.isUnset ++ frameUnsets exp resources dlp laMS stTicks st inp := by
  simp only [frame, yieldFrame_unsets, logOnset_trace, renderFrame_unsets, checkTermination_trace,
    expireVisible_unsets, fireStimulus_unsets, fireStimulus_avi, fireStimulus_vet,
    pollEvents_trace, audioThread_trace, pollEvents_cs, audioThread_cs, pollEvents_mixer,
    aviFired_pre, vetFired_pre, frameUnsets, expires, decide_eq_true_eq, List.append_assoc]

theorem runLoop_unsets (frames : List FrameInput) (st : RunState) :
    (runLoop cfg exp resources dlp laMS stTicks frames st).trace.filter Effect.isUnset
      = st.trace.filter Effect.isUnset ++
        unsetsAfter st.trace (runLoop cfg exp resources dlp laMS stTicks frames st).trace := by
  induction frames generalizing st with
  | nil => simp [runLoop, unsetsAfter]
  | cons inp rest ih =>
    unfold runLoop
    split
    · have h1 := ih (frame cfg exp resources dlp laMS stTicks st inp)
      rw [frame_unsets] at h1
      unfold unsetsAfter
      rw [h1]
      simp
    · simp [unsetsAfter]

theorem unsetsAfter_cons_run (inp : FrameInput) (rest : List FrameInput) (st : RunState) :
    unsetsAfter st.trace (runLoop cfg exp resources dlp laMS stTicks rest
        (frame cfg exp resources dlp laMS stTicks st inp)).trace
      = frameUnsets exp resources dlp laMS stTicks st inp ++
        unsetsAfter (frame cfg exp resources dlp laMS stTicks st inp).trace
          (runLoop cfg exp resources dlp laMS stTicks rest
            (frame cfg exp resources dlp laMS stTicks st inp)).trace := by
  have h := runLoop_unsets cfg exp resources dlp laMS stTicks rest
    (frame cfg exp resources dlp laMS stTicks st inp)
  conv_lhs => unfold unsetsAfter; rw [h, frame_unsets, List.append_assoc, List.drop_left]

/-- Induction over the frames of a run: an invariant of the state and a
property of every call of `Unset` made. -/
theorem runLoop_unsets_induct (Inv : RunState → Prop) (P : Effect → Prop)
    (frames : List FrameInput)
    (hstep : ∀ (st : RunState) (inp : FrameInput), inp ∈ frames → Inv st →
      Inv (frame cfg exp resources dlp laMS stTicks st inp) ∧
        ∀ eff ∈ frameUnsets exp resources dlp laMS stTicks st inp, P eff)
    (st : RunState) (h0 : Inv st) :
    Inv (runLoop cfg exp resources dlp laMS stTicks frames st) ∧
      ∀ eff ∈ unsetsAfter st.trace (runLoop cfg exp resources dlp laMS stTicks frames st).trace,
        P eff := by
  induction frames generalizing st with
  | nil => simp [runLoop, unsetsAfter, h0]
  | cons inp rest ih =>
    unfold runLoop
    split
    · have hs := hstep st inp (List.mem_cons_self _ _) h0
      have hr := ih (fun st1 inp1 hm hi => hstep st1 inp1 (List.mem_cons_of_mem _ hm) hi)
        (frame cfg exp resources dlp laMS stTicks st inp) hs.1
      refine ⟨hr.1, ?_⟩
      intro eff he
      rw [unsetsAfter_cons_run] at he
      rcases List.mem_append.mp he with he | he
      · exact hs.2 eff he
      · exact hr.2 eff he
    · simp [unsetsAfter, h0]

theorem firesVisual_frameFires (st : RunState) (inp : FrameInput)
    (h : firesVisual exp resources laMS (sub64 inp.ticks stTicks) st.cs = true) :
    frameFires exp laMS stTicks st inp = true :=
  firesVisual_fireCond exp resources laMS _ h

theorem frame_avi_below (st : RunState) (inp : FrameInput) (h : st.avi < (st.cs : Int)) :
    (frame cfg exp resources dlp laMS stTicks st inp).avi
      < ((frame cfg exp resources dlp laMS stTicks st inp).cs : Int) := by
  rw [frame_avi, frame_cs]
  by_cases hf : firesVisual exp resources laMS (sub64 inp.ticks stTicks) st.cs = true
  · rw [firesVisual_frameFires exp resources laMS stTicks st inp hf]
    simp only [aviFired, hf, if_true]
    split_ifs <;> push_cast <;> omega
  · have hav : aviFired exp resources laMS (sub64 inp.ticks stTicks) st = st.avi := by
      simp [aviFired, hf]
    rw [hav]
    by_cases hff : frameFires exp laMS stTicks st inp = true
    · simp only [hff, if_true]
      split_ifs <;> push_cast <;> omega
    · simp only [hff]
      split_ifs <;> simp <;> omega

theorem aviFired_from (j : Nat) (st : RunState) (hj : j ≤ st.cs)
    (h : firesVisual exp resources laMS ct st.cs = true ∨ VisibleFrom exp resources j st.avi) :
    VisibleFrom exp resources j (aviFired exp resources laMS ct st) := by
  unfold aviFired
  split_ifs with hf
  · intro _
    exact ⟨st.cs, rfl, hj, firesVisual_valid exp resources laMS ct hf⟩
  · rcases h with h | h
    · exact absurd h hf
    · exact h

theorem frame_from (j : Nat) (st : RunState) (inp : FrameInput) (hj : j ≤ st.cs)
    (h : firesVisual exp resources laMS (sub64 inp.ticks stTicks) st.cs = true ∨
      VisibleFrom exp resources j st.avi) :
    (j ≤ (frame cfg exp resources dlp laMS stTicks st inp).cs ∧
      VisibleFrom exp resources j (frame cfg exp resources dlp laMS stTicks st inp).avi) ∧
    (∀ e ∈ frameEntries exp resources laMS stTicks st inp, e.isOffset = true →
      ∃ (k t : Nat), j ≤ k ∧ IsVisualValid exp resources k ∧ e = offsetEntry exp t k) ∧
    (∀ eff ∈ frameUnsets exp resources dlp laMS stTicks st inp,
      eff = Effect.DlpUnset "2" ∨
        ∃ k : Nat, j ≤ k ∧ IsVisualValid exp resources k ∧
          eff = Effect.DlpUnset (triggerLine (stimulusAt exp k))) := by
  have hav := aviFired_from exp resources laMS (sub64 inp.ticks stTicks) j st hj h
  refine ⟨⟨?_, ?_⟩, ?_, ?_⟩
  · rw [frame_cs]; omega
  · rw [frame_avi]
    split_ifs
    · intro hne; exact absurd rfl hne
    · exact hav
  · intro e he hoff
    rcases frameEntries_cases exp resources laMS stTicks st inp e he with
      hr | ⟨_, rfl⟩ | ⟨hx, rfl⟩ | ⟨_, rfl⟩
    · rw [not_isOffset_of_response hr.1] at hoff
      exact absurd hoff (by simp)
    · rw [not_isOffset_soundOnsetEntry] at hoff
      exact absurd hoff (by simp)
    · obtain ⟨k, hk, hjk, hval⟩ := hav ((expires_iff exp resources laMS _ st).mp hx).1
      exact ⟨k, sub64 inp.ticks stTicks, hjk, hval, by rw [hk]⟩
    · rw [not_isOffset_onsetEntry] at hoff
      exact absurd hoff (by simp)
  · intro eff he
    unfold frameUnsets at he
    rcases List.mem_append.mp he with he | he
    · split_ifs at he
      · exact Or.inl (by simpa using he)
      · simp at he
    · split_ifs at he with hx
      · obtain ⟨k, hk, hjk, hval⟩ := hav ((expires_iff exp resources laMS _ st).mp hx.2).1
        exact Or.inr ⟨k, hjk, hval, by rw [← hk]; simpa using he⟩
      · simp at he

theorem responseEntries_countP_offset (evs : List Event) :
    (responseEntries ct evs).countP EventLogEntry.isOffset = 0 := by
  rw [List.countP_eq_zero]
  intro e he
  simp [not_isOffset_of_response (responseEntries_typ ct evs e he).1]

theorem responseEntries_countP_onset (evs : List Event) :
    (responseEntries ct evs).countP EventLogEntry.isVisualOnset = 0 := by
  rw [List.countP_eq_zero]
  intro e he
  simp [not_isVisualOnset_of_response (responseEntries_typ ct evs e he).1]

theorem isOffset_offsetEntry (i : Int) : (offsetEntry exp ct i).isOffset = true := by
  rcases offsetEntry_typ exp ct i with h | h <;> simp [EventLogEntry.isOffset, h]

theorem isVisualOnset_onsetEntry (i : Int) : (onsetEntry exp ot i).isVisualOnset = true := by
  rcases onsetEntry_typ exp ot i with h | h <;> simp [EventLogEntry.isVisualOnset, h]

theorem frameEntries_countP_offset (st : RunState) (inp : FrameInput) :
    (frameEntries exp resources laMS stTicks st inp).countP EventLogEntry.isOffset
      = if expires exp resources laMS (sub64 inp.ticks stTicks) st then 1 else 0 := by
  unfold frameEntries
  simp only [List.countP_append, responseEntries_countP_offset]
  split_ifs <;>
    simp [List.countP_cons, not_isOffset_soundOnsetEntry, isOffset_offsetEntry,
      not_isOffset_onsetEntry]

theorem frameEntries_countP_onset (st : RunState) (inp : FrameInput) :
    (frameEntries exp resources laMS stTicks st inp).countP EventLogEntry.isVisualOnset
      = if firesVisual exp resources laMS (sub64 inp.ticks stTicks) st.cs then 1 else 0 := by
  unfold frameEntries
  simp only [List.countP_append, responseEntries_countP_onset]
  split_ifs <;>
    simp [List.countP_cons, not_isVisualOnset_soundOnsetEntry, not_isVisualOnset_offsetEntry,
      isVisualOnset_onsetEntry]

theorem frame_balanced (c : Nat) (log0 : EventLog) (st : RunState) (inp : FrameInput)
    (h : Balanced c log0 st) :
    Balanced
      (c + (if st.avi ≠ -1 ∧
          firesVisual exp resources laMS (sub64 inp.ticks stTicks) st.cs = true then 1 else 0))
      log0 (frame cfg exp resources dlp laMS stTicks st inp) := by
  obtain ⟨d, hd, hle⟩ := h
  refine ⟨d ++ frameEntries exp resources laMS stTicks st inp, ?_, ?_⟩
  · rw [frame_log, hd, List.append_assoc]
  · rw [List.countP_append, List.countP_append, frameEntries_countP_offset,
      frameEntries_countP_onset, frame_avi]
    by_cases hf : firesVisual exp resources laMS (sub64 inp.ticks stTicks) st.cs = true
    · by_cases hx : expires exp resources laMS (sub64 inp.ticks stTicks) st = true
      · simp only [hf, hx, if_true, ne_eq, not_true_eq_false, if_false, and_true]
        split_ifs at hle ⊢ <;> omega
      · have hne : aviFired exp resources laMS (sub64 inp.ticks stTicks) st ≠ -1 := by
          simp only [aviFired, hf, if_true]; omega
        simp only [hf, hx, if_true, ne_eq, hne, not_false_eq_true, and_true]
        split_ifs at hle ⊢ <;> omega
    · have hav : aviFired exp resources laMS (sub64 inp.ticks stTicks) st = st.avi := by
        simp [aviFired, hf]
      have hf0 : firesVisual exp resources laMS (sub64 inp.ticks stTicks) st.cs = false := by
        simpa using hf
      by_cases hx : expires exp resources laMS (sub64 inp.ticks stTicks) st = true
      · have hne := ((expires_iff exp resources laMS _ st).mp hx).1
        rw [hav] at hne
        simp only [hf0, hx, if_true, ne_eq, not_true_eq_false, if_false, and_false, hne,
          not_false_eq_true, Bool.false_eq_true] at hle ⊢
        omega
      · have hx0 : expires exp resources laMS (sub64 inp.ticks stTicks) st = false := by
          simpa using hx
        simp only [hf0, hx0, hav, and_false, if_false, Bool.false_eq_true] at hle ⊢
        omega

theorem balanced_mono {c c1 : Nat} (hc : c1 ≤ c) (log0 : EventLog) (st : RunState)
    (h : Balanced c log0 st) : Balanced c1 log0 st := by
  obtain ⟨d, hd, hle⟩ := h
  exact ⟨d, hd, by omega⟩

theorem runLoop_balanced (c : Nat) (log0 : EventLog) (frames : List FrameInput) (st : RunState)
    (h : Balanced c log0 st) :
    Balanced c log0 (runLoop cfg exp resources dlp laMS stTicks frames st) :=
  (runLoop_induct cfg exp resources dlp laMS stTicks (Balanced c log0) (fun _ => True) frames
    (fun s inp _ hs =>
      ⟨balanced_mono (Nat.le_add_right _ _) log0 _
        (frame_balanced cfg exp resources dlp laMS stTicks c log0 s inp hs), fun _ _ => trivial⟩)
    st h).1

theorem triggerLine_ne_two (s : Stimulus) : triggerLine s ≠ "2" := by
  unfold triggerLine
  split_ifs <;> decide

theorem balanced_count (c : Nat) (log0 : EventLog) (st : RunState) (h : Balanced c log0 st) :
    (appended log0 st.log).countP EventLogEntry.isOffset + c
      ≤ (appended log0 st.log).countP EventLogEntry.isVisualOnset := by
  obtain ⟨d, hd, hle⟩ := h
  unfold appended
  rw [hd, List.drop_left]
  omega

end Visible

set_option maxRecDepth 100000 in
/-- The run over two overlapping images on the 16 ms clock: it reaches
Finished with two onset entries and one offset entry. -/
theorem overlapExp_run :
    (RunExperiment (setTotalDuration {} overlapExp) overlapExp twoTextures NewAudioMixer {} true
        16 0 (clock16 0 60)).returned = some true ∧
    (RunExperiment (setTotalDuration {} overlapExp) overlapExp twoTextures NewAudioMixer {} true
        16 0 (clock16 0 60)).log.Entries
      = [{ IntendedMS := 100, TimestampMS := 96, Typ := "IMAGE_ONSET", Label := "a.png" },
         { IntendedMS := 200, TimestampMS := 192, Typ := "IMAGE_ONSET", Label := "b.png" },
         { IntendedMS := 400, TimestampMS := 400, Typ := "IMAGE_OFFSET", Label := "b.png" }] := by
  refine ⟨by decide, by decide⟩

set_option maxRecDepth 100000 in
/-- Counterexample to C21 as stated: image 0 (100 ms, 200 ms long) is
visible until 296 ms when image 1 fires in the frame at 192 ms.  Both use
trigger line 1, and the expiry of image 1 at 400 ms calls `Unset("1")`: the
line of image 0 is deasserted by `Unset` in the rest of the run, which
reaches Finished. -/
theorem C21_counterexample :
    (RunExperiment (setTotalDuration {} overlapExp) overlapExp twoTextures NewAudioMixer {} true
        16 0 (clock16 0 12)).avi = 0 ∧
    sub64 192 0 < (RunExperiment (setTotalDuration {} overlapExp) overlapExp twoTextures
        NewAudioMixer {} true 16 0 (clock16 0 12)).vet ∧
    firesVisual overlapExp twoTextures (16 / 2) (sub64 192 0)
      (RunExperiment (setTotalDuration {} overlapExp) overlapExp twoTextures NewAudioMixer {} true
        16 0 (clock16 0 12)).cs = true ∧
    (RunExperiment (setTotalDuration {} overlapExp) overlapExp twoTextures NewAudioMixer {} true
        16 0 (clock16 0 12 ++ clock16 192 48)).returned = some true ∧
    triggerLine (stimulusAt overlapExp 0) = "1" ∧
    unsetsAfter
      (RunExperiment (setTotalDuration {} overlapExp) overlapExp twoTextures NewAudioMixer {} true
        16 0 (clock16 0 12)).trace
      (RunExperiment (setTotalDuration {} overlapExp) overlapExp twoTextures NewAudioMixer {} true
        16 0 (clock16 0 12 ++ clock16 192 48)).trace
      = [Effect.DlpUnset "1"] := by
  refine ⟨by decide, by decide, by decide, by decide, by decide, by decide⟩

/-- C21 (amended): let `st` be the state of a run before a frame in which the
image or text stimulus `j = cs` fires with a drawable while stimulus `i` is
visible (`avi = i`, whether or not its expiry time has been reached).  Then
`i` is an earlier image or text stimulus with a drawable, the firing check
sets `avi` to `j`, and from that frame to the end of the run the expiry check
only ever runs for stimuli at index `j` or later: every offset entry appended
is the offset entry of such a stimulus, and every call of `Unset` is the end
of a sound pulse on line 2 or deasserts the line of such a stimulus when it
expires.  So no offset entry and no `Unset` is produced for `i`; the line of
`i` stays asserted when no stimulus from `j` on shares it, and no appended
offset entry carries the label of `i` when no stimulus from `j` on shares
that label.  The log of the whole run then holds more image and text onset
entries than offset entries, at every later point and so when the run is
Finished, as in the run over two overlapping images on the 16 ms clock. -/
theorem C21_replaced_stimulus_never_expires (cfg : Config) (exp : Experiment)
    (resources : List Resource) (dlp : Bool) (fdMS stTicks : Nat) :
    (∀ (mixer : AudioMixer) (log : EventLog) (pre rest : List FrameInput) (inp : FrameInput)
        (i : Nat) (st fin : RunState),
      st = RunExperiment cfg exp resources mixer log dlp fdMS stTicks pre →
      fin = RunExperiment cfg exp resources mixer log dlp fdMS stTicks (pre ++ inp :: rest) →
      st.run = true → st.avi = (i : Int) →
      firesVisual exp resources (fdMS / 2) (sub64 inp.ticks stTicks) st.cs = true →
      (i < st.cs ∧ IsVisualValid exp resources i) ∧
      (fireStimulus exp resources dlp (fdMS / 2) (sub64 inp.ticks stTicks)
        (pollEvents (sub64 inp.ticks stTicks) inp.events (audioThread inp st))).1.avi
          = (st.cs : Int) ∧
      (∀ e ∈ appended st.log fin.log, e.isOffset = true →
        ∃ (k t : Nat), st.cs ≤ k ∧ IsVisualValid exp resources k ∧ e = offsetEntry exp t k) ∧
      (∀ eff ∈ unsetsAfter st.trace fin.trace, eff = Effect.DlpUnset "2" ∨
        ∃ k : Nat, st.cs ≤ k ∧ IsVisualValid exp resources k ∧
          eff = Effect.DlpUnset (triggerLine (stimulusAt exp k))) ∧
      ((∀ k : Nat, st.cs ≤ k → IsVisualValid exp resources k →
          triggerLine (stimulusAt exp k) ≠ triggerLine (stimulusAt exp i)) →
        Effect.DlpUnset (triggerLine (stimulusAt exp i)) ∉ unsetsAfter st.trace fin.trace) ∧
      ((∀ k : Nat, st.cs ≤ k → IsVisualValid exp resources k →
          (stimulusAt exp k).FilePath ≠ (stimulusAt exp i).FilePath) →
        ∀ e ∈ appended st.log fin.log, e.isOffset = true →
          e.Label ≠ (stimulusAt exp i).FilePath) ∧
      (appended log fin.log).countP EventLogEntry.isOffset
        < (appended log fin.log).countP EventLogEntry.isVisualOnset) ∧
    ((RunExperiment (setTotalDuration {} overlapExp) overlapExp twoTextures NewAudioMixer {} true
        16 0 (clock16 0 60)).returned = some true ∧
      (RunExperiment (setTotalDuration {} overlapExp) overlapExp twoTextures NewAudioMixer {} true
        16 0 (clock16 0 60)).log.Entries
        = [{ IntendedMS := 100, TimestampMS := 96, Typ := "IMAGE_ONSET", Label := "a.png" },
           { IntendedMS := 200, TimestampMS := 192, Typ := "IMAGE_ONSET", Label := "b.png" },
           { IntendedMS := 400, TimestampMS := 400, Typ := "IMAGE_OFFSET", Label := "b.png" }]) := by
  refine ⟨?_, overlapExp_run⟩
  intro mixer log pre rest inp i st fin hst hfin hrun havi hfire
  have hst1 : st = runLoop cfg exp resources dlp (fdMS / 2) stTicks pre
      { mixer := mixer, log := log } := hst
  have hpre := (runLoop_induct cfg exp resources dlp (fdMS / 2) stTicks
    (fun s => VisibleOK exp resources s.avi ∧ s.avi < (s.cs : Int) ∧ Balanced 0 log s)
    (fun _ => True) pre
    (fun s inp1 _ hs =>
      ⟨⟨frame_avi_ok cfg exp resources dlp (fdMS / 2) stTicks s inp1 hs.1,
        frame_avi_below cfg exp resources dlp (fdMS / 2) stTicks s inp1 hs.2.1,
        balanced_mono (Nat.le_add_right _ _) log _
          (frame_balanced cfg exp resources dlp (fdMS / 2) stTicks 0 log s inp1 hs.2.2)⟩,
        fun _ _ => trivial⟩)
    { mixer := mixer, log := log }
    ⟨fun h => absurd rfl h, show (-1 : Int) < ((0 : Nat) : Int) by decide,
      ⟨[], by simp, by simp⟩⟩).1
  rw [← hst1] at hpre
  obtain ⟨hvo, hbelow, hbal⟩ := hpre
  have hfin1 : fin = runLoop cfg exp resources dlp (fdMS / 2) stTicks rest
      (frame cfg exp resources dlp (fdMS / 2) stTicks st inp) := by
    rw [hfin]
    unfold RunExperiment
    rw [runLoop_append, ← hst1, runLoop_cons_run cfg exp resources dlp (fdMS / 2) stTicks inp rest
      st hrun]
  have hne : st.avi ≠ -1 := by rw [havi]; omega
  have hfr := frame_from cfg exp resources dlp (fdMS / 2) stTicks st.cs st inp (Nat.le_refl _)
    (Or.inl hfire)
  have hE := (runLoop_induct cfg exp resources dlp (fdMS / 2) stTicks
    (fun s => st.cs ≤ s.cs ∧ VisibleFrom exp resources st.cs s.avi)
    (fun e => e.isOffset = true →
      ∃ (k t : Nat), st.cs ≤ k ∧ IsVisualValid exp resources k ∧ e = offsetEntry exp t k) rest
    (fun s inp1 _ hs =>
      ⟨(frame_from cfg exp resources dlp (fdMS / 2) stTicks st.cs s inp1 hs.1 (Or.inr hs.2)).1,
        (frame_from cfg exp resources dlp (fdMS / 2) stTicks st.cs s inp1 hs.1
          (Or.inr hs.2)).2.1⟩)
    (frame cfg exp resources dlp (fdMS / 2) stTicks st inp) hfr.1).2
  have hU := (runLoop_unsets_induct cfg exp resources dlp (fdMS / 2) stTicks
    (fun s => st.cs ≤ s.cs ∧ VisibleFrom exp resources st.cs s.avi)
    (fun eff => eff = Effect.DlpUnset "2" ∨
      ∃ k : Nat, st.cs ≤ k ∧ IsVisualValid exp resources k ∧
        eff = Effect.DlpUnset (triggerLine (stimulusAt exp k))) rest
    (fun s inp1 _ hs =>
      ⟨(frame_from cfg exp resources dlp (fdMS / 2) stTicks st.cs s inp1 hs.1 (Or.inr hs.2)).1,
        (frame_from cfg exp resources dlp (fdMS / 2) stTicks st.cs s inp1 hs.1
          (Or.inr hs.2)).2.2⟩)
    (frame cfg exp resources dlp (fdMS / 2) stTicks st inp) hfr.1).2
  have hoff : ∀ e ∈ appended st.log fin.log, e.isOffset = true →
      ∃ (k t : Nat), st.cs ≤ k ∧ IsVisualValid exp resources k ∧ e = offsetEntry exp t k := by
    intro e he
    rw [hfin1, appended_cons_run] at he
    rcases List.mem_append.mp he with he | he
    · exact hfr.2.1 e he
    · exact hE e he
  have huns : ∀ eff ∈ unsetsAfter st.trace fin.trace, eff = Effect.DlpUnset "2" ∨
      ∃ k : Nat, st.cs ≤ k ∧ IsVisualValid exp resources k ∧
        eff = Effect.DlpUnset (triggerLine (stimulusAt exp k)) := by
    intro eff he
    rw [hfin1, unsetsAfter_cons_run] at he
    rcases List.mem_append.mp he with he | he
    · exact hfr.2.2 eff he
    · exact hU eff he
  refine ⟨⟨?_, ?_⟩, ?_, hoff, huns, ?_, ?_, ?_⟩
  · rw [havi] at hbelow
    exact_mod_cast hbelow
  · obtain ⟨i1, hi1, hv⟩ := hvo hne
    have hii : i1 = i := by
      rw [havi] at hi1
      exact_mod_cast hi1.symm
    rw [← hii]
    exact hv
  · rw [fireStimulus_avi, aviFired_pre]
    simp [aviFired, hfire]
  · intro hlines hmem
    rcases huns _ hmem with h2 | ⟨k, hjk, hv, hk⟩
    · exact triggerLine_ne_two _ (Effect.DlpUnset.inj h2)
    · exact hlines k hjk hv (Effect.DlpUnset.inj hk).symm
  · intro hlabels e he heo hlab
    obtain ⟨k, t, hjk, hv, hk⟩ := hoff e he heo
    rw [hk] at hlab
    exact hlabels k hjk hv hlab
  · have hb1 := frame_balanced cfg exp resources dlp (fdMS / 2) stTicks 0 log st inp hbal
    simp only [hne, hfire, ne_eq, not_false_eq_true, and_self, if_true, Nat.zero_add] at hb1
    have hb2 := runLoop_balanced cfg exp resources dlp (fdMS / 2) stTicks 1 log rest _ hb1
    rw [← hfin1] at hb2
    have := balanced_count 1 log fin hb2
    omega

set_option maxRecDepth 100000 in
/-- Witness for C21 (amended): an image at 100 ms for 200 ms is visible until
296 ms when a text fires in the frame at 192 ms.  The run reaches Finished
with `IMAGE_ONSET`, `TEXT_ONSET` and `TEXT_OFFSET` only, and line 1 is never
deasserted. -/
theorem C21_replaced_stimulus_never_expires_witness :
    ((RunExperiment (setTotalDuration {} mixedExp) mixedExp twoTextures NewAudioMixer {} true
        16 0 (clock16 0 12)).run = true ∧
      (RunExperiment (setTotalDuration {} mixedExp) mixedExp twoTextures NewAudioMixer {} true
        16 0 (clock16 0 12)).avi = ((0 : Nat) : Int) ∧
      sub64 192 0 < (RunExperiment (setTotalDuration {} mixedExp) mixedExp twoTextures
        NewAudioMixer {} true 16 0 (clock16 0 12)).vet ∧
      firesVisual mixedExp twoTextures (16 / 2) (sub64 192 0)
        (RunExperiment (setTotalDuration {} mixedExp) mixedExp twoTextures NewAudioMixer {} true
          16 0 (clock16 0 12)).cs = true ∧
      (RunExperiment (setTotalDuration {} mixedExp) mixedExp twoTextures NewAudioMixer {} true
        16 0 (clock16 0 12 ++ { ticks := 192, ticksAfter := 192 } :: clock16 208 47)).returned
          = some true) ∧
    (Effect.DlpUnset (triggerLine (stimulusAt mixedExp (0 : Nat))) ∉
      unsetsAfter
        (RunExperiment (setTotalDuration {} mixedExp) mixedExp twoTextures NewAudioMixer {} true
          16 0 (clock16 0 12)).trace
        (RunExperiment (setTotalDuration {} mixedExp) mixedExp twoTextures NewAudioMixer {} true
          16 0 (clock16 0 12 ++ { ticks := 192, ticksAfter := 192 } :: clock16 208 47)).trace) ∧
    (appended {} (RunExperiment (setTotalDuration {} mixedExp) mixedExp twoTextures
        NewAudioMixer {} true 16 0
        (clock16 0 12 ++ { ticks := 192, ticksAfter := 192 } :: clock16 208 47)).log).countP
        EventLogEntry.isOffset
      < (appended {} (RunExperiment (setTotalDuration {} mixedExp) mixedExp twoTextures
        NewAudioMixer {} true 16 0
        (clock16 0 12 ++ { ticks := 192, ticksAfter := 192 } :: clock16 208 47)).log).countP
        EventLogEntry.isVisualOnset :=
  have h := (C21_replaced_stimulus_never_expires (setTotalDuration {} mixedExp) mixedExp
    twoTextures true 16 0).1 NewAudioMixer {} (clock16 0 12) (clock16 208 47)
    { ticks := 192, ticksAfter := 192 } 0 _ _ rfl rfl (by decide) (by decide) (by decide)
  ⟨⟨by decide, by decide, by decide, by decide, by decide⟩,
    h.2.2.2.2.1 (fun k hk hv => by
      have hlt : k < 2 := hv.1
      have h1 : 1 ≤ k := hk
      have hk1 : k = 1 := by omega
      subst hk1
      decide),
    h.2.2.2.2.2.2⟩

end Expe3000
